import Mathlib

/-!
# Fathom — formal verification of the natural-language specification

A shallow embedding, in Lean 4, of the parts of the `fathom` server that the
frozen claims C1–C10 are about, together with theorems settling each claim.

Conventions used throughout:
* Rust `u64` arithmetic is modelled as `Nat` with explicit saturation at
  `2 ^ 64 - 1` where the source uses `saturating_*` operations.
* Rust `String`/`str` values are modelled as Lean `String` when only
  equality/prefix tests matter, and as `List Char` where index-based
  slicing and substring search matter (Rust byte indices always fall on
  UTF-8 character boundaries at the places the code slices, so the
  character-level model is faithful).
* `serde_json::Value` is modelled by the inductive `Json` below; JSON
  numbers are modelled as unbounded integers together with an explicit
  i64-range test where the source calls `Value::as_i64`.
* Effectful functions are modelled as pure functions over an explicit
  filesystem/session state, returning `Except FsError _` for fallible
  code paths and an explicit trace of the filesystem operations performed.
-/

namespace Fathom

/-! ## u64 saturating arithmetic -/

/-- `u64::MAX` = `2 ^ 64 - 1`. -/
def u64Max : Nat := 18446744073709551615

/-- Rust `u64::saturating_mul`. -/
def satMulU64 (a b : Nat) : Nat := min (a * b) u64Max

/-- Rust `u64::saturating_add`. -/
def satAddU64 (a b : Nat) : Nat := min (a + b) u64Max

/-- Rust `u64::saturating_pow` (the result is the mathematical power,
saturated at `u64::MAX`; Rust computes it by square-and-multiply with
`checked_mul`, which overflows exactly when the true power exceeds the
maximum). -/
def satPowU64 (b e : Nat) : Nat := min (b ^ e) u64Max

/-! ## `agent/retry.rs` — `RetryPolicy` (claim C9) -/

/-- `RetryPolicy` from `src/fathom-server/src/agent/retry.rs`. -/
structure RetryPolicy where
  max_retries : Nat
  base_delay_ms : Nat
  max_delay_ms : Nat
  jitter_ms : Nat
  deriving Repr, DecidableEq

/-- `RetryPolicy::conservative`. -/
def RetryPolicy.conservative : RetryPolicy :=
  { max_retries := 2, base_delay_ms := 400, max_delay_ms := 4000, jitter_ms := 300 }

/-- `RetryPolicy::compute_delay`.  `attempt` is a `usize` and the source
casts it with `attempt as u32`, i.e. reduces it modulo `2 ^ 32`; `nowMs`
stands for the value returned by `now_unix_ms()` (an `i64`), of which the
source takes `unsigned_abs()`.  The result is the delay in milliseconds. -/
def RetryPolicy.compute_delay (p : RetryPolicy) (attempt : Nat)
    (retry_after : Option Nat) (nowMs : Int) : Nat :=
  match retry_after with
  | some d => d
  | none =>
    let exp := satMulU64 (satPowU64 2 (attempt % 2 ^ 32)) p.base_delay_ms
    let bounded := min exp p.max_delay_ms
    let jitter := if p.jitter_ms = 0 then 0 else nowMs.natAbs % p.jitter_ms
    satAddU64 bounded jitter

/-- The delay formula exactly as the spec sentence states it:
`min(base_delay_ms * 2^attempt, max_delay_ms) + (now_ms mod jitter_ms)`
under the conservative configuration, with `retry_after` passed through
verbatim.  (This is the claim's wording, not the source.) -/
def claimDelayFormula (attempt : Nat) (retry_after : Option Nat) (nowMs : Int) : Nat :=
  match retry_after with
  | some d => d
  | none => min (400 * 2 ^ attempt) 4000 + (nowMs % 300).toNat

/-! ## `fs/managed.rs` / `fs/real.rs` — string replacement (claim C10) -/

/-- `ReplaceMode` from `src/fathom-server/src/fs.rs`. -/
inductive ReplaceMode where
  | first
  | all
  deriving Repr, DecidableEq

/-- Rust `str::find(old)`: index of the first occurrence of `old` in `s`
(`some 0` when `old` is empty), `none` when absent. -/
def findOcc : List Char → List Char → Option Nat
  | [], old => if old.isPrefixOf ([] : List Char) then some 0 else none
  | c :: t, old =>
    if old.isPrefixOf (c :: t) then some 0 else (findOcc t old).map (· + 1)

theorem findOcc_bound {s old : List Char} {i : Nat} (h : findOcc s old = some i) :
    i + old.length ≤ s.length := by
  induction s generalizing i with
  | nil =>
    simp only [findOcc] at h
    split at h
    · next hp =>
      cases h
      have := List.isPrefixOf_iff_prefix.mp hp
      simpa using this.length_le
    · cases h
  | cons c t ih =>
    simp only [findOcc] at h
    split at h
    · next hp =>
      cases h
      have := List.isPrefixOf_iff_prefix.mp hp
      simpa using this.length_le
    · next =>
      rcases Option.map_eq_some'.mp h with ⟨j, hj, rfl⟩
      have := ih hj
      simp only [List.length_cons]
      omega

/-- The leftmost non-overlapping replacement scan shared by Rust
`str::replace` (first component) and `str::matches(old).count()` (second
component): find the first occurrence, substitute, continue after it. -/
def replaceScan (s old new : List Char) : List Char × Nat :=
  if _h : old = [] then (s, 0)
  else
    match _hf : findOcc s old with
    | none => (s, 0)
    | some i =>
      let r := replaceScan (s.drop (i + old.length)) old new
      (s.take i ++ new ++ r.1, r.2 + 1)
termination_by s.length
decreasing_by
  simp only [List.length_drop]
  have hb := @findOcc_bound s old _ _hf
  have hl : 1 ≤ old.length := by
    cases old with
    | nil => exact absurd rfl _h
    | cons a t => simp
  omega

/-- Number of non-overlapping occurrences of `old` in `s` (leftmost scan),
the count the spec refers to for mode `all`. -/
def countOcc (s old : List Char) : Nat := (replaceScan s old []).2

/-- `apply_replace` from `src/fathom-server/src/fs/managed.rs` (the guard
`old.is_empty()` is checked by the caller `managed::replace`, so this is
the function on non-empty `old`; it is total here and mirrors the source
text). -/
def apply_replace (current old new : List Char) (mode : ReplaceMode) :
    List Char × Nat :=
  match mode with
  | .all =>
    let replacements := (replaceScan current old new).2
    let updated := (replaceScan current old new).1
    (updated, replacements)
  | .first =>
    match findOcc current old with
    | none => (current, 0)
    | some start =>
      (current.take start ++ new ++ current.drop (start + old.length), 1)

/-- The in-memory replacement logic of `real::replace` from
`src/fathom-server/src/fs/real.rs` (the pure string part, between the
read and the write-back; note its extra special case for a full-string
first-occurrence match). -/
def real_replace_pure (current old new : List Char) (mode : ReplaceMode) :
    List Char × Nat :=
  match mode with
  | .all =>
    ((replaceScan current old new).1, (replaceScan current old new).2)
  | .first =>
    match findOcc current old with
    | some start =>
      if start = 0 ∧ old.length = current.length then (new, 1)
      else (current.take start ++ new ++ current.drop (start + old.length), 1)
    | none => (current, 0)

theorem one_le_length_of_ne_nil {α : Type} {l : List α} (h : l ≠ []) :
    1 ≤ l.length := by
  cases l with
  | nil => exact absurd rfl h
  | cons a t => simp

/-- The scan's replacement count does not depend on the replacement text. -/
theorem replaceScan_snd_indep (old new : List Char) :
    ∀ n (s : List Char), s.length ≤ n →
      (replaceScan s old new).2 = (replaceScan s old []).2 := by
  intro n
  induction n with
  | zero =>
    intro s hs
    have hnil : s = [] := List.eq_nil_of_length_eq_zero (Nat.le_zero.mp hs)
    subst hnil
    rw [replaceScan, replaceScan]
    split
    · rfl
    · next hold =>
      split
      · rfl
      · next i hi =>
        exfalso
        have hb := findOcc_bound hi
        have hl : 1 ≤ old.length := one_le_length_of_ne_nil hold
        simp only [List.length_nil] at hb
        omega
  | succ n ih =>
    intro s hs
    rw [replaceScan, replaceScan]
    split
    · rfl
    · next hold =>
      split
      · rfl
      · next i hi =>
        show (replaceScan (s.drop (i + old.length)) old new).2 + 1 =
          (replaceScan (s.drop (i + old.length)) old []).2 + 1
        have hb := findOcc_bound hi
        have hl : 1 ≤ old.length := one_le_length_of_ne_nil hold
        have hlen : (s.drop (i + old.length)).length ≤ n := by
          simp only [List.length_drop]
          omega
        rw [ih _ hlen]

/-- **C9 counterexample.**  At `attempt = 0`, `retry_after` absent and
`now_ms = -100`, the code computes the jitter from `now_ms.unsigned_abs()`
and returns `400 + (100 mod 300) = 500` ms, while the claimed formula
`min(base_delay_ms * 2^attempt, max_delay_ms) + (now_ms mod jitter_ms)`
gives `400 + ((-100) mod 300) = 600` ms.  (A second divergence, not
expressible as a kernel-checkable concrete evaluation because it involves
`2 ^ 2 ^ 32`: the source truncates `attempt` with `as u32`, so at
`attempt = 2 ^ 32` it returns 400 + jitter where the claimed formula gives
4000 + jitter; the amended theorem's `attempt % 2 ^ 32` exponent records
this.) -/
theorem c9_compute_delay_counterexample :
    RetryPolicy.conservative.compute_delay 0 none (-100) = 500 ∧
      claimDelayFormula 0 none (-100) = 600 ∧ (500 : Nat) ≠ 600 :=
  ⟨by decide, by decide, by decide⟩

/-- **C9 (amended).**  Under the conservative configuration,
`compute_delay(attempt, retry_after_opt)` returns `retry_after_opt`
verbatim when present, and otherwise returns
`min(base_delay_ms * 2^(attempt mod 2^32), max_delay_ms) + (|now_ms| mod jitter_ms)`
milliseconds — the exponent is the `usize → u32` truncation of `attempt`
and the jitter uses the absolute value of the clock reading. -/
theorem c9_compute_delay_amended (attempt : Nat) (retry_after : Option Nat)
    (nowMs : Int) :
    RetryPolicy.conservative.compute_delay attempt retry_after nowMs =
      match retry_after with
      | some d => d
      | none => min (400 * 2 ^ (attempt % 2 ^ 32)) 4000 + nowMs.natAbs % 300 := by
  cases retry_after with
  | some d => rfl
  | none =>
    simp only [RetryPolicy.compute_delay, RetryPolicy.conservative, satMulU64,
      satPowU64, satAddU64, u64Max]
    have hx : 1 ≤ 2 ^ (attempt % 2 ^ 32) := Nat.one_le_two_pow
    have hj : nowMs.natAbs % 300 < 300 := Nat.mod_lt _ (by norm_num)
    generalize 2 ^ (attempt % 2 ^ 32) = x at hx
    simp only [show (300 : Nat) ≠ 0 by norm_num, if_false]
    omega

/-- **C10.**  The managed backend's `apply_replace` and the real backend's
in-memory replacement logic compute the same pure string function: for
every content string and non-empty `old`, mode `first` replaces exactly
the first occurrence (count 1, or 0 with the content unchanged when `old`
is absent), and mode `all`'s replacement count is the number of
non-overlapping occurrences, independent of `new`. -/
theorem c10_replace_backends_agree (current old new : List Char)
    (mode : ReplaceMode) (_hold : old ≠ []) :
    real_replace_pure current old new mode = apply_replace current old new mode ∧
      (apply_replace current old new .all).2 = countOcc current old ∧
      (apply_replace current old new .first).2 =
        (if (findOcc current old).isSome then 1 else 0) ∧
      (findOcc current old = none → apply_replace current old new mode = (current, 0)) := by
  refine ⟨?_, ?_, ?_, ?_⟩
  · cases mode with
    | all => rfl
    | first =>
      cases hf : findOcc current old with
      | none => simp [real_replace_pure, apply_replace, hf]
      | some start =>
        simp only [real_replace_pure, apply_replace, hf]
        split
        · next hcase =>
          obtain ⟨h0, hlen⟩ := hcase
          subst h0
          have hd : current.drop old.length = [] :=
            List.drop_eq_nil_of_le (by omega)
          simp [hd]
        · rfl
  · simp only [apply_replace, countOcc]
    exact replaceScan_snd_indep old new current.length current le_rfl
  · simp only [apply_replace]
    cases findOcc current old <;> simp
  · intro hnone
    cases mode with
    | all =>
      simp only [apply_replace]
      rw [replaceScan]
      split
      · rfl
      · split
        · rfl
        · next i hi => rw [hnone] at hi; cases hi
    | first => simp [apply_replace, hnone]

/-- Witness for C10 at a concrete input: `old = "ab"` in `"abab"`. -/
theorem c10_replace_backends_agree_witness :
    (['a', 'b'] : List Char) ≠ [] ∧
      (real_replace_pure ['a', 'b', 'a', 'b'] ['a', 'b'] ['c'] .all =
          apply_replace ['a', 'b', 'a', 'b'] ['a', 'b'] ['c'] .all ∧
        (apply_replace ['a', 'b', 'a', 'b'] ['a', 'b'] ['c'] .all).2 =
          countOcc ['a', 'b', 'a', 'b'] ['a', 'b'] ∧
        (apply_replace ['a', 'b', 'a', 'b'] ['a', 'b'] ['c'] .first).2 =
          (if (findOcc ['a', 'b', 'a', 'b'] ['a', 'b']).isSome then 1 else 0) ∧
        (findOcc ['a', 'b', 'a', 'b'] ['a', 'b'] = none →
          apply_replace ['a', 'b', 'a', 'b'] ['a', 'b'] ['c'] .all =
            (['a', 'b', 'a', 'b'], 0))) :=
  ⟨by decide, c10_replace_backends_agree ['a', 'b', 'a', 'b'] ['a', 'b'] ['c'] .all
    (by decide)⟩

/-! ## `fs/error.rs` — `FsError` -/

/-- `FsError` from `src/fathom-server/src/fs/error.rs`: a static error code
and a message. -/
structure FsError where
  code : String
  message : String
  deriving Repr, DecidableEq

def FsError.invalid_args (m : String) : FsError := ⟨"invalid_args", m⟩

def FsError.invalid_path (m : String) : FsError := ⟨"invalid_path", m⟩

def FsError.not_found (m : String) : FsError := ⟨"not_found", m⟩

def FsError.not_file (m : String) : FsError := ⟨"not_file", m⟩

def FsError.not_directory (m : String) : FsError := ⟨"not_directory", m⟩

def FsError.already_exists (m : String) : FsError := ⟨"already_exists", m⟩

def FsError.permission_denied (m : String) : FsError := ⟨"permission_denied", m⟩

def FsError.io_error (m : String) : FsError := ⟨"io_error", m⟩

/-! ## `fs/path.rs` — URI parsing and normalization (claim C5)

Rust `&str` path data is modelled as `List Char` (named `Str` below) so
that every operation is structural and kernel-computable; Rust's byte
positions always fall on character boundaries in this code.  `String` is
kept only for error messages. -/

/-- Character-list model of Rust string data. -/
abbrev Str := List Char

/-- Split a character list at `'/'` (how `std::path` splits a Unix path,
and how `str::split('/')` behaves). -/
def splitSlash : Str → List Str
  | [] => [[]]
  | c :: t =>
    match splitSlash t with
    | [] => [[c]]
    | h :: rest => if c = '/' then [] :: h :: rest else (c :: h) :: rest

/-- Rust `str::trim` (whitespace from both ends). -/
def strTrim (s : Str) : Str :=
  ((s.dropWhile Char.isWhitespace).reverse.dropWhile Char.isWhitespace).reverse

/-- Join segments with `'/'` (`Vec::join("/")` / URI reconstruction). -/
def joinSlash (segs : List Str) : Str := (segs.intersperse ['/']).flatten

/-- Rust `str::strip_prefix` (structural form). -/
def stripPre : Str → Str → Option Str
  | [], s => some s
  | _ :: _, [] => none
  | p :: ps, c :: cs => if p = c then stripPre ps cs else none

/-- `MANAGED_PREFIX` = `"managed://"`. -/
def MANAGED_PREFIX : Str := ['m', 'a', 'n', 'a', 'g', 'e', 'd', ':', '/', '/']

/-- `REAL_PREFIX` = `"fs://"`. -/
def REAL_PREFIX : Str := ['f', 's', ':', '/', '/']

/-- `std::path::Component` (on a Unix host there are no `Prefix`
components; the constructor is kept because the source matches on it). -/
inductive PathComponent where
  | curDir
  | parentDir
  | rootDir
  | prefixDir
  | normal (s : Str)
  deriving Repr, DecidableEq

/-- How one non-empty slash-separated part of a *relative* Unix path turns
into components: `"."` is `CurDir` when it is the first part and is elided
otherwise; `".."` is `ParentDir`; anything else is `Normal`. -/
def classifyComponent (first : Bool) (s : Str) : List PathComponent :=
  if s = ['.'] then (if first then [PathComponent.curDir] else [])
  else if s = ['.', '.'] then [PathComponent.parentDir]
  else [PathComponent.normal s]

/-- `Path::new(raw).components()` for a `raw` that does not start with
`'/'` (the source rejects those first): split at `'/'`, drop empty parts,
classify. -/
def componentsOf (raw : Str) : List PathComponent :=
  match (splitSlash raw).filter (fun s => s ≠ []) with
  | [] => []
  | p :: rest =>
    classifyComponent true p ++ (rest.map (classifyComponent false)).flatten

/-- `raw.starts_with('/') || raw.starts_with('\\')`. -/
def leadingSlashOrBackslash : Str → Bool
  | c :: _ => c = '/' || c = '\\'
  | [] => false

/-- The component loop inside `normalize_fs_relative`
(`src/fathom-server/src/fs/path.rs`): `CurDir` dropped, `Normal` pushed,
`ParentDir` pops (empty stack → `permission_denied`), `RootDir`/`Prefix` →
`invalid_path`. -/
def normalizeComponents : List PathComponent → List Str → Except FsError (List Str)
  | [], acc => .ok acc
  | c :: rest, acc =>
    match c with
    | .curDir => normalizeComponents rest acc
    | .normal s => normalizeComponents rest (acc ++ [s])
    | .parentDir =>
      match acc with
      | [] => .error (FsError.permission_denied "fs:// path escapes workspace root")
      | _ :: _ => normalizeComponents rest acc.dropLast
    | .rootDir => .error (FsError.invalid_path "fs:// path must be workspace-relative")
    | .prefixDir => .error (FsError.invalid_path "fs:// path must be workspace-relative")

/-- `normalize_fs_relative`: returns the relative path (as its list of
segments; `["."]` for the empty remainder) and the forward-slash URI
form. -/
def normalize_fs_relative (raw : Str) : Except FsError (List Str × Str) :=
  if leadingSlashOrBackslash raw then
    .error (FsError.invalid_path "fs:// path must be workspace-relative, not absolute")
  else
    match normalizeComponents (componentsOf raw) [] with
    | .error e => .error e
    | .ok segments =>
      if segments = [] then .ok ([['.']], ['.'])
      else .ok (segments, joinSlash segments)

/-- `ManagedEntity` from `src/fathom-server/src/fs/path.rs`. -/
inductive ManagedEntity where
  | agent
  | user
  deriving Repr, DecidableEq

/-- `ManagedEntity::as_str`. -/
def ManagedEntity.as_str : ManagedEntity → Str
  | .agent => ['a', 'g', 'e', 'n', 't']
  | .user => ['u', 's', 'e', 'r']

/-- `ManagedPath`. -/
structure ManagedPath where
  entity : ManagedEntity
  id : Str
  field : Option Str
  normalized_uri : Str
  deriving Repr, DecidableEq

/-- `RealPath` (its `rel_path : PathBuf` is the list of segments). -/
structure RealPath where
  rel_path : List Str
  normalized_uri : Str
  deriving Repr, DecidableEq

/-- `ParsedPath`. -/
inductive ParsedPath where
  | managed (p : ManagedPath)
  | real (p : RealPath)
  deriving Repr, DecidableEq

/-- The entity/id/field part of `parse_managed_path` once the 2–3
non-empty segments are in hand. -/
def parse_managed_segments (s0 s1 : Str) (fieldSeg : Option Str) :
    Except FsError ParsedPath :=
  match (if s0 = ['a', 'g', 'e', 'n', 't'] then some ManagedEntity.agent
         else if s0 = ['u', 's', 'e', 'r'] then some ManagedEntity.user else none) with
  | none => .error (FsError.invalid_path "managed path entity must be `agent` or `user`")
  | some entity =>
    let id := strTrim s1
    if id = [] then
      .error (FsError.invalid_path "managed path target id must be non-empty")
    else
      let uri := MANAGED_PREFIX ++ entity.as_str ++ ['/'] ++ id ++
        (match fieldSeg with
         | some f => ['/'] ++ f
         | none => [])
      .ok (ParsedPath.managed ⟨entity, id, fieldSeg, uri⟩)

/-- `parse_managed_path`. -/
def parse_managed_path (rest : Str) : Except FsError ParsedPath :=
  match (splitSlash rest).filter (fun s => s ≠ []) with
  | [s0, s1] => parse_managed_segments s0 s1 none
  | [s0, s1, s2] => parse_managed_segments s0 s1 (some s2)
  | _ =>
    .error (FsError.invalid_path "managed path must be managed://<agent|user>/<id>[/<field>]")

/-- `parse_real_path`. -/
def parse_real_path (rest : Str) : Except FsError ParsedPath :=
  match normalize_fs_relative rest with
  | .error e => .error e
  | .ok (rel_path, rel_uri) =>
    .ok (ParsedPath.real ⟨rel_path, REAL_PREFIX ++ rel_uri⟩)

/-- `parse_path`. -/
def parse_path (path : Str) : Except FsError ParsedPath :=
  match stripPre MANAGED_PREFIX path with
  | some rest => parse_managed_path rest
  | none =>
    match stripPre REAL_PREFIX path with
    | some rest => parse_real_path rest
    | none => .error (FsError.invalid_path "path must use managed:// or fs:// prefix")

/-! ### The claim C5 normalization, stated from the spec's words -/

/-- One step of the normalization the claim describes, applied to one raw
slash-separated segment: drop `.`, pop on `..` (`permission_denied` when
there is nothing to pop), keep anything else. -/
def specNormSegs : List Str → List Str → Except FsError (List Str)
  | [], acc => .ok acc
  | s :: rest, acc =>
    if s = ['.'] then specNormSegs rest acc
    else if s = ['.', '.'] then
      match acc with
      | [] => .error (FsError.permission_denied "fs:// path escapes workspace root")
      | _ :: _ => specNormSegs rest acc.dropLast
    else specNormSegs rest (acc ++ [s])

/-- The normalization exactly as the claim states it: reject a leading
`/` or `\`, process the non-empty slash-separated segments by the stack
discipline, map the empty result to `.`, and join the survivors with
forward slashes. -/
def specNormalizeFs (raw : Str) : Except FsError (List Str × Str) :=
  if leadingSlashOrBackslash raw then
    .error (FsError.invalid_path "fs:// path must be workspace-relative, not absolute")
  else
    match specNormSegs ((splitSlash raw).filter (fun s => s ≠ [])) [] with
    | .error e => .error e
    | .ok segments =>
      if segments = [] then .ok ([['.']], ['.'])
      else .ok (segments, joinSlash segments)

theorem specNormSegs_rest (parts : List Str) :
    ∀ acc, normalizeComponents ((parts.map (classifyComponent false)).flatten) acc =
      specNormSegs parts acc := by
  induction parts with
  | nil => intro acc; rfl
  | cons s rest ih =>
    intro acc
    by_cases h1 : s = ['.']
    · simpa [classifyComponent, specNormSegs, h1] using ih acc
    · by_cases h2 : s = ['.', '.']
      · cases acc with
        | nil => simp [classifyComponent, specNormSegs, h1, h2, normalizeComponents]
        | cons a t =>
          simpa [classifyComponent, specNormSegs, h1, h2, normalizeComponents] using
            ih ((a :: t).dropLast)
      · simpa [classifyComponent, specNormSegs, h1, h2, normalizeComponents] using
          ih (acc ++ [s])

theorem normalizeComponents_componentsOf (raw : Str) (acc : List Str) :
    normalizeComponents (componentsOf raw) acc =
      specNormSegs ((splitSlash raw).filter (fun s => s ≠ [])) acc := by
  unfold componentsOf
  generalize (splitSlash raw).filter (fun s => s ≠ []) = parts
  cases parts with
  | nil => rfl
  | cons p rest =>
    by_cases h1 : p = ['.']
    · simpa [classifyComponent, specNormSegs, h1, normalizeComponents] using
        specNormSegs_rest rest acc
    · by_cases h2 : p = ['.', '.']
      · cases acc with
        | nil => simp [classifyComponent, specNormSegs, h1, h2, normalizeComponents]
        | cons a t =>
          simpa [classifyComponent, specNormSegs, h1, h2, normalizeComponents] using
            specNormSegs_rest rest ((a :: t).dropLast)
      · simpa [classifyComponent, specNormSegs, h1, h2, normalizeComponents] using
          specNormSegs_rest rest (acc ++ [p])

theorem stripPre_append (p r : Str) : stripPre p (p ++ r) = some r := by
  induction p with
  | nil => rfl
  | cons c t ih => simp [stripPre, ih]

theorem stripPre_managed_of_real (raw : Str) :
    stripPre MANAGED_PREFIX (REAL_PREFIX ++ raw) = none := by
  simp [MANAGED_PREFIX, REAL_PREFIX, stripPre]

/-- **C5.**  `parse_path` on an `fs://` URI implements exactly the claimed
normalization: reject a leading `/` or `\` as `invalid_path`; drop `.`
components; let each `..` pop the last retained segment,
`permission_denied` when there is none; an empty normalized remainder
becomes the relative path `.`; and the normalized URI is `fs://` followed
by the surviving segments joined with forward slashes.  (`specNormalizeFs`
is that normalization written from the claim's words; on a Unix host the
`RootDir`/`Prefix` match arms of the source are unreachable once the
leading-slash check has passed, so they do not appear on the spec side.) -/
theorem c5_parse_path_normalization (raw : Str) :
    normalize_fs_relative raw = specNormalizeFs raw ∧
      parse_path (REAL_PREFIX ++ raw) =
        (match specNormalizeFs raw with
         | .error e => .error e
         | .ok (rel_path, rel_uri) =>
           .ok (ParsedPath.real ⟨rel_path, REAL_PREFIX ++ rel_uri⟩)) := by
  have hmain : normalize_fs_relative raw = specNormalizeFs raw := by
    unfold normalize_fs_relative specNormalizeFs
    rw [normalizeComponents_componentsOf]
  refine ⟨hmain, ?_⟩
  unfold parse_path
  rw [stripPre_managed_of_real, stripPre_append]
  dsimp only
  unfold parse_real_path
  rw [hmain]

/-! ## `agent/tool_registry.rs` — argument validation (claim C6)

`serde_json::Value` is modelled by `Json`; JSON string data is `Str`
(`List Char`), object keys are Lean `String`.  The inputs the registry
sees are parsed JSON, so object keys are unique and numbers here are
integers (`serde_json` would represent non-integral numbers as floats,
for which `as_i64` returns `None`; the claims never need a float wider
than that observation, so `Json` has no float constructor and `as_i64`
carries the explicit i64-range test). -/

inductive Json where
  | null
  | bool (b : Bool)
  | int (n : Int)
  | str (s : Str)
  | arr (xs : List Json)
  | obj (fields : List (String × Json))

/-- A JSON object's field list (`serde_json::Map`). -/
abbrev JObj := List (String × Json)

/-- `Value::as_str`. -/
def Json.as_str : Json → Option Str
  | .str s => some s
  | _ => none

/-- `Value::as_bool`. -/
def Json.as_bool : Json → Option Bool
  | .bool b => some b
  | _ => none

/-- `i64::MIN`. -/
def i64Min : Int := -9223372036854775808

/-- `i64::MAX`. -/
def i64MaxI : Int := 9223372036854775807

/-- `Value::as_i64`: the number when it fits in an `i64`. -/
def Json.as_i64 : Json → Option Int
  | .int n => if i64Min ≤ n ∧ n ≤ i64MaxI then some n else none
  | _ => none

/-- `Value::as_object`. -/
def Json.as_object : Json → Option JObj
  | .obj fields => some fields
  | _ => none

/-- `serde_json::Map::get`. -/
def jGet (fields : JObj) (key : String) : Option Json :=
  (fields.find? (fun kv => kv.1 = key)).map (fun kv => kv.2)

/-- `s.trim().is_empty()`. -/
def strIsBlank (s : Str) : Bool := s.all Char.isWhitespace

/-- `read_required_string` from `src/fathom-server/src/agent/tool_registry.rs`:
present, a string, and not blank after trimming. -/
def read_required_string (args : JObj) (key : String) : Except String Str :=
  match jGet args key with
  | some (.str s) =>
    if strIsBlank s then
      .error ("missing or invalid string field `" ++ key ++ "`")
    else .ok s
  | _ => .error ("missing or invalid string field `" ++ key ++ "`")

/-- `path.starts_with("managed://") || path.starts_with("fs://")`. -/
def pathHasSchemePre (path : Str) : Bool :=
  MANAGED_PREFIX.isPrefixOf path || REAL_PREFIX.isPrefixOf path

/-- The `"memory_append"` arm of `ToolRegistry::validate` (the `match` on
each `read_required_string` result is Rust's `?` operator). -/
def validate_memory_append (args_obj : JObj) : Except String Unit :=
  match read_required_string args_obj "target" with
  | .error e => .error e
  | .ok target =>
    if target ≠ ['a', 'g', 'e', 'n', 't'] ∧ target ≠ ['u', 's', 'e', 'r'] then
      .error "memory_append.target must be `agent` or `user`"
    else
      match read_required_string args_obj "target_id" with
      | .error e => .error e
      | .ok _ =>
        match read_required_string args_obj "note" with
        | .error e => .error e
        | .ok _ => .ok ()

/-- The `"refresh_profile"` arm of `ToolRegistry::validate`. -/
def validate_refresh_profile (args_obj : JObj) : Except String Unit :=
  match read_required_string args_obj "scope" with
  | .error e => .error e
  | .ok scope =>
    if scope ≠ ['a', 'g', 'e', 'n', 't'] ∧ scope ≠ ['u', 's', 'e', 'r'] ∧ scope ≠ ['a', 'l', 'l'] then
      .error "refresh_profile.scope must be `agent`, `user`, or `all`"
    else if scope = ['u', 's', 'e', 'r'] then
      match read_required_string args_obj "user_id" with
      | .error e => .error e
      | .ok _ => .ok ()
    else .ok ()

/-- The `"schedule_heartbeat"` arm of `ToolRegistry::validate`. -/
def validate_schedule_heartbeat (args_obj : JObj) : Except String Unit :=
  match (jGet args_obj "delay_ms").bind Json.as_i64 with
  | none => .error "schedule_heartbeat.delay_ms must be an integer"
  | some delay =>
    if delay < 0 then .error "schedule_heartbeat.delay_ms must be >= 0"
    else .ok ()

/-- The shared path check of the `fs_*` arms. -/
def validate_fs_path (args_obj : JObj) : Except String Str :=
  match read_required_string args_obj "path" with
  | .error e => .error e
  | .ok path =>
    if ¬ pathHasSchemePre path then
      .error "path must start with managed:// or fs://"
    else .ok path

/-- The `"fs_list" | "fs_read"` arm of `ToolRegistry::validate`. -/
def validate_fs_list_read (args_obj : JObj) : Except String Unit :=
  match validate_fs_path args_obj with
  | .error e => .error e
  | .ok _ => .ok ()

/-- The `"fs_write"` arm of `ToolRegistry::validate`. -/
def validate_fs_write (args_obj : JObj) : Except String Unit :=
  match validate_fs_path args_obj with
  | .error e => .error e
  | .ok _ =>
    match (jGet args_obj "content").bind Json.as_str with
    | none => .error "fs_write.content must be a string"
    | some _ =>
      match (jGet args_obj "allow_override").bind Json.as_bool with
      | none => .error "fs_write.allow_override must be a boolean"
      | some _ => .ok ()

/-- The `"fs_replace"` arm of `ToolRegistry::validate`. -/
def validate_fs_replace (args_obj : JObj) : Except String Unit :=
  match validate_fs_path args_obj with
  | .error e => .error e
  | .ok _ =>
    match read_required_string args_obj "old" with
    | .error e => .error e
    | .ok _ =>
      match (jGet args_obj "new").bind Json.as_str with
      | none => .error "fs_replace.new must be a string"
      | some _ =>
        match read_required_string args_obj "mode" with
        | .error e => .error e
        | .ok mode =>
          if mode ≠ ['f', 'i', 'r', 's', 't'] ∧ mode ≠ ['a', 'l', 'l'] then
            .error "fs_replace.mode must be `first` or `all`"
          else .ok ()

/-- `ToolRegistry::validate` (the per-tool arms are the named functions
above; the dispatch mirrors the source's match on the tool name). -/
def ToolRegistry.validate (tool_name : String) (args : Json) : Except String Unit :=
  match args.as_object with
  | none => .error "tool arguments must be a JSON object"
  | some args_obj =>
    match tool_name with
    | "memory_append" => validate_memory_append args_obj
    | "refresh_profile" => validate_refresh_profile args_obj
    | "schedule_heartbeat" => validate_schedule_heartbeat args_obj
    | "fs_list" => validate_fs_list_read args_obj
    | "fs_read" => validate_fs_list_read args_obj
    | "fs_write" => validate_fs_write args_obj
    | "fs_replace" => validate_fs_replace args_obj
    | _ => .error ("unknown tool `" ++ tool_name ++ "`")

/-! ### The declared JSON-schema parameter definitions

These transcribe the `json!` parameter literals of `ToolRegistry::new`
into a small schema AST, together with a checker implementing the
JSON-Schema meaning of that fragment (`type:object`, typed `properties`,
`enum`, `minimum`, `required`, `additionalProperties:false`). -/

inductive PropSchema where
  | string (enum : Option (List Str))
  | integer (minimum : Option Int)
  | boolean
  deriving Repr, DecidableEq

structure ObjectSchema where
  properties : List (String × PropSchema)
  required : List String
  deriving Repr, DecidableEq

/-- Does a JSON value satisfy one property schema? -/
def checkProp : PropSchema → Json → Bool
  | .string enum?, .str s =>
    (match enum? with
     | none => true
     | some vs => vs.contains s)
  | .string _, _ => false
  | .integer min?, .int n =>
    (match min? with
     | none => true
     | some m => decide (m ≤ n))
  | .integer _, _ => false
  | .boolean, .bool _ => true
  | .boolean, _ => false

/-- Does a JSON value satisfy an object schema with
`additionalProperties: false`?  It must be an object, every required key
must be present, and every present field must be declared and satisfy its
property schema. -/
def schemaAccepts (sch : ObjectSchema) (v : Json) : Bool :=
  match v with
  | .obj fields =>
    sch.required.all (fun k => (jGet fields k).isSome) &&
      fields.all (fun kv =>
        match sch.properties.find? (fun p => p.1 = kv.1) with
        | none => false
        | some p => checkProp p.2 kv.2)
  | _ => false

/-- `memory_append`'s declared parameters. -/
def memoryAppendSchema : ObjectSchema :=
  { properties := [("target", .string (some [['a', 'g', 'e', 'n', 't'], ['u', 's', 'e', 'r']])),
                   ("target_id", .string none),
                   ("note", .string none)],
    required := ["target", "target_id", "note"] }

/-- `refresh_profile`'s declared parameters. -/
def refreshProfileSchema : ObjectSchema :=
  { properties := [("scope", .string (some [['a', 'g', 'e', 'n', 't'], ['u', 's', 'e', 'r'], ['a', 'l', 'l']])),
                   ("user_id", .string none)],
    required := ["scope"] }

/-- `schedule_heartbeat`'s declared parameters. -/
def scheduleHeartbeatSchema : ObjectSchema :=
  { properties := [("delay_ms", .integer (some 0))],
    required := ["delay_ms"] }

/-- `fs_list`'s declared parameters. -/
def fsListSchema : ObjectSchema :=
  { properties := [("path", .string none)], required := ["path"] }

/-- `fs_read`'s declared parameters. -/
def fsReadSchema : ObjectSchema :=
  { properties := [("path", .string none)], required := ["path"] }

/-- `fs_write`'s declared parameters. -/
def fsWriteSchema : ObjectSchema :=
  { properties := [("path", .string none), ("content", .string none),
                   ("allow_override", .boolean)],
    required := ["path", "content", "allow_override"] }

/-- `fs_replace`'s declared parameters. -/
def fsReplaceSchema : ObjectSchema :=
  { properties := [("path", .string none), ("old", .string none),
                   ("new", .string none),
                   ("mode", .string (some [['f', 'i', 'r', 's', 't'], ['a', 'l', 'l']]))],
    required := ["path", "old", "new", "mode"] }

/-- Whether an `fs_*` tool's `path` argument carries a scheme, as a
predicate on the argument object (the claim folds this check into the
acceptance condition). -/
def pathFieldHasScheme (v : Json) : Bool :=
  match v with
  | .obj fields =>
    (match (jGet fields "path").bind Json.as_str with
     | some p => pathHasSchemePre p
     | none => false)
  | _ => false

/-- The acceptance condition exactly as claim C6 states it: the argument
object satisfies the tool's declared JSON-schema parameter definition
(with `additionalProperties:false`), plus — for the path tools — the
`managed://`/`fs://` prefix requirement. -/
def claimAccepts (tool_name : String) (v : Json) : Bool :=
  match tool_name with
  | "memory_append" => schemaAccepts memoryAppendSchema v
  | "refresh_profile" => schemaAccepts refreshProfileSchema v
  | "schedule_heartbeat" => schemaAccepts scheduleHeartbeatSchema v
  | "fs_list" => schemaAccepts fsListSchema v && pathFieldHasScheme v
  | "fs_read" => schemaAccepts fsReadSchema v && pathFieldHasScheme v
  | "fs_write" => schemaAccepts fsWriteSchema v && pathFieldHasScheme v
  | "fs_replace" => schemaAccepts fsReplaceSchema v && pathFieldHasScheme v
  | _ => false

/-! ### What `validate` actually accepts (the amended C6 condition) -/

/-- Field `k` is present, a non-blank string, and its value satisfies
`P`. -/
def headB (f : JObj) (k : String) (P : Str → Bool) : Bool :=
  match jGet f k with
  | some (.str s) => !strIsBlank s && P s
  | _ => false

/-- Field `k` is present, a string, and non-blank. -/
def reqStrB (f : JObj) (k : String) : Bool :=
  match jGet f k with
  | some (.str s) => !strIsBlank s
  | _ => false

/-- Field `k` is present and a string (blank allowed). -/
def strFieldB (f : JObj) (k : String) : Bool :=
  ((jGet f k).bind Json.as_str).isSome

/-- `path` is present, a non-blank string, and carries a scheme prefix. -/
def specPathB (f : JObj) : Bool := headB f "path" pathHasSchemePre

def spec_memory_append (f : JObj) : Bool :=
  headB f "target" (fun s => s = ['a', 'g', 'e', 'n', 't'] || s = ['u', 's', 'e', 'r']) &&
    reqStrB f "target_id" && reqStrB f "note"

def spec_refresh_profile (f : JObj) : Bool :=
  headB f "scope" (fun s =>
    (s = ['a', 'g', 'e', 'n', 't'] || s = ['u', 's', 'e', 'r'] || s = ['a', 'l', 'l']) &&
      (if s = ['u', 's', 'e', 'r'] then reqStrB f "user_id" else true))

def spec_schedule_heartbeat (f : JObj) : Bool :=
  match (jGet f "delay_ms").bind Json.as_i64 with
  | some d => decide (0 ≤ d)
  | none => false

def spec_fs_list_read (f : JObj) : Bool := specPathB f

def spec_fs_write (f : JObj) : Bool :=
  specPathB f && strFieldB f "content" &&
    ((jGet f "allow_override").bind Json.as_bool).isSome

def spec_fs_replace (f : JObj) : Bool :=
  specPathB f && reqStrB f "old" && strFieldB f "new" &&
    headB f "mode" (fun s => s = ['f', 'i', 'r', 's', 't'] || s = ['a', 'l', 'l'])

/-- The acceptance condition `validate` actually implements, written
declaratively (the amended form of claim C6): required string fields must
be present and non-blank (extra fields are *not* rejected), the enums and
the `delay_ms ≥ 0` bound are enforced, the `path` prefix is enforced,
`content`/`new` may be any string and `allow_override` any boolean, and
`refresh_profile` additionally requires `user_id` exactly when
`scope = "user"`; every unregistered tool is rejected. -/
def validateSpecB (tool_name : String) (v : Json) : Bool :=
  match v with
  | .obj f =>
    (match tool_name with
     | "memory_append" => spec_memory_append f
     | "refresh_profile" => spec_refresh_profile f
     | "schedule_heartbeat" => spec_schedule_heartbeat f
     | "fs_list" => spec_fs_list_read f
     | "fs_read" => spec_fs_list_read f
     | "fs_write" => spec_fs_write f
     | "fs_replace" => spec_fs_replace f
     | _ => false)
  | _ => false

/-- **C6 counterexample.**  `validate` is not the declared-schema check:
(i) `fs_list` with `{"path": "fs://x", "extra": null}` is accepted by
`validate` but violates `additionalProperties:false`;
(ii) `refresh_profile` with `{"scope": "user"}` satisfies the declared
schema (`required = ["scope"]`, `"user"` is in the enum) but `validate`
rejects it because it demands `user_id` whenever `scope = "user"`. -/
theorem c6_validate_counterexample :
    ToolRegistry.validate "fs_list"
        (Json.obj [("path", Json.str ['f', 's', ':', '/', '/', 'x']), ("extra", Json.null)]) =
      .ok () ∧
    claimAccepts "fs_list"
        (Json.obj [("path", Json.str ['f', 's', ':', '/', '/', 'x']), ("extra", Json.null)]) = false ∧
    (ToolRegistry.validate "refresh_profile"
        (Json.obj [("scope", Json.str ['u', 's', 'e', 'r'])])).isOk = false ∧
    claimAccepts "refresh_profile"
        (Json.obj [("scope", Json.str ['u', 's', 'e', 'r'])]) = true :=
  ⟨by rfl, by rfl, by rfl, by rfl⟩

theorem headB_of_rrs_ok {f : JObj} {k : String} {s : Str}
    (h : read_required_string f k = .ok s) (P : Str → Bool) :
    headB f k P = P s := by
  unfold headB
  cases hg : jGet f k with
  | none => simp [read_required_string, hg] at h
  | some j =>
    cases j <;> simp [read_required_string, hg] at h
    next sv =>
      cases hb : strIsBlank sv <;> rw [hb] at h <;> simp at h
      subst h
      simp [hb]

theorem headB_of_rrs_error {f : JObj} {k : String} {e : String}
    (h : read_required_string f k = .error e) (P : Str → Bool) :
    headB f k P = false := by
  unfold headB
  cases hg : jGet f k with
  | none => rfl
  | some j =>
    cases j <;> try rfl
    next sv =>
      simp only [read_required_string, hg] at h
      cases hb : strIsBlank sv <;> rw [hb] at h <;> simp at h
      simp [hb]

theorem reqStrB_of_rrs_ok {f : JObj} {k : String} {s : Str}
    (h : read_required_string f k = .ok s) : reqStrB f k = true := by
  unfold reqStrB
  cases hg : jGet f k with
  | none => simp [read_required_string, hg] at h
  | some j =>
    cases j <;> simp [read_required_string, hg] at h
    next sv =>
      cases hb : strIsBlank sv <;> rw [hb] at h <;> simp at h
      simp [hb]

theorem reqStrB_of_rrs_error {f : JObj} {k : String} {e : String}
    (h : read_required_string f k = .error e) : reqStrB f k = false := by
  unfold reqStrB
  cases hg : jGet f k with
  | none => rfl
  | some j =>
    cases j <;> try rfl
    next sv =>
      simp only [read_required_string, hg] at h
      cases hb : strIsBlank sv <;> rw [hb] at h <;> simp at h
      simp [hb]

theorem specPathB_of_vfp_ok {f : JObj} {p : Str}
    (h : validate_fs_path f = .ok p) : specPathB f = true := by
  unfold validate_fs_path at h
  cases hv : read_required_string f "path" with
  | error e => rw [hv] at h; cases h
  | ok path =>
    rw [hv] at h
    by_cases hp : pathHasSchemePre path = true
    · unfold specPathB
      rw [headB_of_rrs_ok hv, hp]
    · simp [hp] at h

theorem specPathB_of_vfp_error {f : JObj} {e : String}
    (h : validate_fs_path f = .error e) : specPathB f = false := by
  unfold validate_fs_path at h
  cases hv : read_required_string f "path" with
  | error eh => exact headB_of_rrs_error hv _
  | ok path =>
    rw [hv] at h
    by_cases hp : pathHasSchemePre path = true
    · simp [hp] at h
    · unfold specPathB
      rw [headB_of_rrs_ok hv]
      simpa using hp

theorem validate_memory_append_iff (f : JObj) :
    (validate_memory_append f = .ok ()) ↔ spec_memory_append f = true := by
  unfold validate_memory_append spec_memory_append
  cases hv : read_required_string f "target" with
  | error e => simp [headB_of_rrs_error hv]
  | ok s =>
    simp only [headB_of_rrs_ok hv]
    by_cases hA : s = ['a', 'g', 'e', 'n', 't'] ∨ s = ['u', 's', 'e', 'r']
    · have hcond : ¬(s ≠ ['a', 'g', 'e', 'n', 't'] ∧ s ≠ ['u', 's', 'e', 'r']) := by tauto
      rw [if_neg hcond]
      have hP : (s = ['a', 'g', 'e', 'n', 't'] || s = ['u', 's', 'e', 'r']) = true := by
        rcases hA with h | h <;> simp [h]
      rw [hP]
      simp only [Bool.true_and]
      cases h2 : read_required_string f "target_id" with
      | error e => simp [reqStrB_of_rrs_error h2]
      | ok s2 =>
        rw [reqStrB_of_rrs_ok h2]
        simp only [Bool.true_and]
        cases h3 : read_required_string f "note" with
        | error e => simp [reqStrB_of_rrs_error h3]
        | ok s3 => simp [reqStrB_of_rrs_ok h3]
    · have hcond : s ≠ ['a', 'g', 'e', 'n', 't'] ∧ s ≠ ['u', 's', 'e', 'r'] := by tauto
      rw [if_pos hcond]
      have hP : (s = ['a', 'g', 'e', 'n', 't'] || s = ['u', 's', 'e', 'r']) = false := by
        simp [hcond.1, hcond.2]
      simp [hP]

theorem validate_refresh_profile_iff (f : JObj) :
    (validate_refresh_profile f = .ok ()) ↔ spec_refresh_profile f = true := by
  unfold validate_refresh_profile spec_refresh_profile
  cases hv : read_required_string f "scope" with
  | error e => simp [headB_of_rrs_error hv]
  | ok s =>
    simp only [headB_of_rrs_ok hv]
    by_cases hA : s = ['a', 'g', 'e', 'n', 't'] ∨ s = ['u', 's', 'e', 'r'] ∨ s = ['a', 'l', 'l']
    · have hcond : ¬(s ≠ ['a', 'g', 'e', 'n', 't'] ∧ s ≠ ['u', 's', 'e', 'r'] ∧ s ≠ ['a', 'l', 'l']) := by
        tauto
      rw [if_neg hcond]
      have hP : (s = ['a', 'g', 'e', 'n', 't'] || s = ['u', 's', 'e', 'r'] || s = ['a', 'l', 'l']) = true := by
        rcases hA with h | h | h <;> simp [h]
      rw [hP]
      simp only [Bool.true_and]
      by_cases hu : s = ['u', 's', 'e', 'r']
      · rw [if_pos hu, if_pos hu]
        cases h4 : read_required_string f "user_id" with
        | error e => simp [reqStrB_of_rrs_error h4]
        | ok s4 => simp [reqStrB_of_rrs_ok h4]
      · rw [if_neg hu, if_neg hu]
        simp
    · have hcond : s ≠ ['a', 'g', 'e', 'n', 't'] ∧ s ≠ ['u', 's', 'e', 'r'] ∧ s ≠ ['a', 'l', 'l'] := by
        tauto
      rw [if_pos hcond]
      have hP : (s = ['a', 'g', 'e', 'n', 't'] || s = ['u', 's', 'e', 'r'] || s = ['a', 'l', 'l']) = false := by
        simp [hcond.1, hcond.2.1, hcond.2.2]
      simp [hP]

theorem validate_schedule_heartbeat_iff (f : JObj) :
    (validate_schedule_heartbeat f = .ok ()) ↔ spec_schedule_heartbeat f = true := by
  unfold validate_schedule_heartbeat spec_schedule_heartbeat
  cases h : (jGet f "delay_ms").bind Json.as_i64 with
  | none => simp
  | some d => by_cases hd : d < 0 <;> simp [hd] <;> omega

theorem validate_fs_list_read_iff (f : JObj) :
    (validate_fs_list_read f = .ok ()) ↔ spec_fs_list_read f = true := by
  unfold validate_fs_list_read spec_fs_list_read
  cases hv : validate_fs_path f with
  | error e => simp [specPathB_of_vfp_error hv]
  | ok p => simp [specPathB_of_vfp_ok hv]

theorem validate_fs_write_iff (f : JObj) :
    (validate_fs_write f = .ok ()) ↔ spec_fs_write f = true := by
  unfold validate_fs_write spec_fs_write strFieldB
  cases hv : validate_fs_path f with
  | error e => simp [specPathB_of_vfp_error hv]
  | ok p =>
    rw [specPathB_of_vfp_ok hv]
    simp only [Bool.true_and]
    cases hc : (jGet f "content").bind Json.as_str with
    | none => simp
    | some c =>
      cases ha : (jGet f "allow_override").bind Json.as_bool with
      | none => simp
      | some a => simp

theorem validate_fs_replace_iff (f : JObj) :
    (validate_fs_replace f = .ok ()) ↔ spec_fs_replace f = true := by
  unfold validate_fs_replace spec_fs_replace strFieldB
  cases hv : validate_fs_path f with
  | error e => simp [specPathB_of_vfp_error hv]
  | ok p =>
    rw [specPathB_of_vfp_ok hv]
    simp only [Bool.true_and]
    cases h2 : read_required_string f "old" with
    | error e => simp [reqStrB_of_rrs_error h2]
    | ok s2 =>
      rw [reqStrB_of_rrs_ok h2]
      simp only [Bool.true_and]
      cases h3 : (jGet f "new").bind Json.as_str with
      | none => simp
      | some n =>
        simp only [Option.isSome_some, Bool.true_and]
        cases h4 : read_required_string f "mode" with
        | error e => simp [headB_of_rrs_error h4]
        | ok m =>
          simp only [headB_of_rrs_ok h4]
          by_cases hm : m = ['f', 'i', 'r', 's', 't'] ∨ m = ['a', 'l', 'l']
          · have hcond : ¬(m ≠ ['f', 'i', 'r', 's', 't'] ∧ m ≠ ['a', 'l', 'l']) := by tauto
            rw [if_neg hcond]
            have hP : (m = ['f', 'i', 'r', 's', 't'] || m = ['a', 'l', 'l']) = true := by
              rcases hm with h | h <;> simp [h]
            simp [hP]
          · have hcond : m ≠ ['f', 'i', 'r', 's', 't'] ∧ m ≠ ['a', 'l', 'l'] := by tauto
            rw [if_pos hcond]
            have hP : (m = ['f', 'i', 'r', 's', 't'] || m = ['a', 'l', 'l']) = false := by
              simp [hcond.1, hcond.2]
            simp [hP]

/-- **C6 (amended).**  `validate(tool_name, args)` accepts exactly the
condition `validateSpecB` states: `args` must be a JSON object; the
tool's required string fields must be present and non-blank (so blank
strings are rejected even though the schema admits them); the
`target`/`scope`/`mode` enums, the `delay_ms ≥ 0` i64 bound and the
`managed://`/`fs://` path prefix are enforced; `content`/`new` may be any
string and `allow_override` any boolean; `refresh_profile` requires
`user_id` exactly when `scope = "user"` (the schema never requires it);
extra properties are **not** rejected (`additionalProperties:false` is
not enforced); and any unregistered tool name is rejected. -/
theorem c6_validate_amended (tool_name : String) (args : Json) :
    (ToolRegistry.validate tool_name args = .ok ()) ↔
      validateSpecB tool_name args = true := by
  cases args with
  | obj f =>
    show (ToolRegistry.validate tool_name (Json.obj f) = .ok ()) ↔ _
    by_cases h1 : tool_name = "memory_append"
    · subst h1; exact validate_memory_append_iff f
    · by_cases h2 : tool_name = "refresh_profile"
      · subst h2; exact validate_refresh_profile_iff f
      · by_cases h3 : tool_name = "schedule_heartbeat"
        · subst h3; exact validate_schedule_heartbeat_iff f
        · by_cases h4 : tool_name = "fs_list"
          · subst h4; exact validate_fs_list_read_iff f
          · by_cases h5 : tool_name = "fs_read"
            · subst h5; exact validate_fs_list_read_iff f
            · by_cases h6 : tool_name = "fs_write"
              · subst h6; exact validate_fs_write_iff f
              · by_cases h7 : tool_name = "fs_replace"
                · subst h7; exact validate_fs_replace_iff f
                · simp only [ToolRegistry.validate, validateSpecB, Json.as_object]
                  simp
  | null => simp [ToolRegistry.validate, validateSpecB, Json.as_object]
  | bool b => simp [ToolRegistry.validate, validateSpecB, Json.as_object]
  | int n => simp [ToolRegistry.validate, validateSpecB, Json.as_object]
  | str sv => simp [ToolRegistry.validate, validateSpecB, Json.as_object]
  | arr xs => simp [ToolRegistry.validate, validateSpecB, Json.as_object]

/-! ## `agent/openai.rs` — stream parsing and dispatch (claim C7)

The stream loop of `parse_stream` is modelled at the granularity of the
decoded `data:` frames: a list of `Json` event payloads (byte/line
framing and the `[DONE]` terminator add nothing to the dispatch claims).
`serde_json::from_str` / `serde_json::to_string` for the tool-argument
payloads are external library functions and enter as parameters
`parseJson` / `printJson`; every theorem quantifies over them.  The
`on_tool` callback is modelled as the `fired` trace, `on_stream` as the
`notes` trace. -/

/-- `PartialToolCall`. -/
structure PartialToolCall where
  call_id : Option Str
  name : Option Str
  arguments : Str

/-- `ToolInvocation` from `src/fathom-server/src/agent/types.rs`. -/
structure ToolInvocation where
  tool_name : Str
  args_json : Str
  call_id : Option Str

/-- The mutable state of one `parse_stream` call, plus the callback
traces. -/
structure StreamState where
  partial_calls : List (Str × PartialToolCall)
  dispatched_keys : List Str
  tool_call_count : Nat
  diagnostics : List String
  fired : List (Str × ToolInvocation)
  notes : List Str

def initialStreamState : StreamState :=
  { partial_calls := [], dispatched_keys := [], tool_call_count := 0,
    diagnostics := [], fired := [], notes := [] }

/-- `HashMap::get` over the association-list model. -/
def assocGet {α : Type} (m : List (Str × α)) (k : Str) : Option α :=
  (m.find? (fun kv => kv.1 = k)).map (fun kv => kv.2)

/-- `HashMap::insert` (replace an existing binding, else append). -/
def assocSet {α : Type} (m : List (Str × α)) (k : Str) (v : α) : List (Str × α) :=
  if (m.find? (fun kv => kv.1 = k)).isSome then
    m.map (fun kv => if kv.1 = k then (k, v) else kv)
  else m ++ [(k, v)]

/-- `Value::get` on a `serde_json::Value`. -/
def jValueGet (v : Json) (k : String) : Option Json :=
  match v with
  | .obj f => jGet f k
  | _ => none

/-- `extract_call_key`: `item_id`, falling back to `call_id`. -/
def extract_call_key (value : Json) : Option Str :=
  match (jValueGet value "item_id").bind Json.as_str with
  | some s => some s
  | none => (jValueGet value "call_id").bind Json.as_str

/-- `maybe_dispatch_partial`: skip blank arguments; skip an
already-dispatched key; parse and validate the arguments (either failure
aborts the stream); otherwise fire the callback once and record the
key. -/
def maybe_dispatch_partial (parseJson : Str → Option Json) (printJson : Json → Str)
    (key : Str) (tool_name : Str) (arguments_raw : Str) (call_id : Option Str)
    (st : StreamState) : Except String StreamState :=
  if strIsBlank arguments_raw then .ok st
  else
    let dispatch_key := call_id.getD key
    if st.dispatched_keys.contains dispatch_key then .ok st
    else
      match parseJson arguments_raw with
      | none => .error "invalid arguments JSON for tool"
      | some args_value =>
        match ToolRegistry.validate (String.mk tool_name) args_value with
        | .error e => .error ("tool validation failed: " ++ e)
        | .ok _ =>
          let args_json := printJson args_value
          .ok { st with
                fired := st.fired ++
                  [(dispatch_key, ⟨tool_name, args_json, call_id⟩)],
                diagnostics := st.diagnostics ++
                  ["dispatched tool_call=" ++ String.mk dispatch_key],
                dispatched_keys := st.dispatched_keys ++ [dispatch_key],
                tool_call_count := st.tool_call_count + 1 }

/-- The shared tail of `maybe_finalize_item` and the
`function_call_arguments.done` arm: dispatch when the partial has a name,
keeping the pre-dispatch state on error. -/
def finalize_dispatch (parseJson : Str → Option Json) (printJson : Json → Str)
    (key : Str) (entry : PartialToolCall) (st1 : StreamState) :
    StreamState × Option String :=
  match entry.name with
  | some name =>
    match maybe_dispatch_partial parseJson printJson key name entry.arguments
        entry.call_id st1 with
    | .ok st2 => (st2, none)
    | .error e => (st1, some e)
  | none => (st1, none)

/-- `maybe_finalize_item`: only `function_call` items; merge `name` and a
non-empty `arguments` into the keyed partial; dispatch when a name is
known.  On a dispatch error the entry mutations made so far stay (second
component carries the error). -/
def maybe_finalize_item (parseJson : Str → Option Json) (printJson : Json → Str)
    (item : Json) (st : StreamState) : StreamState × Option String :=
  if ((jValueGet item "type").bind Json.as_str) ≠ some "function_call".toList then
    (st, none)
  else
    let key := (match (jValueGet item "id").bind Json.as_str with
                | some s => some s
                | none => (jValueGet item "call_id").bind Json.as_str).getD
      "unknown_call".toList
    let entry0 := (assocGet st.partial_calls key).getD
      { call_id := (jValueGet item "call_id").bind Json.as_str,
        name := (jValueGet item "name").bind Json.as_str,
        arguments := [] }
    let entry1 :=
      match (jValueGet item "name").bind Json.as_str with
      | some n => { entry0 with name := some n }
      | none => entry0
    let entry2 :=
      match (jValueGet item "arguments").bind Json.as_str with
      | some args => if args ≠ [] then { entry1 with arguments := args } else entry1
      | none => entry1
    let st1 := { st with partial_calls := assocSet st.partial_calls key entry2 }
    finalize_dispatch parseJson printJson key entry2 st1

/-- `handle_stream_event`. -/
def handle_stream_event (parseJson : Str → Option Json) (printJson : Json → Str)
    (value : Json) (st : StreamState) : StreamState × Option String :=
  let event_type := ((jValueGet value "type").bind Json.as_str).getD "unknown".toList
  let st := { st with notes := st.notes ++ [event_type] }
  if event_type = "response.output_item.added".toList ∨
      event_type = "response.output_item.done".toList then
    match jValueGet value "item" with
    | some item => maybe_finalize_item parseJson printJson item st
    | none => (st, none)
  else if event_type = "response.function_call_arguments.delta".toList then
    let key := (extract_call_key value).getD "unknown_call".toList
    let delta := ((jValueGet value "delta").bind Json.as_str).getD []
    let entry0 := (assocGet st.partial_calls key).getD
      { call_id := (jValueGet value "call_id").bind Json.as_str,
        name := (jValueGet value "name").bind Json.as_str,
        arguments := [] }
    let entry1 := { entry0 with arguments := entry0.arguments ++ delta }
    ({ st with partial_calls := assocSet st.partial_calls key entry1 }, none)
  else if event_type = "response.function_call_arguments.done".toList then
    let key := (extract_call_key value).getD "unknown_call".toList
    let arguments := ((jValueGet value "arguments").bind Json.as_str).getD []
    let entry0 := (assocGet st.partial_calls key).getD
      { call_id := (jValueGet value "call_id").bind Json.as_str,
        name := (jValueGet value "name").bind Json.as_str,
        arguments := [] }
    let entry1 := { entry0 with arguments := arguments }
    let st1 := { st with partial_calls := assocSet st.partial_calls key entry1 }
    finalize_dispatch parseJson printJson key entry1 st1
  else if event_type = "response.error".toList then
    (st, some "OpenAI stream error payload")
  else (st, none)

/-- The event loop of `parse_stream` over the decoded frames: stop at the
first error, keeping the state reached. -/
def processEvents (parseJson : Str → Option Json) (printJson : Json → Str) :
    List Json → StreamState → StreamState × Option String
  | [], st => (st, none)
  | e :: rest, st =>
    match handle_stream_event parseJson printJson e st with
    | (st1, none) => processEvents parseJson printJson rest st1
    | (st1, some err) => (st1, some err)

/-- The dispatch bookkeeping invariant: the fired-callback trace is keyed
exactly by `dispatched_keys`, without duplicates, and the tool-call count
equals its length. -/
def DispatchInv (st : StreamState) : Prop :=
  st.dispatched_keys.Nodup ∧
  st.fired.map Prod.fst = st.dispatched_keys ∧
  st.tool_call_count = st.dispatched_keys.length

theorem maybe_dispatch_partial_inv {pj : Str → Option Json} {pr : Json → Str}
    {key name args : Str} {cid : Option Str} {st st' : StreamState}
    (h : maybe_dispatch_partial pj pr key name args cid st = .ok st')
    (hinv : DispatchInv st) : DispatchInv st' := by
  unfold maybe_dispatch_partial at h
  by_cases hb : strIsBlank args = true
  · rw [if_pos hb] at h
    injection h with h'
    subst h'
    exact hinv
  · rw [if_neg hb] at h
    dsimp only at h
    cases hc : st.dispatched_keys.contains (cid.getD key) with
    | true =>
      rw [hc] at h
      rw [if_pos rfl] at h
      injection h with h'
      subst h'
      exact hinv
    | false =>
      rw [hc] at h
      rw [if_neg (by simp)] at h
      cases hp : pj args with
      | none => rw [hp] at h; exact absurd h (by simp)
      | some v =>
        rw [hp] at h
        dsimp only at h
        cases hv : ToolRegistry.validate (String.mk name) v with
        | error e => rw [hv] at h; exact absurd h (by simp)
        | ok u =>
          rw [hv] at h
          dsimp only at h
          injection h with h'
          subst h'
          obtain ⟨h1, h2, h3⟩ := hinv
          have hnotmem : (cid.getD key) ∉ st.dispatched_keys := by
            intro hm
            have hcontra : st.dispatched_keys.contains (cid.getD key) = true :=
              List.elem_eq_true_of_mem hm
            rw [hcontra] at hc
            cases hc
          refine ⟨?_, ?_, ?_⟩
          · simpa [List.nodup_append] using ⟨h1, hnotmem⟩
          · simp [h2]
          · simp [h3]

theorem finalize_dispatch_inv {pj : Str → Option Json} {pr : Json → Str}
    {key : Str} {entry : PartialToolCall} {st1 st' : StreamState}
    {e : Option String}
    (h : finalize_dispatch pj pr key entry st1 = (st', e))
    (hinv : DispatchInv st1) : DispatchInv st' := by
  unfold finalize_dispatch at h
  cases hn : entry.name with
  | none =>
    rw [hn] at h
    dsimp only at h
    injection h with h1 h2
    subst h1
    exact hinv
  | some name =>
    rw [hn] at h
    dsimp only at h
    cases hd : maybe_dispatch_partial pj pr key name entry.arguments
        entry.call_id st1 with
    | ok st2 =>
      rw [hd] at h
      injection h with h1 h2
      subst h1
      exact maybe_dispatch_partial_inv hd hinv
    | error msg =>
      rw [hd] at h
      injection h with h1 h2
      subst h1
      exact hinv

theorem maybe_finalize_item_inv {pj : Str → Option Json} {pr : Json → Str}
    {item : Json} {st st' : StreamState} {e : Option String}
    (h : maybe_finalize_item pj pr item st = (st', e))
    (hinv : DispatchInv st) : DispatchInv st' := by
  unfold maybe_finalize_item at h
  split at h
  · injection h with h1 h2
    subst h1
    exact hinv
  · exact finalize_dispatch_inv h hinv

theorem handle_stream_event_inv {pj : Str → Option Json} {pr : Json → Str}
    {value : Json} {st st' : StreamState} {e : Option String}
    (h : handle_stream_event pj pr value st = (st', e))
    (hinv : DispatchInv st) : DispatchInv st' := by
  unfold handle_stream_event at h
  dsimp only at h
  set et := ((jValueGet value "type").bind Json.as_str).getD "unknown".toList
    with het
  by_cases h1 : et = "response.output_item.added".toList ∨
      et = "response.output_item.done".toList
  · rw [if_pos h1] at h
    cases hi : jValueGet value "item" with
    | some item =>
      rw [hi] at h
      exact maybe_finalize_item_inv h hinv
    | none =>
      rw [hi] at h
      dsimp only at h
      injection h with ha hb
      subst ha
      exact hinv
  · rw [if_neg h1] at h
    by_cases h2 : et = "response.function_call_arguments.delta".toList
    · rw [if_pos h2] at h
      injection h with ha hb
      subst ha
      exact hinv
    · rw [if_neg h2] at h
      by_cases h3 : et = "response.function_call_arguments.done".toList
      · rw [if_pos h3] at h
        exact finalize_dispatch_inv h hinv
      · rw [if_neg h3] at h
        by_cases h4 : et = "response.error".toList
        · rw [if_pos h4] at h
          injection h with ha hb
          subst ha
          exact hinv
        · rw [if_neg h4] at h
          injection h with ha hb
          subst ha
          exact hinv

theorem processEvents_inv (pj : Str → Option Json) (pr : Json → Str) :
    ∀ (events : List Json) (st : StreamState), DispatchInv st →
      DispatchInv (processEvents pj pr events st).1 := by
  intro events
  induction events with
  | nil => intro st hinv; exact hinv
  | cons e rest ih =>
    intro st hinv
    unfold processEvents
    cases hh : handle_stream_event pj pr e st with
    | mk st1 err =>
      cases err with
      | none =>
        simp only
        exact ih st1 (handle_stream_event_inv hh hinv)
      | some msg =>
        simp only
        exact handle_stream_event_inv hh hinv

/-- **C7.**  For every decoded LLM event stream (and any JSON
parser/printer), the tool callback fires at most once per dispatch key
(`call_id`, falling back to the partial's key, i.e. `item_id`):
the keys of the fired-callback trace are pairwise distinct,
`tool_call_count` equals the number of dispatched keys, and a dispatch
attempt for an already-dispatched key returns the state unchanged. -/
theorem c7_dispatch_exactly_once (pj : Str → Option Json) (pr : Json → Str)
    (events : List Json) :
    (((processEvents pj pr events initialStreamState).1.fired.map Prod.fst).Nodup ∧
      (processEvents pj pr events initialStreamState).1.tool_call_count =
        (processEvents pj pr events initialStreamState).1.fired.length) ∧
    (∀ (key name args : Str) (cid : Option Str) (st : StreamState),
      (cid.getD key) ∈ st.dispatched_keys →
        maybe_dispatch_partial pj pr key name args cid st = .ok st) := by
  constructor
  · have hinv0 : DispatchInv initialStreamState := by
      refine ⟨List.nodup_nil, rfl, rfl⟩
    obtain ⟨h1, h2, h3⟩ := processEvents_inv pj pr events initialStreamState hinv0
    constructor
    · rw [h2]; exact h1
    · rw [h3, ← h2, List.length_map]
  · intro key name args cid st hmem
    unfold maybe_dispatch_partial
    split
    · rfl
    · rw [if_pos (List.elem_eq_true_of_mem hmem)]

/-- Witness for C7's already-dispatched clause at a concrete state. -/
theorem c7_dispatch_exactly_once_witness :
    (['k'] : Str) ∈ ({ initialStreamState with
        dispatched_keys := [['k']] } : StreamState).dispatched_keys ∧
      maybe_dispatch_partial (fun _ => none) (fun _ => []) ['k'] ['t'] ['x'] none
          { initialStreamState with dispatched_keys := [['k']] } =
        .ok { initialStreamState with dispatched_keys := [['k']] } :=
  ⟨by decide, (c7_dispatch_exactly_once (fun _ => none) (fun _ => []) []).2
    ['k'] ['t'] ['x'] none
    { initialStreamState with dispatched_keys := [['k']] } (by decide)⟩

/-! ## `agent/openai.rs` — the request/retry loop of `stream_tool_calls`
(claim C8)

Each attempt's observable outcome is abstracted as a `RespOutcome`; the
endpoint's behaviour is a function from the send ordinal (0-based count
of requests issued so far) to that outcome.  Sleeping between retries has
no observable effect here and is dropped; `sends` records, per request
actually issued, the `attempts` counter and the reasoning effort used.
Error-message strings are abbreviated (the source formats status and
body into them). -/

/-- `OpenAiStreamOutcome`. -/
structure OpenAiStreamOutcome where
  tool_call_count : Nat
  diagnostics : List String
  deriving Repr, DecidableEq

/-- What one HTTP attempt can come back as. -/
inductive RespOutcome where
  | success (outcome : OpenAiStreamOutcome)
  | streamErr (msg : String)
  | http (status : Nat) (mentionsReasoning mentionsEffort : Bool)
      (retryAfter : Option Nat)
  | transport (retryable : Bool) (msg : String)
  deriving Repr, DecidableEq

/-- `should_retry_status`: 429 or any 5xx. -/
def should_retry_status (status : Nat) : Bool :=
  status = 429 || (500 ≤ status && status ≤ 599)

/-- The observable result of the whole loop. -/
structure StreamLoopResult where
  result : Except String OpenAiStreamOutcome
  sends : List (Nat × String)
  fallbacks : Nat

/-- The `while attempts <= max_retries` loop body of
`OpenAiClient::stream_tool_calls`, with the reasoning-effort fallback
(`attempts += 1; continue`), the retryable-status and retryable-transport
paths, and the stream-parse-error retry path. -/
def streamLoopGo (policy : RetryPolicy) (resp : Nat → RespOutcome)
    (attempts : Nat) (effort : String) (lastError : String)
    (sends : List (Nat × String)) (fallbacks : Nat) : StreamLoopResult :=
  if hcond : attempts ≤ policy.max_retries then
    match resp sends.length with
    | .success outcome =>
      { result := .ok outcome, sends := sends ++ [(attempts, effort)], fallbacks := fallbacks }
    | .streamErr msg =>
      if attempts ≥ policy.max_retries then
        { result := .error msg, sends := sends ++ [(attempts, effort)], fallbacks := fallbacks }
      else streamLoopGo policy resp (attempts + 1) effort msg (sends ++ [(attempts, effort)]) fallbacks
    | .http status mr me _ra =>
      if status = 400 ∧ effort = "extra_high" ∧ mr = true ∧ me = true then
        streamLoopGo policy resp (attempts + 1) "high" "OpenAI request failed"
          (sends ++ [(attempts, effort)]) (fallbacks + 1)
      else if should_retry_status status = true ∧ attempts < policy.max_retries then
        streamLoopGo policy resp (attempts + 1) effort "OpenAI request failed"
          (sends ++ [(attempts, effort)]) fallbacks
      else
        { result := .error "OpenAI request failed",
          sends := sends ++ [(attempts, effort)], fallbacks := fallbacks }
    | .transport retryable msg =>
      if retryable = true ∧ attempts < policy.max_retries then
        streamLoopGo policy resp (attempts + 1) effort msg (sends ++ [(attempts, effort)]) fallbacks
      else { result := .error msg, sends := sends ++ [(attempts, effort)], fallbacks := fallbacks }
  else { result := .error lastError, sends := sends, fallbacks := fallbacks }
termination_by policy.max_retries + 1 - attempts
decreasing_by
  all_goals omega

/-- `stream_tool_calls` entry: `attempts = 0`, default effort
`extra_high`. -/
def stream_tool_calls (policy : RetryPolicy) (resp : Nat → RespOutcome) :
    StreamLoopResult :=
  streamLoopGo policy resp 0 "extra_high" "" [] 0

/-- The loop exactly as claim C8 describes it: identical, except that the
reasoning-effort fallback does **not** increment `attempts` (it "does not
consume a retry", leaving the full `max_retries` budget available). -/
def claimLoopGo (policy : RetryPolicy) (resp : Nat → RespOutcome)
    (attempts : Nat) (effort : String) (lastError : String)
    (sends : List (Nat × String)) (fallbacks : Nat) : StreamLoopResult :=
  if hcond : attempts ≤ policy.max_retries then
    match resp sends.length with
    | .success outcome =>
      { result := .ok outcome, sends := sends ++ [(attempts, effort)], fallbacks := fallbacks }
    | .streamErr msg =>
      if attempts ≥ policy.max_retries then
        { result := .error msg, sends := sends ++ [(attempts, effort)], fallbacks := fallbacks }
      else claimLoopGo policy resp (attempts + 1) effort msg (sends ++ [(attempts, effort)]) fallbacks
    | .http status mr me _ra =>
      if hfb : status = 400 ∧ effort = "extra_high" ∧ mr = true ∧ me = true then
        claimLoopGo policy resp attempts "high" "OpenAI request failed"
          (sends ++ [(attempts, effort)]) (fallbacks + 1)
      else if should_retry_status status = true ∧ attempts < policy.max_retries then
        claimLoopGo policy resp (attempts + 1) effort "OpenAI request failed"
          (sends ++ [(attempts, effort)]) fallbacks
      else
        { result := .error "OpenAI request failed",
          sends := sends ++ [(attempts, effort)], fallbacks := fallbacks }
    | .transport retryable msg =>
      if retryable = true ∧ attempts < policy.max_retries then
        claimLoopGo policy resp (attempts + 1) effort msg (sends ++ [(attempts, effort)]) fallbacks
      else { result := .error msg, sends := sends ++ [(attempts, effort)], fallbacks := fallbacks }
  else { result := .error lastError, sends := sends, fallbacks := fallbacks }
termination_by
  (policy.max_retries + 1 - attempts) + (if effort = "extra_high" then 1 else 0)
decreasing_by
  all_goals first
    | omega
    | (simp only [hfb.2.1]; simp; try omega)

/-- The claim-described loop from the same entry point. -/
def claim_stream_tool_calls (policy : RetryPolicy) (resp : Nat → RespOutcome) :
    StreamLoopResult :=
  claimLoopGo policy resp 0 "extra_high" "" [] 0

/-- One guarded unfolding of the loop (for concrete evaluation). -/
theorem streamLoopGo_unfold (policy : RetryPolicy) (resp : Nat → RespOutcome)
    (attempts : Nat) (effort lastError : String) (sends : List (Nat × String))
    (fallbacks : Nat) (hc : attempts ≤ policy.max_retries) :
    streamLoopGo policy resp attempts effort lastError sends fallbacks =
      match resp sends.length with
      | .success outcome =>
        { result := .ok outcome, sends := sends ++ [(attempts, effort)],
          fallbacks := fallbacks }
      | .streamErr msg =>
        if attempts ≥ policy.max_retries then
          { result := .error msg, sends := sends ++ [(attempts, effort)],
            fallbacks := fallbacks }
        else streamLoopGo policy resp (attempts + 1) effort msg
          (sends ++ [(attempts, effort)]) fallbacks
      | .http status mr me _ra =>
        if status = 400 ∧ effort = "extra_high" ∧ mr = true ∧ me = true then
          streamLoopGo policy resp (attempts + 1) "high" "OpenAI request failed"
            (sends ++ [(attempts, effort)]) (fallbacks + 1)
        else if should_retry_status status = true ∧ attempts < policy.max_retries then
          streamLoopGo policy resp (attempts + 1) effort "OpenAI request failed"
            (sends ++ [(attempts, effort)]) fallbacks
        else
          { result := .error "OpenAI request failed",
            sends := sends ++ [(attempts, effort)], fallbacks := fallbacks }
      | .transport retryable msg =>
        if retryable = true ∧ attempts < policy.max_retries then
          streamLoopGo policy resp (attempts + 1) effort msg
            (sends ++ [(attempts, effort)]) fallbacks
        else
          { result := .error msg, sends := sends ++ [(attempts, effort)],
            fallbacks := fallbacks } := by
  rw [streamLoopGo, dif_pos hc]

/-- One guarded unfolding of the claim-described loop. -/
theorem claimLoopGo_unfold (policy : RetryPolicy) (resp : Nat → RespOutcome)
    (attempts : Nat) (effort lastError : String) (sends : List (Nat × String))
    (fallbacks : Nat) (hc : attempts ≤ policy.max_retries) :
    claimLoopGo policy resp attempts effort lastError sends fallbacks =
      match resp sends.length with
      | .success outcome =>
        { result := .ok outcome, sends := sends ++ [(attempts, effort)],
          fallbacks := fallbacks }
      | .streamErr msg =>
        if attempts ≥ policy.max_retries then
          { result := .error msg, sends := sends ++ [(attempts, effort)],
            fallbacks := fallbacks }
        else claimLoopGo policy resp (attempts + 1) effort msg
          (sends ++ [(attempts, effort)]) fallbacks
      | .http status mr me _ra =>
        if _hfb : status = 400 ∧ effort = "extra_high" ∧ mr = true ∧ me = true then
          claimLoopGo policy resp attempts "high" "OpenAI request failed"
            (sends ++ [(attempts, effort)]) (fallbacks + 1)
        else if should_retry_status status = true ∧ attempts < policy.max_retries then
          claimLoopGo policy resp (attempts + 1) effort "OpenAI request failed"
            (sends ++ [(attempts, effort)]) fallbacks
        else
          { result := .error "OpenAI request failed",
            sends := sends ++ [(attempts, effort)], fallbacks := fallbacks }
      | .transport retryable msg =>
        if retryable = true ∧ attempts < policy.max_retries then
          claimLoopGo policy resp (attempts + 1) effort msg
            (sends ++ [(attempts, effort)]) fallbacks
        else
          { result := .error msg, sends := sends ++ [(attempts, effort)],
            fallbacks := fallbacks } := by
  rw [claimLoopGo, dif_pos hc]

/-- **C8 counterexample.**  With the conservative policy, a first response
of HTTP 400 mentioning both "reasoning" and "effort", and every later
response HTTP 503: the source's loop issues exactly 3 requests — the
fallback runs `attempts += 1`, so after it only one retryable retry
remains — while the loop the claim describes (fallback consumes no
attempt, full `max_retries = 2` budget still available) issues 4. -/
theorem c8_fallback_counterexample :
    (stream_tool_calls RetryPolicy.conservative
        (fun i => if i = 0 then .http 400 true true none
                  else .http 503 false false none)).sends.length = 3 ∧
      (claim_stream_tool_calls RetryPolicy.conservative
        (fun i => if i = 0 then .http 400 true true none
                  else .http 503 false false none)).sends.length = 4 ∧
      (3 : Nat) ≠ 4 := by
  refine ⟨?_, ?_, by decide⟩
  · rw [stream_tool_calls]
    rw [streamLoopGo_unfold _ _ _ _ _ _ _ (by norm_num [RetryPolicy.conservative])]
    norm_num [should_retry_status, RetryPolicy.conservative]
    rw [streamLoopGo_unfold _ _ _ _ _ _ _ (by norm_num [RetryPolicy.conservative])]
    norm_num [should_retry_status, RetryPolicy.conservative]
    rw [streamLoopGo_unfold _ _ _ _ _ _ _ (by norm_num [RetryPolicy.conservative])]
    norm_num [should_retry_status, RetryPolicy.conservative]
  · rw [claim_stream_tool_calls]
    rw [claimLoopGo_unfold _ _ _ _ _ _ _ (by norm_num [RetryPolicy.conservative])]
    norm_num [should_retry_status, RetryPolicy.conservative]
    rw [claimLoopGo_unfold _ _ _ _ _ _ _ (by norm_num [RetryPolicy.conservative])]
    norm_num [should_retry_status, RetryPolicy.conservative]
    rw [claimLoopGo_unfold _ _ _ _ _ _ _ (by norm_num [RetryPolicy.conservative])]
    norm_num [should_retry_status, RetryPolicy.conservative]
    rw [claimLoopGo_unfold _ _ _ _ _ _ _ (by norm_num [RetryPolicy.conservative])]
    norm_num [should_retry_status, RetryPolicy.conservative]

/-- The loop only extends `sends`. -/
theorem streamLoopGo_sends_extend (policy : RetryPolicy) (resp : Nat → RespOutcome) :
    ∀ k attempts effort lastError sends fallbacks,
      policy.max_retries + 1 - attempts ≤ k →
      ∃ t, (streamLoopGo policy resp attempts effort lastError sends
          fallbacks).sends = sends ++ t := by
  intro k
  induction k with
  | zero =>
    intro a e l s f h
    rw [streamLoopGo, dif_neg (by omega)]
    exact ⟨[], by simp⟩
  | succ k ih =>
    intro a e l s f h
    rw [streamLoopGo]
    by_cases hc : a ≤ policy.max_retries
    · rw [dif_pos hc]
      cases resp s.length with
      | success outcome =>
        dsimp only
        exact ⟨[(a, e)], rfl⟩
      | streamErr msg =>
        dsimp only
        by_cases hm : a ≥ policy.max_retries
        · rw [if_pos hm]
          exact ⟨[(a, e)], rfl⟩
        · rw [if_neg hm]
          obtain ⟨t, ht⟩ := ih (a + 1) e msg (s ++ [(a, e)]) f (by omega)
          exact ⟨[(a, e)] ++ t, by rw [ht]; simp⟩
      | http status mr me ra =>
        dsimp only
        by_cases hfb : status = 400 ∧ e = "extra_high" ∧ mr = true ∧ me = true
        · rw [if_pos hfb]
          obtain ⟨t, ht⟩ := ih (a + 1) "high" "OpenAI request failed"
            (s ++ [(a, e)]) (f + 1) (by omega)
          exact ⟨[(a, e)] ++ t, by rw [ht]; simp⟩
        · rw [if_neg hfb]
          by_cases hr : should_retry_status status = true ∧ a < policy.max_retries
          · rw [if_pos hr]
            obtain ⟨t, ht⟩ := ih (a + 1) e "OpenAI request failed"
              (s ++ [(a, e)]) f (by omega)
            exact ⟨[(a, e)] ++ t, by rw [ht]; simp⟩
          · rw [if_neg hr]
            exact ⟨[(a, e)], rfl⟩
      | transport retryable msg =>
        dsimp only
        by_cases hr : retryable = true ∧ a < policy.max_retries
        · rw [if_pos hr]
          obtain ⟨t, ht⟩ := ih (a + 1) e msg (s ++ [(a, e)]) f (by omega)
          exact ⟨[(a, e)] ++ t, by rw [ht]; simp⟩
        · rw [if_neg hr]
          exact ⟨[(a, e)], rfl⟩
    · rw [dif_neg hc]
      exact ⟨[], by simp⟩

/-- Send-count bound: at most `max_retries + 1 - attempts` further
requests are issued, fallback or not. -/
theorem streamLoopGo_sends_le (policy : RetryPolicy) (resp : Nat → RespOutcome) :
    ∀ k attempts effort lastError sends fallbacks,
      policy.max_retries + 1 - attempts ≤ k →
      (streamLoopGo policy resp attempts effort lastError sends
          fallbacks).sends.length ≤
        sends.length + (policy.max_retries + 1 - attempts) := by
  intro k
  induction k with
  | zero =>
    intro a e l s f h
    rw [streamLoopGo, dif_neg (by omega)]
    simp
  | succ k ih =>
    intro a e l s f h
    rw [streamLoopGo]
    by_cases hc : a ≤ policy.max_retries
    · rw [dif_pos hc]
      cases resp s.length with
      | success outcome =>
        dsimp only
        simp
        omega
      | streamErr msg =>
        dsimp only
        by_cases hm : a ≥ policy.max_retries
        · rw [if_pos hm]; simp; omega
        · rw [if_neg hm]
          have := ih (a + 1) e msg (s ++ [(a, e)]) f (by omega)
          simp at this ⊢
          omega
      | http status mr me ra =>
        dsimp only
        by_cases hfb : status = 400 ∧ e = "extra_high" ∧ mr = true ∧ me = true
        · rw [if_pos hfb]
          have := ih (a + 1) "high" "OpenAI request failed" (s ++ [(a, e)])
            (f + 1) (by omega)
          simp at this ⊢
          omega
        · rw [if_neg hfb]
          by_cases hr : should_retry_status status = true ∧ a < policy.max_retries
          · rw [if_pos hr]
            have := ih (a + 1) e "OpenAI request failed" (s ++ [(a, e)]) f (by omega)
            simp at this ⊢
            omega
          · rw [if_neg hr]; simp; omega
      | transport retryable msg =>
        dsimp only
        by_cases hr : retryable = true ∧ a < policy.max_retries
        · rw [if_pos hr]
          have := ih (a + 1) e msg (s ++ [(a, e)]) f (by omega)
          simp at this ⊢
          omega
        · rw [if_neg hr]; simp; omega
    · rw [dif_neg hc]
      simp

/-- Once the effort is not `extra_high`, no further fallback happens and
every further send uses the current effort. -/
theorem streamLoopGo_no_more_fallbacks (policy : RetryPolicy)
    (resp : Nat → RespOutcome) :
    ∀ k attempts effort lastError sends fallbacks,
      policy.max_retries + 1 - attempts ≤ k → effort ≠ "extra_high" →
      (streamLoopGo policy resp attempts effort lastError sends
          fallbacks).fallbacks = fallbacks ∧
      ∀ p ∈ (streamLoopGo policy resp attempts effort lastError sends
          fallbacks).sends, p ∈ sends ∨ p.2 = effort := by
  intro k
  induction k with
  | zero =>
    intro a e l s f h he
    rw [streamLoopGo, dif_neg (by omega)]
    exact ⟨rfl, fun p hp => Or.inl hp⟩
  | succ k ih =>
    intro a e l s f h he
    rw [streamLoopGo]
    by_cases hc : a ≤ policy.max_retries
    · rw [dif_pos hc]
      cases resp s.length with
      | success outcome =>
        dsimp only
        refine ⟨rfl, fun p hp => ?_⟩
        simp at hp
        rcases hp with hp | hp
        · exact Or.inl hp
        · subst hp; exact Or.inr rfl
      | streamErr msg =>
        dsimp only
        by_cases hm : a ≥ policy.max_retries
        · rw [if_pos hm]
          refine ⟨rfl, fun p hp => ?_⟩
          simp at hp
          rcases hp with hp | hp
          · exact Or.inl hp
          · subst hp; exact Or.inr rfl
        · rw [if_neg hm]
          obtain ⟨hf, hs⟩ := ih (a + 1) e msg (s ++ [(a, e)]) f (by omega) he
          refine ⟨hf, fun p hp => ?_⟩
          rcases hs p hp with hp2 | hp2
          · simp at hp2
            rcases hp2 with hp2 | hp2
            · exact Or.inl hp2
            · subst hp2; exact Or.inr rfl
          · exact Or.inr hp2
      | http status mr me ra =>
        dsimp only
        by_cases hfb : status = 400 ∧ e = "extra_high" ∧ mr = true ∧ me = true
        · exact absurd hfb.2.1 he
        · rw [if_neg hfb]
          by_cases hr : should_retry_status status = true ∧ a < policy.max_retries
          · rw [if_pos hr]
            obtain ⟨hf, hs⟩ := ih (a + 1) e "OpenAI request failed"
              (s ++ [(a, e)]) f (by omega) he
            refine ⟨hf, fun p hp => ?_⟩
            rcases hs p hp with hp2 | hp2
            · simp at hp2
              rcases hp2 with hp2 | hp2
              · exact Or.inl hp2
              · subst hp2; exact Or.inr rfl
            · exact Or.inr hp2
          · rw [if_neg hr]
            refine ⟨rfl, fun p hp => ?_⟩
            simp at hp
            rcases hp with hp | hp
            · exact Or.inl hp
            · subst hp; exact Or.inr rfl
      | transport retryable msg =>
        dsimp only
        by_cases hr : retryable = true ∧ a < policy.max_retries
        · rw [if_pos hr]
          obtain ⟨hf, hs⟩ := ih (a + 1) e msg (s ++ [(a, e)]) f (by omega) he
          refine ⟨hf, fun p hp => ?_⟩
          rcases hs p hp with hp2 | hp2
          · simp at hp2
            rcases hp2 with hp2 | hp2
            · exact Or.inl hp2
            · subst hp2; exact Or.inr rfl
          · exact Or.inr hp2
        · rw [if_neg hr]
          refine ⟨rfl, fun p hp => ?_⟩
          simp at hp
          rcases hp with hp | hp
          · exact Or.inl hp
          · subst hp; exact Or.inr rfl
    · rw [dif_neg hc]
      exact ⟨rfl, fun p hp => Or.inl hp⟩

/-- **C8 (amended).**  A first response of HTTP 400 whose body mentions
both "reasoning" and "effort" causes exactly one fallback from
`extra_high` to `high` (the first request uses `extra_high`, all later
ones `high`), but the fallback **consumes an attempt** from the shared
budget: the total number of requests issued never exceeds
`max_retries + 1 = 3`, so after the fallback only `max_retries − 1`
retryable attempts remain. -/
theorem c8_reasoning_fallback_amended (resp : Nat → RespOutcome)
    (ra : Option Nat) (h0 : resp 0 = .http 400 true true ra) :
    (stream_tool_calls RetryPolicy.conservative resp).fallbacks = 1 ∧
      (stream_tool_calls RetryPolicy.conservative resp).sends.length ≤
        RetryPolicy.conservative.max_retries + 1 ∧
      (stream_tool_calls RetryPolicy.conservative resp).sends.head? =
        some (0, "extra_high") ∧
      ∀ p ∈ (stream_tool_calls RetryPolicy.conservative resp).sends,
        p = (0, "extra_high") ∨ p.2 = "high" := by
  have hstep : stream_tool_calls RetryPolicy.conservative resp =
      streamLoopGo RetryPolicy.conservative resp 1 "high"
        "OpenAI request failed" [(0, "extra_high")] 1 := by
    rw [stream_tool_calls, streamLoopGo]
    rw [dif_pos (by norm_num [RetryPolicy.conservative])]
    have hl : ([] : List (Nat × String)).length = 0 := rfl
    rw [hl, h0]
    dsimp only
    rw [if_pos ⟨rfl, rfl, rfl, rfl⟩]
    norm_num
  obtain ⟨hf, hs⟩ := streamLoopGo_no_more_fallbacks RetryPolicy.conservative resp
    (RetryPolicy.conservative.max_retries + 1 - 1) 1 "high"
    "OpenAI request failed" [(0, "extra_high")] 1 (by norm_num) (by decide)
  obtain ⟨t, ht⟩ := streamLoopGo_sends_extend RetryPolicy.conservative resp
    (RetryPolicy.conservative.max_retries + 1 - 1) 1 "high"
    "OpenAI request failed" [(0, "extra_high")] 1 (by norm_num)
  have hlen := streamLoopGo_sends_le RetryPolicy.conservative resp
    (RetryPolicy.conservative.max_retries + 1 - 1) 1 "high"
    "OpenAI request failed" [(0, "extra_high")] 1 (by norm_num)
  rw [hstep]
  refine ⟨hf, ?_, ?_, ?_⟩
  · simp only [List.length_singleton] at hlen
    omega
  · rw [ht]
    rfl
  · intro p hp
    rcases hs p hp with hp2 | hp2
    · simp at hp2
      exact Or.inl hp2
    · exact Or.inr hp2

/-- Witness for C8's amended theorem at a concrete response sequence. -/
theorem c8_reasoning_fallback_amended_witness :
    ((fun i => if i = 0 then RespOutcome.http 400 true true none
               else RespOutcome.http 503 false false none) 0 =
        RespOutcome.http 400 true true none) ∧
      (stream_tool_calls RetryPolicy.conservative
          (fun i => if i = 0 then RespOutcome.http 400 true true none
                    else RespOutcome.http 503 false false none)).fallbacks = 1 :=
  ⟨by simp, (c8_reasoning_fallback_amended
    (fun i => if i = 0 then RespOutcome.http 400 true true none
              else RespOutcome.http 503 false false none) none (by simp)).1⟩

/-! ## `fs/real.rs` — workspace containment (claim C1)

The host filesystem is abstracted as an `FsView` oracle (`exists`,
file/dir metadata, contents, `fs::canonicalize`); symlinks live inside
`canon`, which is an arbitrary function here.  Absolute paths are lists
of components.  Each operation returns its result together with the
trace of filesystem accesses it performs (`Path::exists` and the
`canonicalize` probes are metadata-only and are the containment check
itself; the trace records the `fs::metadata` / `read_to_string` /
`create_dir_all` / `fs::write` / `read_dir` calls that follow it).
The per-entry JSON assembly of `list` is abstracted into the oracle's
`dirListing` (no claim concerns it). -/

/-- An absolute path as its list of components. -/
abbrev FsPath := List Str

/-- The filesystem oracle. -/
structure FsView where
  exists_ : FsPath → Bool
  is_file : FsPath → Bool
  is_dir : FsPath → Bool
  content : FsPath → Str
  canon : FsPath → Except FsError FsPath
  dirListing : FsPath → Json

/-- One traced filesystem access. -/
inductive FsOp where
  | metadata (p : FsPath)
  | readFile (p : FsPath)
  | createDirAll (p : FsPath)
  | writeFile (p : FsPath) (content : Str)
  | readDir (p : FsPath)

/-- The path an access touches. -/
def FsOp.path : FsOp → FsPath
  | .metadata p => p
  | .readFile p => p
  | .createDirAll p => p
  | .writeFile p _ => p
  | .readDir p => p

/-- The `while !probe.exists() { if !probe.pop() { … } }` loop of
`ensure_path_stays_within_workspace`: the deepest existing ancestor, or
`none` when even the root of the path does not exist. -/
def deepestExistingAncestor (fs : FsView) (p : FsPath) : Option FsPath :=
  if fs.exists_ p then some p
  else
    match p with
    | [] => none
    | x :: xs => deepestExistingAncestor fs ((x :: xs).dropLast)
termination_by p.length
decreasing_by
  simp only [List.length_dropLast, List.length_cons]
  omega

/-- `ensure_path_stays_within_workspace`: canonicalize the workspace root
and the deepest existing ancestor of the target; the root's canonical
form must be a component prefix of the probe's. -/
def ensure_path_stays_within_workspace (fs : FsView) (workspace_root target : FsPath) :
    Except FsError Unit :=
  match deepestExistingAncestor fs target with
  | none => .error (FsError.permission_denied "unable to resolve path within workspace root")
  | some probe =>
    match fs.canon workspace_root with
    | .error e => .error e
    | .ok canonical_workspace =>
      match fs.canon probe with
      | .error e => .error e
      | .ok canonical_probe =>
        if canonical_workspace.isPrefixOf canonical_probe then .ok ()
        else .error (FsError.permission_denied "path escapes configured workspace root")

/-- `resolve_real_path`. -/
def resolve_real_path (fs : FsView) (workspace_root : FsPath)
    (rel_path : List Str) : Except FsError FsPath :=
  match ensure_path_stays_within_workspace fs workspace_root
      (workspace_root ++ rel_path) with
  | .error e => .error e
  | .ok _ => .ok (workspace_root ++ rel_path)

/-- `real::write` with its access trace. -/
def real_write (fs : FsView) (root : FsPath) (p : RealPath) (content : Str)
    (allow_override : Bool) : Except FsError Json × List FsOp :=
  match resolve_real_path fs root p.rel_path with
  | .error e => (.error e, [])
  | .ok target =>
    let existed := fs.exists_ target
    if existed then
      if ¬ fs.is_file target then
        (.error (FsError.not_file "target is not a file"), [.metadata target])
      else if ¬ allow_override then
        (.error (FsError.already_exists "target already exists"), [.metadata target])
      else
        (.ok (Json.obj [("bytes_written", .int content.length),
                        ("created", .bool (!existed)),
                        ("overwritten", .bool existed)]),
         [.metadata target, .createDirAll target.dropLast,
          .writeFile target content])
    else
      (.ok (Json.obj [("bytes_written", .int content.length),
                      ("created", .bool (!existed)),
                      ("overwritten", .bool existed)]),
       [.createDirAll target.dropLast, .writeFile target content])

/-- `real::read` with its access trace. -/
def real_read (fs : FsView) (root : FsPath) (p : RealPath) :
    Except FsError Json × List FsOp :=
  match resolve_real_path fs root p.rel_path with
  | .error e => (.error e, [])
  | .ok target =>
    if ¬ fs.exists_ target then
      (.error (FsError.not_found "no such file"), [.metadata target])
    else if ¬ fs.is_file target then
      (.error (FsError.not_file "target is not a file"), [.metadata target])
    else
      (.ok (Json.obj [("content", .str (fs.content target)),
                      ("bytes", .int (fs.content target).length)]),
       [.metadata target, .readFile target])

/-- `real::list` with its access trace. -/
def real_list (fs : FsView) (root : FsPath) (p : RealPath) :
    Except FsError Json × List FsOp :=
  match resolve_real_path fs root p.rel_path with
  | .error e => (.error e, [])
  | .ok target =>
    if ¬ fs.exists_ target then
      (.error (FsError.not_found "no such directory"), [.metadata target])
    else if ¬ fs.is_dir target then
      (.error (FsError.not_directory "target is not a directory"), [.metadata target])
    else
      (.ok (fs.dirListing target), [.metadata target, .readDir target])

/-- `real::replace` with its access trace (its in-memory string logic is
`real_replace_pure`, shared with claim C10). -/
def real_replace (fs : FsView) (root : FsPath) (p : RealPath)
    (old new : Str) (mode : ReplaceMode) : Except FsError Json × List FsOp :=
  if old = [] then
    (.error (FsError.invalid_args "replace.old must be non-empty"), [])
  else
    match resolve_real_path fs root p.rel_path with
    | .error e => (.error e, [])
    | .ok target =>
      if ¬ fs.exists_ target then
        (.error (FsError.not_found "no such file"), [.metadata target])
      else if ¬ fs.is_file target then
        (.error (FsError.not_file "target is not a file"), [.metadata target])
      else
        let current := fs.content target
        let r := real_replace_pure current old new mode
        (.ok (Json.obj [("replacements", .int r.2), ("bytes", .int r.1.length)]),
         [.metadata target, .readFile target, .writeFile target r.1])

theorem real_write_trace (fs : FsView) (root : FsPath) (p : RealPath)
    (content : Str) (ao : Bool) :
    ∀ op ∈ (real_write fs root p content ao).2,
      (FsOp.path op = root ++ p.rel_path ∨
        FsOp.path op = (root ++ p.rel_path).dropLast) ∧
      ensure_path_stays_within_workspace fs root (root ++ p.rel_path) = .ok () := by
  intro op hop
  unfold real_write resolve_real_path at hop
  cases hs : ensure_path_stays_within_workspace fs root (root ++ p.rel_path) with
  | error e => rw [hs] at hop; simp at hop
  | ok u =>
    cases u
    rw [hs] at hop
    dsimp only at hop
    by_cases he : fs.exists_ (root ++ p.rel_path) = true
    · rw [if_pos he] at hop
      by_cases hf : fs.is_file (root ++ p.rel_path) = true
      · rw [if_neg (by simp [hf])] at hop
        by_cases hao : ao = true
        · rw [if_neg (by simp [hao])] at hop
          simp only [List.mem_cons, List.not_mem_nil, or_false] at hop
          rcases hop with rfl | rfl | rfl
          · exact ⟨Or.inl rfl, rfl⟩
          · exact ⟨Or.inr rfl, rfl⟩
          · exact ⟨Or.inl rfl, rfl⟩
        · rw [if_pos (by simp [hao])] at hop
          simp only [List.mem_cons, List.not_mem_nil, or_false] at hop
          rcases hop with rfl
          exact ⟨Or.inl rfl, rfl⟩
      · rw [if_pos (by simp [hf])] at hop
        simp only [List.mem_cons, List.not_mem_nil, or_false] at hop
        rcases hop with rfl
        exact ⟨Or.inl rfl, rfl⟩
    · rw [if_neg he] at hop
      simp only [List.mem_cons, List.not_mem_nil, or_false] at hop
      rcases hop with rfl | rfl
      · exact ⟨Or.inr rfl, rfl⟩
      · exact ⟨Or.inl rfl, rfl⟩

theorem real_read_trace (fs : FsView) (root : FsPath) (p : RealPath) :
    ∀ op ∈ (real_read fs root p).2,
      (FsOp.path op = root ++ p.rel_path ∨
        FsOp.path op = (root ++ p.rel_path).dropLast) ∧
      ensure_path_stays_within_workspace fs root (root ++ p.rel_path) = .ok () := by
  intro op hop
  unfold real_read resolve_real_path at hop
  cases hs : ensure_path_stays_within_workspace fs root (root ++ p.rel_path) with
  | error e => rw [hs] at hop; simp at hop
  | ok u =>
    cases u
    rw [hs] at hop
    dsimp only at hop
    by_cases he : fs.exists_ (root ++ p.rel_path) = true
    · rw [if_neg (by simp [he])] at hop
      by_cases hf : fs.is_file (root ++ p.rel_path) = true
      · rw [if_neg (by simp [hf])] at hop
        simp only [List.mem_cons, List.not_mem_nil, or_false] at hop
        rcases hop with rfl | rfl
        · exact ⟨Or.inl rfl, rfl⟩
        · exact ⟨Or.inl rfl, rfl⟩
      · rw [if_pos (by simp [hf])] at hop
        simp only [List.mem_cons, List.not_mem_nil, or_false] at hop
        rcases hop with rfl
        exact ⟨Or.inl rfl, rfl⟩
    · rw [if_pos (by simp [he])] at hop
      simp only [List.mem_cons, List.not_mem_nil, or_false] at hop
      rcases hop with rfl
      exact ⟨Or.inl rfl, rfl⟩

theorem real_list_trace (fs : FsView) (root : FsPath) (p : RealPath) :
    ∀ op ∈ (real_list fs root p).2,
      (FsOp.path op = root ++ p.rel_path ∨
        FsOp.path op = (root ++ p.rel_path).dropLast) ∧
      ensure_path_stays_within_workspace fs root (root ++ p.rel_path) = .ok () := by
  intro op hop
  unfold real_list resolve_real_path at hop
  cases hs : ensure_path_stays_within_workspace fs root (root ++ p.rel_path) with
  | error e => rw [hs] at hop; simp at hop
  | ok u =>
    cases u
    rw [hs] at hop
    dsimp only at hop
    by_cases he : fs.exists_ (root ++ p.rel_path) = true
    · rw [if_neg (by simp [he])] at hop
      by_cases hd : fs.is_dir (root ++ p.rel_path) = true
      · rw [if_neg (by simp [hd])] at hop
        simp only [List.mem_cons, List.not_mem_nil, or_false] at hop
        rcases hop with rfl | rfl
        · exact ⟨Or.inl rfl, rfl⟩
        · exact ⟨Or.inl rfl, rfl⟩
      · rw [if_pos (by simp [hd])] at hop
        simp only [List.mem_cons, List.not_mem_nil, or_false] at hop
        rcases hop with rfl
        exact ⟨Or.inl rfl, rfl⟩
    · rw [if_pos (by simp [he])] at hop
      simp only [List.mem_cons, List.not_mem_nil, or_false] at hop
      rcases hop with rfl
      exact ⟨Or.inl rfl, rfl⟩

theorem real_replace_trace (fs : FsView) (root : FsPath) (p : RealPath)
    (old new : Str) (mode : ReplaceMode) :
    ∀ op ∈ (real_replace fs root p old new mode).2,
      (FsOp.path op = root ++ p.rel_path ∨
        FsOp.path op = (root ++ p.rel_path).dropLast) ∧
      ensure_path_stays_within_workspace fs root (root ++ p.rel_path) = .ok () := by
  intro op hop
  unfold real_replace resolve_real_path at hop
  by_cases ho : old = []
  · rw [if_pos ho] at hop
    simp at hop
  · rw [if_neg ho] at hop
    cases hs : ensure_path_stays_within_workspace fs root (root ++ p.rel_path) with
    | error e => rw [hs] at hop; simp at hop
    | ok u =>
      cases u
      rw [hs] at hop
      dsimp only at hop
      by_cases he : fs.exists_ (root ++ p.rel_path) = true
      · rw [if_neg (by simp [he])] at hop
        by_cases hf : fs.is_file (root ++ p.rel_path) = true
        · rw [if_neg (by simp [hf])] at hop
          simp only [List.mem_cons, List.not_mem_nil, or_false] at hop
          rcases hop with rfl | rfl | rfl
          · exact ⟨Or.inl rfl, rfl⟩
          · exact ⟨Or.inl rfl, rfl⟩
          · exact ⟨Or.inl rfl, rfl⟩
        · rw [if_pos (by simp [hf])] at hop
          simp only [List.mem_cons, List.not_mem_nil, or_false] at hop
          rcases hop with rfl
          exact ⟨Or.inl rfl, rfl⟩
      · rw [if_pos (by simp [he])] at hop
        simp only [List.mem_cons, List.not_mem_nil, or_false] at hop
        rcases hop with rfl
        exact ⟨Or.inl rfl, rfl⟩

/-- **C1.**  For every `fs://` operation: (a) every filesystem access the
executor performs touches the resolved target (or its parent, for
`create_dir_all`); (b) if any access happens at all, the containment
check passed; (c) passing the check means the canonical form of the
target's deepest existing ancestor has the canonical workspace root as a
prefix; (d) both decided escapes (no existing ancestor; canonical-prefix
failure) produce `permission_denied`; (e) a failed check makes the
operation return that error with an empty access trace — nothing is
read, written or created. -/
theorem c1_fs_path_containment (fs : FsView) (root : FsPath) (p : RealPath)
    (content : Str) (ao : Bool) (old new : Str) (mode : ReplaceMode) :
    (∀ op, (op ∈ (real_write fs root p content ao).2 ∨
            op ∈ (real_read fs root p).2 ∨
            op ∈ (real_list fs root p).2 ∨
            op ∈ (real_replace fs root p old new mode).2) →
      FsOp.path op = root ++ p.rel_path ∨
        FsOp.path op = (root ++ p.rel_path).dropLast) ∧
    (((real_write fs root p content ao).2 ≠ [] ∨
      (real_read fs root p).2 ≠ [] ∨
      (real_list fs root p).2 ≠ [] ∨
      (real_replace fs root p old new mode).2 ≠ []) →
      ensure_path_stays_within_workspace fs root (root ++ p.rel_path) = .ok ()) ∧
    (ensure_path_stays_within_workspace fs root (root ++ p.rel_path) = .ok () →
      ∃ probe cw cp, deepestExistingAncestor fs (root ++ p.rel_path) = some probe ∧
        fs.canon root = .ok cw ∧ fs.canon probe = .ok cp ∧
        cw.isPrefixOf cp = true) ∧
    (deepestExistingAncestor fs (root ++ p.rel_path) = none →
      ensure_path_stays_within_workspace fs root (root ++ p.rel_path) =
        .error (FsError.permission_denied
          "unable to resolve path within workspace root")) ∧
    (∀ probe cw cp, deepestExistingAncestor fs (root ++ p.rel_path) = some probe →
      fs.canon root = .ok cw → fs.canon probe = .ok cp →
      cw.isPrefixOf cp = false →
      ensure_path_stays_within_workspace fs root (root ++ p.rel_path) =
        .error (FsError.permission_denied
          "path escapes configured workspace root")) ∧
    (∀ e, ensure_path_stays_within_workspace fs root (root ++ p.rel_path) =
        .error e →
      real_write fs root p content ao = (.error e, []) ∧
      real_read fs root p = (.error e, []) ∧
      real_list fs root p = (.error e, []) ∧
      (old ≠ [] → real_replace fs root p old new mode = (.error e, []))) := by
  refine ⟨?_, ?_, ?_, ?_, ?_, ?_⟩
  · intro op hop
    rcases hop with h | h | h | h
    · exact (real_write_trace fs root p content ao op h).1
    · exact (real_read_trace fs root p op h).1
    · exact (real_list_trace fs root p op h).1
    · exact (real_replace_trace fs root p old new mode op h).1
  · intro hne
    rcases hne with h | h | h | h
    · obtain ⟨op, hop⟩ := List.exists_mem_of_ne_nil _ h
      exact (real_write_trace fs root p content ao op hop).2
    · obtain ⟨op, hop⟩ := List.exists_mem_of_ne_nil _ h
      exact (real_read_trace fs root p op hop).2
    · obtain ⟨op, hop⟩ := List.exists_mem_of_ne_nil _ h
      exact (real_list_trace fs root p op hop).2
    · obtain ⟨op, hop⟩ := List.exists_mem_of_ne_nil _ h
      exact (real_replace_trace fs root p old new mode op hop).2
  · intro hok
    unfold ensure_path_stays_within_workspace at hok
    cases hd : deepestExistingAncestor fs (root ++ p.rel_path) with
    | none => rw [hd] at hok; simp at hok
    | some probe =>
      rw [hd] at hok
      dsimp only at hok
      cases hw : fs.canon root with
      | error e => rw [hw] at hok; simp at hok
      | ok cw =>
        rw [hw] at hok
        dsimp only at hok
        cases hp : fs.canon probe with
        | error e => rw [hp] at hok; simp at hok
        | ok cp =>
          rw [hp] at hok
          dsimp only at hok
          by_cases hpre : cw.isPrefixOf cp = true
          · exact ⟨probe, cw, cp, rfl, rfl, hp, hpre⟩
          · rw [if_neg hpre] at hok
            simp at hok
  · intro hd
    unfold ensure_path_stays_within_workspace
    rw [hd]
  · intro probe cw cp hd hw hp hpre
    unfold ensure_path_stays_within_workspace
    rw [hd]
    dsimp only
    rw [hw]
    dsimp only
    rw [hp]
    dsimp only
    rw [if_neg (by simp [hpre])]
  · intro e he
    refine ⟨?_, ?_, ?_, ?_⟩
    · unfold real_write resolve_real_path
      rw [he]
    · unfold real_read resolve_real_path
      rw [he]
    · unfold real_list resolve_real_path
      rw [he]
    · intro ho
      unfold real_replace resolve_real_path
      rw [if_neg ho, he]

/-- Witness for C1 at a concrete escaping request: the workspace root is
`/ws`, the target `/ws/link` exists but canonicalizes to `/etc` — outside
the canonical root `/ws` — so every operation fails `permission_denied`
with an empty access trace. -/
theorem c1_fs_path_containment_witness :
    (ensure_path_stays_within_workspace
        { exists_ := fun _ => true, is_file := fun _ => true,
          is_dir := fun _ => true, content := fun _ => [],
          canon := fun q =>
            if q = [['w', 's'], ['l', 'i', 'n', 'k']] then .ok [['e', 't', 'c']]
            else .ok q,
          dirListing := fun _ => Json.null }
        [['w', 's']] ([['w', 's']] ++ [['l', 'i', 'n', 'k']]) =
      .error (FsError.permission_denied
        "path escapes configured workspace root")) ∧
      real_write
        { exists_ := fun _ => true, is_file := fun _ => true,
          is_dir := fun _ => true, content := fun _ => [],
          canon := fun q =>
            if q = [['w', 's'], ['l', 'i', 'n', 'k']] then .ok [['e', 't', 'c']]
            else .ok q,
          dirListing := fun _ => Json.null }
        [['w', 's']] ⟨[['l', 'i', 'n', 'k']], []⟩ [] true =
      (.error (FsError.permission_denied
        "path escapes configured workspace root"), []) := by
  have he : ensure_path_stays_within_workspace
      { exists_ := fun _ => true, is_file := fun _ => true,
        is_dir := fun _ => true, content := fun _ => [],
        canon := fun q =>
          if q = [['w', 's'], ['l', 'i', 'n', 'k']] then .ok [['e', 't', 'c']]
          else .ok q,
        dirListing := fun _ => Json.null }
      [['w', 's']] ([['w', 's']] ++ [['l', 'i', 'n', 'k']]) =
      .error (FsError.permission_denied
        "path escapes configured workspace root") := by
    unfold ensure_path_stays_within_workspace
    rw [deepestExistingAncestor.eq_def]
    norm_num
  refine ⟨he, ?_⟩
  exact ((c1_fs_path_containment
    { exists_ := fun _ => true, is_file := fun _ => true,
      is_dir := fun _ => true, content := fun _ => [],
      canon := fun q =>
        if q = [['w', 's'], ['l', 'i', 'n', 'k']] then .ok [['e', 't', 'c']]
        else .ok q,
      dirListing := fun _ => Json.null }
    [['w', 's']] ⟨[['l', 'i', 'n', 'k']], []⟩ [] true [] [] ReplaceMode.all).2.2.2.2.2
    _ he).1

/-! ## `session/engine.rs` — the session actor (claims C2, C3, C4)

One session's actor loop, embedded as a step function over an explicit
`SessionState`.  Task-ids and trigger-ids are modelled as the `Nat`
counters behind the source's `"task-N"` / `"trigger-N"` strings (the
formatting is injective).  The runtime environment enters as a
`SessionEnv`: the capacity, the clock, the profile store and — standing
for the whole agent orchestrator — an oracle giving, per turn, the stream
notes, the tool invocations and the outcome the orchestrator would
produce.  The detached task completer is not a state change: its eventual
`TaskFinished` message is simply one more command, and the theorems
quantify over arbitrary command sequences (a superset of the actually
reachable ones).  Events omit `session_id` and the timestamp fields. -/

inductive TaskStatus where
  | unspecified
  | pending
  | running
  | succeeded
  | failed
  | canceled
  deriving Repr, DecidableEq

/-- `task_status_label` from `util.rs`. -/
def task_status_label : TaskStatus → String
  | .unspecified => "unspecified"
  | .pending => "pending"
  | .running => "running"
  | .succeeded => "succeeded"
  | .failed => "failed"
  | .canceled => "canceled"

/-- Terminal statuses (`Succeeded | Failed | Canceled`). -/
def TaskStatus.isTerminal : TaskStatus → Bool
  | .succeeded => true
  | .failed => true
  | .canceled => true
  | _ => false

structure Task where
  task_id : Nat
  tool_name : String
  args_json : String
  status : TaskStatus
  result_message : String
  created_at_unix_ms : Nat
  updated_at_unix_ms : Nat
  deriving Repr, DecidableEq

inductive RefreshScope where
  | unspecified
  | agent
  | user
  | all
  deriving Repr, DecidableEq

/-- `refresh_scope_label` from `util.rs`. -/
def refresh_scope_label : RefreshScope → String
  | .unspecified => "unspecified"
  | .agent => "agent"
  | .user => "user"
  | .all => "all"

inductive TriggerKind where
  | userMessage (user_id text : String)
  | taskDone (task_id : Nat) (status : TaskStatus) (result_message : String)
  | heartbeat
  | cron (key : String)
  | refreshProfile (scope : RefreshScope) (user_id : String)
  | missing
  deriving Repr, DecidableEq

structure Trigger where
  trigger_id : Nat
  created_at_unix_ms : Nat
  kind : TriggerKind
  deriving Repr, DecidableEq

structure SessionState2 where
  session_id : String
  participant_user_ids : List String
  agent_spec_version : Nat
  trigger_queue : List Trigger
  history : List String
  tasks : List (Nat × Task)
  pending_task_ids : List Nat
  running_task_ids : List Nat
  turn_seq : Nat
  turn_in_progress : Bool
  task_seq : Nat
  trigger_seq : Nat
  deriving Repr, DecidableEq

inductive SessionEvent where
  | triggerAccepted (t : Trigger) (queue_depth : Nat)
  | turnStarted (turn_id trigger_count : Nat)
  | turnEnded (turn_id : Nat) (reason : String) (history_size : Nat)
  | turnFailure (turn_id : Nat) (reason_code message : String)
  | assistantOutput (content : String)
  | taskStateChanged (t : Task)
  | profileRefreshed (scope : RefreshScope) (refreshed_user_ids : List String)
      (agent_spec_version : Nat)
  | agentStream (phase detail : String)
  deriving Repr, DecidableEq

/-- What the orchestrator does in one turn (`AgentOrchestrator::run_turn`
outcome plus its callback activity, as an oracle). -/
structure AgentOutcome where
  streamNotes : List (String × String)
  tools : List (String × String × Option String)
  failed : Bool
  failure_code : String
  failure_message : String
  diagnostics : List String
  tool_call_count : Nat

/-- The runtime environment of one session actor. -/
structure SessionEnv where
  task_capacity : Nat
  now : Nat
  agentOutcome : Nat → AgentOutcome
  fetchAgentSpec : String → Option Nat
  fetchUserOk : String → Bool

/-- `HashMap::get` for the task table. -/
def taskGet (m : List (Nat × Task)) (k : Nat) : Option Task :=
  (m.find? (fun kv => kv.1 = k)).map (fun kv => kv.2)

/-- `HashMap::insert` for the task table (replace or append). -/
def taskPut (m : List (Nat × Task)) (k : Nat) (v : Task) : List (Nat × Task) :=
  if (m.find? (fun kv => kv.1 = k)).isSome then
    m.map (fun kv => if kv.1 = k then (k, v) else kv)
  else m ++ [(k, v)]

/-- `HashSet::insert` for the running set. -/
def hsInsert (l : List Nat) (k : Nat) : List Nat :=
  if k ∈ l then l else l ++ [k]

/-- `HashSet::remove` / `Vec::retain(|c| c != id)`. -/
def idRemove (l : List Nat) (k : Nat) : List Nat := l.filter (fun x => x ≠ k)

/-- `enqueue_trigger`: push, emit `TriggerAccepted`, return the depth. -/
def enqueue_trigger (st : SessionState2) (t : Trigger) :
    SessionState2 × List SessionEvent × Nat :=
  let st1 := { st with trigger_queue := st.trigger_queue ++ [t] }
  let depth := st1.trigger_queue.length
  (st1, [.triggerAccepted t depth], depth)

/-- `queue_task`: allocate the next task-id, admit it as `running` when
below capacity (spawning the detached completer, which is outside this
state) and as `pending` otherwise, store it, emit `TaskStateChanged`. -/
def queue_task (env : SessionEnv) (st : SessionState2)
    (tool_name args_json : String) : SessionState2 × List SessionEvent × Task :=
  let task_id := st.task_seq + 1
  let should_run_now := st.running_task_ids.length < env.task_capacity
  let status := if should_run_now then TaskStatus.running else TaskStatus.pending
  let task : Task :=
    { task_id := task_id, tool_name := tool_name, args_json := args_json,
      status := status, result_message := "",
      created_at_unix_ms := env.now, updated_at_unix_ms := env.now }
  let st1 := { st with
    task_seq := task_id,
    tasks := taskPut st.tasks task_id task,
    running_task_ids :=
      if should_run_now then hsInsert st.running_task_ids task_id
      else st.running_task_ids,
    pending_task_ids :=
      if should_run_now then st.pending_task_ids
      else st.pending_task_ids ++ [task_id] }
  (st1, [.taskStateChanged task], task)

/-- `maybe_start_pending_tasks`: promote pendings (FIFO) while below
capacity, skipping ids that are missing or no longer `pending`. -/
def maybe_start_pending_tasks (env : SessionEnv) (st : SessionState2) :
    SessionState2 × List SessionEvent :=
  if st.running_task_ids.length < env.task_capacity then
    match hq : st.pending_task_ids with
    | [] => (st, [])
    | task_id :: rest =>
      let st1 := { st with pending_task_ids := rest }
      match taskGet st1.tasks task_id with
      | none => maybe_start_pending_tasks env st1
      | some task =>
        if task.status ≠ TaskStatus.pending then
          maybe_start_pending_tasks env st1
        else
          let task1 := { task with
            status := TaskStatus.running
            updated_at_unix_ms := env.now }
          let st2 := { st1 with
            tasks := taskPut st1.tasks task_id task1,
            running_task_ids := hsInsert st1.running_task_ids task_id }
          let r := maybe_start_pending_tasks env st2
          (r.1, .taskStateChanged task1 :: r.2)
  else (st, [])
termination_by st.pending_task_ids.length
decreasing_by
  all_goals simp [hq]

/-- `cancel_task`. -/
def cancel_task (env : SessionEnv) (st : SessionState2) (task_id : Nat) :
    SessionState2 × List SessionEvent × Except String (Bool × Task) :=
  match taskGet st.tasks task_id with
  | none => (st, [], .error "task not found")
  | some task =>
    if task.status.isTerminal then (st, [], .ok (false, task))
    else
      let st1 :=
        if task.status = TaskStatus.pending then
          { st with pending_task_ids := idRemove st.pending_task_ids task_id }
        else if task.status = TaskStatus.running then
          { st with running_task_ids := idRemove st.running_task_ids task_id }
        else st
      let task1 := { task with
        status := TaskStatus.canceled
        result_message := "canceled by request"
        updated_at_unix_ms := env.now }
      let st2 := { st1 with tasks := taskPut st1.tasks task_id task1 }
      let r := maybe_start_pending_tasks env st2
      (r.1, .taskStateChanged task1 :: r.2, .ok (true, task1))

/-- `handle_finished_task`: ignore missing or terminal tasks; otherwise
settle the status, emit, synthesize a `task_done` trigger (fresh id) and
promote pendings. -/
def handle_finished_task (env : SessionEnv) (st : SessionState2)
    (task_id : Nat) (succeeded : Bool) (message : String) :
    SessionState2 × List SessionEvent :=
  match taskGet st.tasks task_id with
  | none => (st, [])
  | some task =>
    if task.status = TaskStatus.canceled then (st, [])
    else if task.status ≠ TaskStatus.running ∧ task.status ≠ TaskStatus.pending then
      (st, [])
    else
      let st1 := { st with running_task_ids := idRemove st.running_task_ids task_id }
      let task1 := { task with
        status := if succeeded then TaskStatus.succeeded else TaskStatus.failed
        result_message := message
        updated_at_unix_ms := env.now }
      let st2 := { st1 with tasks := taskPut st1.tasks task_id task1 }
      let evs1 := [SessionEvent.taskStateChanged task1]
      let trigger : Trigger :=
        { trigger_id := st2.trigger_seq + 1, created_at_unix_ms := env.now,
          kind := .taskDone task1.task_id task1.status task1.result_message }
      let st3 := { st2 with trigger_seq := st2.trigger_seq + 1 }
      let e := enqueue_trigger st3 trigger
      let m := maybe_start_pending_tasks env e.1
      (m.1, evs1 ++ e.2.1 ++ m.2)

/-- `apply_profile_refresh` (profile copies beyond the spec version are
not tracked; the refreshed-id list follows the source's logic). -/
def apply_profile_refresh (env : SessionEnv) (st : SessionState2)
    (scope : RefreshScope) (user_id : String) : SessionState2 × List String :=
  let st1 :=
    if scope = RefreshScope.agent ∨ scope = RefreshScope.all then
      match env.fetchAgentSpec st.session_id with
      | some v => { st with agent_spec_version := v }
      | none => st
    else st
  if scope = RefreshScope.user ∨ scope = RefreshScope.all then
    if scope = RefreshScope.user ∧ ¬ strIsBlank user_id.toList then
      if env.fetchUserOk user_id then (st1, [user_id]) else (st1, [])
    else
      (st1, st1.participant_user_ids.filter (fun uid => env.fetchUserOk uid))
  else (st1, [])

/-- `trigger_to_history_text`. -/
def trigger_to_history_text (t : Trigger) : String :=
  match t.kind with
  | .userMessage uid text => "user:" ++ uid ++ " " ++ text
  | .taskDone tid status msg =>
    "task-" ++ toString tid ++ " " ++ task_status_label status ++ " " ++ msg
  | .heartbeat => "heartbeat"
  | .cron key => "cron:" ++ key
  | .refreshProfile scope uid => "refresh:" ++ refresh_scope_label scope ++ ":" ++ uid
  | .missing => "unknown trigger"

/-- `flush_history`. -/
def flush_history (env : SessionEnv) (st : SessionState2)
    (turn_triggers : List Trigger) (assistant_outputs : List String) :
    SessionState2 :=
  { st with history := st.history ++
      turn_triggers.map (fun t =>
        toString t.created_at_unix_ms ++ " trigger " ++ trigger_to_history_text t) ++
      assistant_outputs.map (fun out => toString env.now ++ " assistant " ++ out) }

/-- The per-tool body of `run_agent_turn`'s dispatch loop: queue one task
and collect its `queued tool …` assistant line. -/
def queue_task_step (env : SessionEnv)
    (acc : SessionState2 × List SessionEvent × List String)
    (tool : String × String × Option String) :
    SessionState2 × List SessionEvent × List String :=
  let q := queue_task env acc.1 tool.1 tool.2.1
  let task := q.2.2
  let status_label := task_status_label task.status
  let call_suffix :=
    match tool.2.2 with
    | some call_id => " call_id=" ++ call_id
    | none => ""
  (q.1, acc.2.1 ++ q.2.1,
    acc.2.2 ++ ["queued tool `" ++ task.tool_name ++ "` as task-" ++
      toString task.task_id ++ " (" ++ status_label ++ ")" ++ call_suffix])

/-- `run_agent_turn`: emit the orchestrator's stream notes, queue one task
per tool invocation, then append the diagnostics and either the failure
events/line or the dispatch-summary line.  The oracle supplies what the
orchestrator and its callbacks would do for this turn. -/
def run_agent_turn (env : SessionEnv) (st : SessionState2) (turn_id : Nat)
    (assistant_outputs : List String) :
    SessionState2 × List SessionEvent × List String :=
  let outcome := env.agentOutcome turn_id
  let noteEvents := outcome.streamNotes.map
    (fun n => SessionEvent.agentStream n.1 n.2)
  let folded := outcome.tools.foldl (queue_task_step env)
    (st, noteEvents, assistant_outputs)
  let outputs1 := folded.2.2 ++ outcome.diagnostics
  if outcome.failed then
    (folded.1,
     folded.2.1 ++ [.turnFailure turn_id outcome.failure_code outcome.failure_message],
     outputs1 ++ ["turn failed [" ++ outcome.failure_code ++ "]: " ++
       outcome.failure_message])
  else
    (folded.1, folded.2.1,
     outputs1 ++ ["agent dispatched " ++ toString outcome.tool_call_count ++
       " tool call(s)"])

/-- The per-trigger partition loop of `process_turns`: `refresh_profile`
triggers are applied inline (emitting `ProfileRefreshed` and an output
line); everything else goes to `agent_triggers`. -/
def partition_triggers (env : SessionEnv) :
    List Trigger → SessionState2 → List SessionEvent → List String →
      List Trigger → SessionState2 × List SessionEvent × List String × List Trigger
  | [], st, evs, outs, ags => (st, evs, outs, ags)
  | t :: rest, st, evs, outs, ags =>
    match t.kind with
    | .refreshProfile scope uid =>
      let r := apply_profile_refresh env st scope uid
      partition_triggers env rest r.1
        (evs ++ [.profileRefreshed scope r.2 r.1.agent_spec_version])
        (outs ++ ["profile copies refreshed for this session"]) ags
    | _ => partition_triggers env rest st evs outs (ags ++ [t])

/-- One iteration of the `while !trigger_queue.is_empty()` loop: bump
`turn_seq`, drain the queue, emit `TurnStarted`, apply refreshes, run the
agent when needed, emit the assistant outputs, flush history, emit
`TurnEnded`. -/
def run_one_turn (env : SessionEnv) (st : SessionState2) :
    SessionState2 × List SessionEvent :=
  let turn_id := st.turn_seq + 1
  let turn_triggers := st.trigger_queue
  let st1 := { st with turn_seq := turn_id, trigger_queue := [] }
  let startEv := SessionEvent.turnStarted turn_id turn_triggers.length
  let p := partition_triggers env turn_triggers st1 [] [] []
  let st2 := p.1
  let agent_triggers := p.2.2.2
  let a :=
    if agent_triggers ≠ [] then run_agent_turn env st2 turn_id p.2.2.1
    else (st2, [], p.2.2.1)
  let outEvents := a.2.2.map SessionEvent.assistantOutput
  let st3 := flush_history env a.1 turn_triggers a.2.2
  let endEv := SessionEvent.turnEnded turn_id
    ("processed " ++ toString turn_triggers.length ++ " trigger(s)")
    st3.history.length
  (st3, startEv :: (p.2.1 ++ a.2.1 ++ outEvents ++ [endEv]))

/-- The turn loop with fuel.  The body drains the queue and nothing
reachable from it enqueues (`run_one_turn_queue_empty` below), so the
`while` loop runs at most one iteration; fuel equal to the entry queue
length therefore makes this exactly the source's loop. -/
def process_turns_go (env : SessionEnv) :
    Nat → SessionState2 → SessionState2 × List SessionEvent
  | 0, st => (st, [])
  | fuel + 1, st =>
    match st.trigger_queue with
    | [] => (st, [])
    | _ :: _ =>
      let r := run_one_turn env st
      let r2 := process_turns_go env fuel r.1
      (r2.1, r.2 ++ r2.2)

/-- `process_turns`: guarded by `turn_in_progress`. -/
def process_turns (env : SessionEnv) (st : SessionState2) :
    SessionState2 × List SessionEvent :=
  if st.turn_in_progress then (st, [])
  else
    let st1 := { st with turn_in_progress := true }
    let r := process_turns_go env st1.trigger_queue.length st1
    ({ r.1 with turn_in_progress := false }, r.2)

/-- `SessionCommand` (reply channels dropped; replies are the third
components of the primitive operations). -/
inductive SessionCommand2 where
  | enqueueTrigger (t : Trigger)
  | getSummary
  | listTasks
  | cancelTask (task_id : Nat)
  | taskFinished (task_id : Nat) (succeeded : Bool) (message : String)
  deriving Repr, DecidableEq

/-- One iteration of the actor's mailbox loop (`run_session_actor`). -/
def session_step (env : SessionEnv) (st : SessionState2) (c : SessionCommand2) :
    SessionState2 × List SessionEvent :=
  match c with
  | .enqueueTrigger t =>
    let e := enqueue_trigger st t
    let p := process_turns env e.1
    (p.1, e.2.1 ++ p.2)
  | .getSummary => (st, [])
  | .listTasks => (st, [])
  | .cancelTask task_id =>
    let r := cancel_task env st task_id
    (r.1, r.2.1)
  | .taskFinished task_id succeeded message =>
    let h := handle_finished_task env st task_id succeeded message
    let p := process_turns env h.1
    (p.1, h.2 ++ p.2)

/-- The actor over a command sequence. -/
def session_run (env : SessionEnv) :
    SessionState2 → List SessionCommand2 → SessionState2 × List SessionEvent
  | st, [] => (st, [])
  | st, c :: rest =>
    let r := session_step env st c
    let r2 := session_run env r.1 rest
    (r2.1, r.2 ++ r2.2)

/-- `SessionState::new`: the freshly created session state. -/
def initial_session_state (session_id : String)
    (participant_user_ids : List String) : SessionState2 :=
  { session_id := session_id, participant_user_ids := participant_user_ids,
    agent_spec_version := 1, trigger_queue := [], history := [], tasks := [],
    pending_task_ids := [], running_task_ids := [], turn_seq := 0,
    turn_in_progress := false, task_seq := 0, trigger_seq := 0 }

/-! ### Bookkeeping lemmas for the task containers -/

theorem find_isSome_iff_mem_keys {α : Type} (m : List (Nat × α)) (k : Nat) :
    (m.find? (fun kv => kv.1 = k)).isSome ↔ k ∈ m.map Prod.fst := by
  induction m with
  | nil => simp
  | cons kv rest ih =>
    by_cases h : kv.1 = k
    · simp [List.find?_cons, h]
    · simp [List.find?_cons, h, ih, Ne.symm h]

theorem findRep_same {α : Type} (m : List (Nat × α)) (k : Nat) (v : α)
    (h : (m.find? (fun kv => kv.1 = k)).isSome) :
    ((m.map (fun kv => if kv.1 = k then (k, v) else kv)).find?
      (fun kv => kv.1 = k)) = some (k, v) := by
  induction m with
  | nil => simp at h
  | cons a rest ih =>
    by_cases ha : a.1 = k
    · simp [List.find?_cons, ha]
    · have h2 : (rest.find? (fun kv => kv.1 = k)).isSome := by
        simpa [List.find?_cons, ha] using h
      simp [List.find?_cons, ha, ih h2]

theorem findRep_other {α : Type} (m : List (Nat × α)) (k k2 : Nat) (v : α)
    (hne : k2 ≠ k) :
    ((m.map (fun kv => if kv.1 = k then (k, v) else kv)).find?
      (fun kv => kv.1 = k2)) = m.find? (fun kv => kv.1 = k2) := by
  induction m with
  | nil => simp
  | cons a rest ih =>
    simp only [List.map_cons]
    by_cases ha : a.1 = k
    · have ha2 : ¬ (a.1 = k2) := by rw [ha]; exact Ne.symm hne
      rw [if_pos ha]
      rw [List.find?_cons_of_neg _ (by simpa using Ne.symm hne)]
      rw [List.find?_cons_of_neg _ (by simpa using ha2)]
      exact ih
    · rw [if_neg ha]
      by_cases ha2 : a.1 = k2
      · rw [List.find?_cons_of_pos _ (by simpa using ha2)]
        rw [List.find?_cons_of_pos _ (by simpa using ha2)]
      · rw [List.find?_cons_of_neg _ (by simpa using ha2)]
        rw [List.find?_cons_of_neg _ (by simpa using ha2)]
        exact ih

theorem find_none_of_not_mem {α : Type} (m : List (Nat × α)) (k : Nat)
    (h : k ∉ m.map Prod.fst) :
    m.find? (fun kv => kv.1 = k) = none := by
  rw [← Option.not_isSome_iff_eq_none]
  rw [find_isSome_iff_mem_keys]
  exact h

theorem mapRep_keys {α : Type} (m : List (Nat × α)) (k : Nat) (v : α) :
    (m.map (fun kv => if kv.1 = k then (k, v) else kv)).map Prod.fst
      = m.map Prod.fst := by
  rw [List.map_map]
  apply List.map_congr_left
  intro kv _
  by_cases hk : kv.1 = k
  · simp [hk]
  · simp [hk]

theorem mem_hsInsert (l : List Nat) (k x : Nat) :
    x ∈ hsInsert l k ↔ x ∈ l ∨ x = k := by
  unfold hsInsert
  by_cases h : k ∈ l
  · rw [if_pos h]
    constructor
    · exact Or.inl
    · rintro (hx | rfl)
      · exact hx
      · exact h
  · rw [if_neg h]
    simp

theorem hsInsert_nodup (l : List Nat) (k : Nat) (h : l.Nodup) :
    (hsInsert l k).Nodup := by
  unfold hsInsert
  by_cases hm : k ∈ l
  · rw [if_pos hm]; exact h
  · rw [if_neg hm]
    rw [List.nodup_append]
    refine ⟨h, List.nodup_singleton k, ?_⟩
    intro a ha hb
    rw [List.mem_singleton] at hb
    subst hb
    exact hm ha

theorem hsInsert_length_of_not_mem (l : List Nat) (k : Nat) (h : k ∉ l) :
    (hsInsert l k).length = l.length + 1 := by
  unfold hsInsert
  rw [if_neg h]
  simp

theorem mem_idRemove (l : List Nat) (k x : Nat) :
    x ∈ idRemove l k ↔ x ∈ l ∧ x ≠ k := by
  unfold idRemove
  rw [List.mem_filter]
  simp

theorem idRemove_nodup (l : List Nat) (k : Nat) (h : l.Nodup) :
    (idRemove l k).Nodup := List.Nodup.filter _ h

theorem idRemove_length_le (l : List Nat) (k : Nat) :
    (idRemove l k).length ≤ l.length := List.length_filter_le _ _

theorem taskGet_put_same (m : List (Nat × Task)) (k : Nat) (v : Task) :
    taskGet (taskPut m k v) k = some v := by
  unfold taskGet taskPut
  by_cases h : (m.find? (fun kv => kv.1 = k)).isSome
  · rw [if_pos h, findRep_same m k v h]
    rfl
  · rw [if_neg h, List.find?_append]
    rw [Option.not_isSome_iff_eq_none] at h
    rw [h]
    simp [List.find?_cons]

theorem taskGet_put_other (m : List (Nat × Task)) (k k2 : Nat) (v : Task)
    (h : k2 ≠ k) : taskGet (taskPut m k v) k2 = taskGet m k2 := by
  unfold taskGet taskPut
  by_cases hf : (m.find? (fun kv => kv.1 = k)).isSome
  · rw [if_pos hf, findRep_other m k k2 v h]
  · rw [if_neg hf, List.find?_append]
    have h1 : ([(k, v)].find? (fun kv => kv.1 = k2)) = none := by
      simp [List.find?_cons, Ne.symm h]
    rw [h1, Option.or_none]

theorem taskPut_keys_found (m : List (Nat × Task)) (k : Nat) (v : Task)
    (h : (m.find? (fun kv => kv.1 = k)).isSome) :
    (taskPut m k v).map Prod.fst = m.map Prod.fst := by
  unfold taskPut
  rw [if_pos h]
  exact mapRep_keys m k v

theorem taskPut_keys_not_found (m : List (Nat × Task)) (k : Nat) (v : Task)
    (h : ¬ (m.find? (fun kv => kv.1 = k)).isSome) :
    (taskPut m k v).map Prod.fst = m.map Prod.fst ++ [k] := by
  unfold taskPut
  rw [if_neg h]
  simp

theorem taskGet_mem {m : List (Nat × Task)} {k : Nat} {t : Task}
    (h : taskGet m k = some t) : (k, t) ∈ m := by
  unfold taskGet at h
  rcases Option.map_eq_some'.mp h with ⟨kv, hfind, rfl⟩
  have hmem := List.mem_of_find?_eq_some hfind
  have hkey : kv.1 = k := by
    have := List.find?_some hfind
    simpa using this
  have hkv : kv = (k, kv.2) := by
    rw [← hkey]
  rw [← hkv]
  exact hmem

theorem taskGet_isSome_iff (m : List (Nat × Task)) (k : Nat) :
    (taskGet m k).isSome ↔ k ∈ m.map Prod.fst := by
  unfold taskGet
  rw [Option.isSome_map']
  exact find_isSome_iff_mem_keys m k

theorem taskPut_consistent (m : List (Nat × Task)) (k : Nat) (v : Task)
    (hv : v.task_id = k)
    (h : ∀ kv ∈ m, kv.2.task_id = kv.1) :
    ∀ kv ∈ taskPut m k v, kv.2.task_id = kv.1 := by
  unfold taskPut
  by_cases hf : (m.find? (fun kv => kv.1 = k)).isSome
  · rw [if_pos hf]
    intro kv hkv
    rcases List.mem_map.mp hkv with ⟨kv0, hkv0, rfl⟩
    by_cases hk : kv0.1 = k
    · rw [if_pos hk]
      exact hv
    · rw [if_neg hk]
      exact h kv0 hkv0
  · rw [if_neg hf]
    intro kv hkv
    rcases List.mem_append.mp hkv with hkv | hkv
    · exact h kv hkv
    · rw [List.mem_singleton] at hkv
      subst hkv
      exact hv

/-! ### The session invariants (claims C2, C3, C4) -/

/-- The task-bookkeeping invariant (claim C3, plus the auxiliary facts
that make it inductive): no duplicates in either id container, the two
containers are disjoint, the running set respects the capacity, the task
table's keys are unique, both containers hold only keys of stored tasks,
every stored task records its key as `task_id`, and every key is at most
the `task_seq` counter (freshness of allocated ids). -/
def TaskInv (env : SessionEnv) (st : SessionState2) : Prop :=
  st.running_task_ids.Nodup ∧
  st.pending_task_ids.Nodup ∧
  (∀ id ∈ st.running_task_ids, id ∉ st.pending_task_ids) ∧
  st.running_task_ids.length ≤ env.task_capacity ∧
  (st.tasks.map Prod.fst).Nodup ∧
  (∀ id ∈ st.running_task_ids, id ∈ st.tasks.map Prod.fst) ∧
  (∀ id ∈ st.pending_task_ids, id ∈ st.tasks.map Prod.fst) ∧
  (∀ kv ∈ st.tasks, kv.2.task_id = kv.1) ∧
  (∀ id ∈ st.tasks.map Prod.fst, id ≤ st.task_seq)

/-- The event-boundary invariant: between two mailbox commands the
trigger queue is drained and no turn is in progress. -/
def BoundaryInv (env : SessionEnv) (st : SessionState2) : Prop :=
  TaskInv env st ∧ st.trigger_queue = [] ∧ st.turn_in_progress = false

/-- Is this event a `TaskStateChanged` for the given task-id? -/
def evTaskStateChangedFor (id : Nat) : SessionEvent → Bool
  | .taskStateChanged t => t.task_id = id
  | _ => false

/-- Events that enter neither the `TriggerAccepted` count nor the
`TurnStarted` tally. -/
def evNoCount : SessionEvent → Bool
  | .triggerAccepted _ _ => false
  | .turnStarted _ _ => false
  | _ => true

/-- Is this event a `TaskStateChanged`? -/
def evIsTaskStateChanged : SessionEvent → Bool
  | .taskStateChanged _ => true
  | _ => false

/-- How many `TriggerAccepted` events a trace holds. -/
def countAccepted (evs : List SessionEvent) : Nat :=
  (evs.filter (fun ev => match ev with
    | .triggerAccepted _ _ => true
    | _ => false)).length

/-- The sum of the `trigger_count` tallies of the `TurnStarted` events of
a trace. -/
def tallySum (evs : List SessionEvent) : Nat :=
  (evs.map (fun ev => match ev with
    | .turnStarted _ n => n
    | _ => 0)).sum

/-- Terminal task bindings survive a step and the step emits no
`TaskStateChanged` for them (the sticky part of claim C4, as a relation
to compose along runs). -/
def TasksPreserved (st st2 : SessionState2) (evs : List SessionEvent) : Prop :=
  ∀ id t, taskGet st.tasks id = some t → t.status.isTerminal = true →
    taskGet st2.tasks id = some t ∧
    ∀ ev ∈ evs, evTaskStateChangedFor id ev = false

theorem tasksPreserved_refl (st : SessionState2) : TasksPreserved st st [] := by
  intro id t hget _
  exact ⟨hget, by intro ev hev; simp at hev⟩

theorem tasksPreserved_trans {st1 st2 st3 : SessionState2}
    {e1 e2 : List SessionEvent}
    (h1 : TasksPreserved st1 st2 e1) (h2 : TasksPreserved st2 st3 e2) :
    TasksPreserved st1 st3 (e1 ++ e2) := by
  intro id t hget hterm
  obtain ⟨hg1, he1⟩ := h1 id t hget hterm
  obtain ⟨hg2, he2⟩ := h2 id t hg1 hterm
  refine ⟨hg2, ?_⟩
  intro ev hev
  rcases List.mem_append.mp hev with hev | hev
  · exact he1 ev hev
  · exact he2 ev hev

theorem countAccepted_append (a b : List SessionEvent) :
    countAccepted (a ++ b) = countAccepted a + countAccepted b := by
  unfold countAccepted
  rw [List.filter_append, List.length_append]

theorem tallySum_append (a b : List SessionEvent) :
    tallySum (a ++ b) = tallySum a + tallySum b := by
  unfold tallySum
  rw [List.map_append, List.sum_append]

theorem countAccepted_eq_zero (evs : List SessionEvent)
    (h : ∀ ev ∈ evs, evNoCount ev = true) : countAccepted evs = 0 := by
  unfold countAccepted
  rw [List.length_eq_zero, List.filter_eq_nil]
  intro ev hev
  have h2 := h ev hev
  cases ev <;> simp_all [evNoCount]

theorem tallySum_eq_zero (evs : List SessionEvent)
    (h : ∀ ev ∈ evs, evNoCount ev = true) : tallySum evs = 0 := by
  unfold tallySum
  induction evs with
  | nil => rfl
  | cons ev rest ih =>
    rw [List.map_cons, List.sum_cons]
    have h2 := h ev (List.mem_cons_self ev rest)
    have hr := ih (fun e he => h e (List.mem_cons_of_mem ev he))
    rw [hr]
    cases ev <;> simp_all [evNoCount]

theorem evNoCount_of_tsc (ev : SessionEvent)
    (h : evIsTaskStateChanged ev = true) : evNoCount ev = true := by
  cases ev <;> simp_all [evIsTaskStateChanged, evNoCount]

/-! ### Preservation of the invariant by the task primitives -/

theorem taskInv_of_fields_eq {env : SessionEnv} {st st2 : SessionState2}
    (h : TaskInv env st)
    (h1 : st2.tasks = st.tasks)
    (h2 : st2.pending_task_ids = st.pending_task_ids)
    (h3 : st2.running_task_ids = st.running_task_ids)
    (h4 : st2.task_seq = st.task_seq) : TaskInv env st2 := by
  unfold TaskInv at h ⊢
  rw [h1, h2, h3, h4]
  exact h

/-- `queue_task` preserves the invariant, keeps terminal bindings (the
fresh id is above every stored key) and emits only a `TaskStateChanged`
for the fresh task; the queue and the turn flag are untouched. -/
theorem queue_task_spec (env : SessionEnv) (st : SessionState2)
    (tool args : String) (h : TaskInv env st) :
    TaskInv env (queue_task env st tool args).1 ∧
    TasksPreserved st (queue_task env st tool args).1
      (queue_task env st tool args).2.1 ∧
    (queue_task env st tool args).1.trigger_queue = st.trigger_queue ∧
    (queue_task env st tool args).1.turn_in_progress = st.turn_in_progress ∧
    (∀ ev ∈ (queue_task env st tool args).2.1, evIsTaskStateChanged ev = true) := by
  obtain ⟨hrn, hpn, hdisj, hcap, hkn, hrk, hpk, hcons, hle⟩ := h
  have hfresh_keys : (st.task_seq + 1) ∉ st.tasks.map Prod.fst := by
    intro hmem
    have := hle _ hmem
    omega
  have hfresh_find :
      ¬ (st.tasks.find? (fun kv => kv.1 = st.task_seq + 1)).isSome := by
    rw [find_isSome_iff_mem_keys]
    exact hfresh_keys
  have hfresh_run : (st.task_seq + 1) ∉ st.running_task_ids := by
    intro hmem
    exact hfresh_keys (hrk _ hmem)
  have hfresh_pend : (st.task_seq + 1) ∉ st.pending_task_ids := by
    intro hmem
    exact hfresh_keys (hpk _ hmem)
  have hkeys : ∀ v : Task, (taskPut st.tasks (st.task_seq + 1) v).map Prod.fst
      = st.tasks.map Prod.fst ++ [st.task_seq + 1] :=
    fun v => taskPut_keys_not_found st.tasks (st.task_seq + 1) v hfresh_find
  unfold queue_task
  dsimp only
  by_cases hr : st.running_task_ids.length < env.task_capacity
  · rw [if_pos hr, if_pos hr, if_pos hr]
    refine ⟨⟨?_, hpn, ?_, ?_, ?_, ?_, ?_, ?_, ?_⟩, ?_, rfl, rfl, ?_⟩
    · exact hsInsert_nodup _ _ hrn
    · intro id hid
      rcases (mem_hsInsert _ _ _).mp hid with hid | rfl
      · exact hdisj id hid
      · exact hfresh_pend
    · rw [hsInsert_length_of_not_mem _ _ hfresh_run]
      omega
    · rw [hkeys]
      rw [List.nodup_append]
      refine ⟨hkn, List.nodup_singleton _, ?_⟩
      intro a ha hb
      rw [List.mem_singleton] at hb
      subst hb
      exact hfresh_keys ha
    · intro id hid
      rw [hkeys, List.mem_append, List.mem_singleton]
      rcases (mem_hsInsert _ _ _).mp hid with hid | rfl
      · exact Or.inl (hrk id hid)
      · exact Or.inr rfl
    · intro id hid
      rw [hkeys, List.mem_append]
      exact Or.inl (hpk id hid)
    · exact taskPut_consistent _ _ _ rfl hcons
    · intro id hid
      rw [hkeys, List.mem_append, List.mem_singleton] at hid
      rcases hid with hid | rfl
      · have := hle id hid
        dsimp only
        omega
      · dsimp only
        omega
    · intro id t hget hterm
      have hid_keys : id ∈ st.tasks.map Prod.fst := by
        rw [← taskGet_isSome_iff]
        rw [hget]
        rfl
      have hid_ne : id ≠ st.task_seq + 1 := by
        intro hid_eq
        exact hfresh_keys (hid_eq ▸ hid_keys)
      refine ⟨?_, ?_⟩
      · rw [taskGet_put_other _ _ _ _ hid_ne]
        exact hget
      · intro ev hev
        rw [List.mem_singleton] at hev
        subst hev
        unfold evTaskStateChangedFor
        simp only [decide_eq_false_iff_not]
        intro hid_eq
        exact hid_ne (by simpa using hid_eq.symm)
    · intro ev hev
      rw [List.mem_singleton] at hev
      subst hev
      rfl
  · rw [if_neg hr, if_neg hr, if_neg hr]
    refine ⟨⟨hrn, ?_, ?_, hcap, ?_, ?_, ?_, ?_, ?_⟩, ?_, rfl, rfl, ?_⟩
    · rw [List.nodup_append]
      refine ⟨hpn, List.nodup_singleton _, ?_⟩
      intro a ha hb
      rw [List.mem_singleton] at hb
      subst hb
      exact hfresh_pend ha
    · intro id hid
      rw [List.mem_append, List.mem_singleton]
      push_neg
      refine ⟨hdisj id hid, ?_⟩
      intro hid_eq
      exact hfresh_run (hid_eq ▸ hid)
    · rw [hkeys]
      rw [List.nodup_append]
      refine ⟨hkn, List.nodup_singleton _, ?_⟩
      intro a ha hb
      rw [List.mem_singleton] at hb
      subst hb
      exact hfresh_keys ha
    · intro id hid
      rw [hkeys, List.mem_append]
      exact Or.inl (hrk id hid)
    · intro id hid
      rw [hkeys, List.mem_append, List.mem_singleton]
      rw [List.mem_append, List.mem_singleton] at hid
      rcases hid with hid | rfl
      · exact Or.inl (hpk id hid)
      · exact Or.inr rfl
    · exact taskPut_consistent _ _ _ rfl hcons
    · intro id hid
      rw [hkeys, List.mem_append, List.mem_singleton] at hid
      rcases hid with hid | rfl
      · have := hle id hid
        dsimp only
        omega
      · dsimp only
        omega
    · intro id t hget hterm
      have hid_keys : id ∈ st.tasks.map Prod.fst := by
        rw [← taskGet_isSome_iff]
        rw [hget]
        rfl
      have hid_ne : id ≠ st.task_seq + 1 := by
        intro hid_eq
        exact hfresh_keys (hid_eq ▸ hid_keys)
      refine ⟨?_, ?_⟩
      · rw [taskGet_put_other _ _ _ _ hid_ne]
        exact hget
      · intro ev hev
        rw [List.mem_singleton] at hev
        subst hev
        unfold evTaskStateChangedFor
        simp only [decide_eq_false_iff_not]
        intro hid_eq
        exact hid_ne (by simpa using hid_eq.symm)
    · intro ev hev
      rw [List.mem_singleton] at hev
      subst hev
      rfl

/-- Non-dependent unfolding of one step of `maybe_start_pending_tasks`. -/
theorem maybe_start_unfold (env : SessionEnv) (st : SessionState2) :
    maybe_start_pending_tasks env st =
    if st.running_task_ids.length < env.task_capacity then
      match st.pending_task_ids with
      | [] => (st, [])
      | task_id :: rest =>
        let st1 := { st with pending_task_ids := rest }
        match taskGet st1.tasks task_id with
        | none => maybe_start_pending_tasks env st1
        | some task =>
          if task.status ≠ TaskStatus.pending then
            maybe_start_pending_tasks env st1
          else
            let task1 := { task with
              status := TaskStatus.running
              updated_at_unix_ms := env.now }
            let st2 := { st1 with
              tasks := taskPut st1.tasks task_id task1,
              running_task_ids := hsInsert st1.running_task_ids task_id }
            let r := maybe_start_pending_tasks env st2
            (r.1, .taskStateChanged task1 :: r.2)
    else (st, []) := by
  rw [maybe_start_pending_tasks.eq_def]
  by_cases hcap : st.running_task_ids.length < env.task_capacity
  · rw [if_pos hcap, if_pos hcap]
    cases hq : st.pending_task_ids with
    | nil => rfl
    | cons task_id rest => rfl
  · rw [if_neg hcap, if_neg hcap]

/-- `maybe_start_pending_tasks` preserves the invariant, keeps terminal
bindings, emits only `TaskStateChanged` events and leaves the queue and
the turn flag alone. -/
theorem maybe_start_spec (env : SessionEnv) : ∀ (n : Nat) (st : SessionState2),
    st.pending_task_ids.length ≤ n → TaskInv env st →
    TaskInv env (maybe_start_pending_tasks env st).1 ∧
    TasksPreserved st (maybe_start_pending_tasks env st).1
      (maybe_start_pending_tasks env st).2 ∧
    (maybe_start_pending_tasks env st).1.trigger_queue = st.trigger_queue ∧
    (maybe_start_pending_tasks env st).1.turn_in_progress = st.turn_in_progress ∧
    (∀ ev ∈ (maybe_start_pending_tasks env st).2, evIsTaskStateChanged ev = true) := by
  intro n
  induction n with
  | zero =>
    intro st hlen hinv
    have hq : st.pending_task_ids = [] :=
      List.eq_nil_of_length_eq_zero (Nat.le_zero.mp hlen)
    rw [maybe_start_unfold, hq]
    by_cases hcap : st.running_task_ids.length < env.task_capacity
    · rw [if_pos hcap]
      exact ⟨hinv, tasksPreserved_refl st, rfl, rfl, by intro ev hev; simp at hev⟩
    · rw [if_neg hcap]
      exact ⟨hinv, tasksPreserved_refl st, rfl, rfl, by intro ev hev; simp at hev⟩
  | succ n ih =>
    intro st hlen hinv
    rw [maybe_start_unfold]
    by_cases hcap : st.running_task_ids.length < env.task_capacity
    · rw [if_pos hcap]
      cases hq : st.pending_task_ids with
      | nil =>
        exact ⟨hinv, tasksPreserved_refl st, rfl, rfl, by intro ev hev; simp at hev⟩
      | cons task_id rest =>
        dsimp only
        obtain ⟨hrn, hpn, hdisj, hcapb, hkn, hrk, hpk, hcons, hle⟩ := hinv
        rw [hq] at hpn hdisj hpk
        have hlen2 : rest.length ≤ n := by
          rw [hq] at hlen
          simpa using hlen
        have hdisj1 : ∀ id ∈ st.running_task_ids, id ∉ rest := by
          intro id hid hmem
          exact hdisj id hid (List.mem_cons_of_mem _ hmem)
        have hpk1 : ∀ id ∈ rest, id ∈ st.tasks.map Prod.fst := by
          intro id hid
          exact hpk id (List.mem_cons_of_mem _ hid)
        have hinv1 : TaskInv env { st with pending_task_ids := rest } :=
          ⟨hrn, hpn.of_cons, hdisj1, hcapb, hkn, hrk, hpk1, hcons, hle⟩
        cases hlook : taskGet st.tasks task_id with
        | none =>
          dsimp only
          obtain ⟨i1, i2, i3, i4, i5⟩ := ih { st with pending_task_ids := rest } hlen2 hinv1
          exact ⟨i1, i2, i3, i4, i5⟩
        | some task =>
          dsimp only
          by_cases hstat : task.status ≠ TaskStatus.pending
          · rw [if_pos hstat]
            obtain ⟨i1, i2, i3, i4, i5⟩ := ih { st with pending_task_ids := rest } hlen2 hinv1
            exact ⟨i1, i2, i3, i4, i5⟩
          · rw [if_neg hstat]
            dsimp only
            push_neg at hstat
            have htid_key : task.task_id = task_id := hcons _ (taskGet_mem hlook)
            have htid_mem : task_id ∈ st.tasks.map Prod.fst :=
              hpk task_id (List.mem_cons_self _ _)
            have htid_find : (st.tasks.find? (fun kv => kv.1 = task_id)).isSome :=
              (find_isSome_iff_mem_keys _ _).mpr htid_mem
            have htid_not_run : task_id ∉ st.running_task_ids := by
              intro hmem
              exact hdisj task_id hmem (List.mem_cons_self _ _)
            have htid_not_rest : task_id ∉ rest := by
              have := hpn
              rw [List.nodup_cons] at this
              exact this.1
            have hkeys2 : (taskPut st.tasks task_id
                { task with
                  status := TaskStatus.running
                  updated_at_unix_ms := env.now }).map Prod.fst
                = st.tasks.map Prod.fst :=
              taskPut_keys_found _ _ _ htid_find
            have hinv2 : TaskInv env { st with
                pending_task_ids := rest
                tasks := taskPut st.tasks task_id
                  { task with
                    status := TaskStatus.running
                    updated_at_unix_ms := env.now }
                running_task_ids := hsInsert st.running_task_ids task_id } := by
              refine ⟨hsInsert_nodup _ _ hrn, hpn.of_cons, ?_, ?_, ?_, ?_, ?_, ?_, ?_⟩
              · intro id hid
                rcases (mem_hsInsert _ _ _).mp hid with hid | rfl
                · exact hdisj1 id hid
                · exact htid_not_rest
              · dsimp only
                rw [hsInsert_length_of_not_mem _ _ htid_not_run]
                omega
              · dsimp only
                rw [hkeys2]
                exact hkn
              · intro id hid
                dsimp only at hid ⊢
                rw [hkeys2]
                rcases (mem_hsInsert _ _ _).mp hid with hid | rfl
                · exact hrk id hid
                · exact htid_mem
              · intro id hid
                dsimp only at hid ⊢
                rw [hkeys2]
                exact hpk1 id hid
              · dsimp only
                refine taskPut_consistent _ _ _ ?_ hcons
                exact htid_key
              · intro id hid
                dsimp only at hid ⊢
                rw [hkeys2] at hid
                exact hle id hid
            obtain ⟨i1, i2, i3, i4, i5⟩ := ih _ hlen2 hinv2
            refine ⟨i1, ?_, i3, i4, ?_⟩
            · intro id t hget hterm
              have hid_ne : id ≠ task_id := by
                intro hid_eq
                rw [hid_eq, hlook] at hget
                injection hget with hget2
                rw [← hget2] at hterm
                rw [hstat] at hterm
                simp [TaskStatus.isTerminal] at hterm
              have hget2 : taskGet (taskPut st.tasks task_id
                  { task with
                    status := TaskStatus.running
                    updated_at_unix_ms := env.now }) id = some t := by
                rw [taskGet_put_other _ _ _ _ hid_ne]
                exact hget
              obtain ⟨hb, he⟩ := i2 id t hget2 hterm
              refine ⟨hb, ?_⟩
              intro ev hev
              rcases List.mem_cons.mp hev with rfl | hev
              · unfold evTaskStateChangedFor
                simp only [decide_eq_false_iff_not]
                intro heq
                apply hid_ne
                rw [← heq]
                exact htid_key
              · exact he ev hev
            · intro ev hev
              rcases List.mem_cons.mp hev with rfl | hev
              · rfl
              · exact i5 ev hev
    · rw [if_neg hcap]
      exact ⟨hinv, tasksPreserved_refl st, rfl, rfl, by intro ev hev; simp at hev⟩

/-- Replacing a non-terminal task by an updated record carrying the same
id and then promoting pendings preserves the invariant and terminal
bindings (the common tail of `cancel_task`). -/
theorem settle_then_start_spec (env : SessionEnv) (st0 st1 : SessionState2)
    (task_id : Nat) (task task1 : Task)
    (hinv1 : TaskInv env st1)
    (h1tasks : st1.tasks = st0.tasks)
    (h1q : st1.trigger_queue = st0.trigger_queue)
    (h1tip : st1.turn_in_progress = st0.turn_in_progress)
    (hlook : taskGet st0.tasks task_id = some task)
    (hnonterm : task.status.isTerminal = false)
    (htid1 : task1.task_id = task_id) :
    TaskInv env (maybe_start_pending_tasks env
      { st1 with tasks := taskPut st1.tasks task_id task1 }).1 ∧
    TasksPreserved st0 (maybe_start_pending_tasks env
      { st1 with tasks := taskPut st1.tasks task_id task1 }).1
      (SessionEvent.taskStateChanged task1 :: (maybe_start_pending_tasks env
        { st1 with tasks := taskPut st1.tasks task_id task1 }).2) ∧
    (maybe_start_pending_tasks env
      { st1 with tasks := taskPut st1.tasks task_id task1 }).1.trigger_queue
      = st0.trigger_queue ∧
    (maybe_start_pending_tasks env
      { st1 with tasks := taskPut st1.tasks task_id task1 }).1.turn_in_progress
      = st0.turn_in_progress ∧
    (∀ ev ∈ SessionEvent.taskStateChanged task1 :: (maybe_start_pending_tasks env
        { st1 with tasks := taskPut st1.tasks task_id task1 }).2,
      evIsTaskStateChanged ev = true) := by
  obtain ⟨hrn, hpn, hdisj, hcapb, hkn, hrk, hpk, hcons, hle⟩ := hinv1
  have htid_find : (st1.tasks.find? (fun kv => kv.1 = task_id)).isSome := by
    rw [h1tasks, find_isSome_iff_mem_keys, ← taskGet_isSome_iff, hlook]
    rfl
  have hkeys : (taskPut st1.tasks task_id task1).map Prod.fst
      = st1.tasks.map Prod.fst := taskPut_keys_found _ _ _ htid_find
  have hinv2 : TaskInv env { st1 with tasks := taskPut st1.tasks task_id task1 } := by
    refine ⟨hrn, hpn, hdisj, hcapb, ?_, ?_, ?_, ?_, ?_⟩
    · dsimp only
      rw [hkeys]
      exact hkn
    · intro id hid
      dsimp only
      rw [hkeys]
      exact hrk id hid
    · intro id hid
      dsimp only
      rw [hkeys]
      exact hpk id hid
    · exact taskPut_consistent _ _ _ htid1 hcons
    · intro id hid
      dsimp only at hid ⊢
      rw [hkeys] at hid
      exact hle id hid
  obtain ⟨i1, i2, i3, i4, i5⟩ := maybe_start_spec env
    ({ st1 with tasks := taskPut st1.tasks task_id task1 }).pending_task_ids.length
    { st1 with tasks := taskPut st1.tasks task_id task1 } le_rfl hinv2
  refine ⟨i1, ?_, by rw [i3]; exact h1q, by rw [i4]; exact h1tip, ?_⟩
  · intro id t hget hterm
    have hid_ne : id ≠ task_id := by
      intro hid_eq
      rw [hid_eq, hlook] at hget
      injection hget with hget2
      rw [← hget2, hnonterm] at hterm
      exact Bool.false_ne_true hterm
    have hget2 : taskGet (taskPut st1.tasks task_id task1) id = some t := by
      rw [taskGet_put_other _ _ _ _ hid_ne, h1tasks]
      exact hget
    obtain ⟨hb, he⟩ := i2 id t hget2 hterm
    refine ⟨hb, ?_⟩
    intro ev hev
    rcases List.mem_cons.mp hev with rfl | hev
    · unfold evTaskStateChangedFor
      simp only [decide_eq_false_iff_not]
      intro heq
      apply hid_ne
      rw [← heq, htid1]
    · exact he ev hev
  · intro ev hev
    rcases List.mem_cons.mp hev with rfl | hev
    · rfl
    · exact i5 ev hev

/-- `cancel_task` preserves the invariant, keeps terminal bindings (a
terminal task is returned unchanged with no event), emits only
`TaskStateChanged` events and leaves the queue and turn flag alone. -/
theorem cancel_task_spec (env : SessionEnv) (st : SessionState2) (task_id : Nat)
    (h : TaskInv env st) :
    TaskInv env (cancel_task env st task_id).1 ∧
    TasksPreserved st (cancel_task env st task_id).1
      (cancel_task env st task_id).2.1 ∧
    (cancel_task env st task_id).1.trigger_queue = st.trigger_queue ∧
    (cancel_task env st task_id).1.turn_in_progress = st.turn_in_progress ∧
    (∀ ev ∈ (cancel_task env st task_id).2.1, evIsTaskStateChanged ev = true) := by
  unfold cancel_task
  cases hlook : taskGet st.tasks task_id with
  | none =>
    exact ⟨h, tasksPreserved_refl st, rfl, rfl, by intro ev hev; simp at hev⟩
  | some task =>
    dsimp only
    by_cases hterm : task.status.isTerminal = true
    · rw [if_pos hterm]
      exact ⟨h, tasksPreserved_refl st, rfl, rfl, by intro ev hev; simp at hev⟩
    · rw [if_neg hterm]
      dsimp only
      have hnonterm : task.status.isTerminal = false := by
        rwa [Bool.not_eq_true] at hterm
      have htid : task.task_id = task_id :=
        h.2.2.2.2.2.2.2.1 _ (taskGet_mem hlook)
      by_cases hp : task.status = TaskStatus.pending
      · rw [if_pos hp]
        have hinv1 : TaskInv env
            { st with pending_task_ids := idRemove st.pending_task_ids task_id } := by
          obtain ⟨hrn, hpn, hdisj, hcapb, hkn, hrk, hpk, hcons, hle⟩ := h
          refine ⟨hrn, idRemove_nodup _ _ hpn, ?_, hcapb, hkn, hrk, ?_, hcons, hle⟩
          · intro id hid hmem
            exact hdisj id hid ((mem_idRemove _ _ _).mp hmem).1
          · intro id hid
            exact hpk id ((mem_idRemove _ _ _).mp hid).1
        exact settle_then_start_spec env st _ task_id task _ hinv1 rfl rfl rfl
          hlook hnonterm htid
      · rw [if_neg hp]
        by_cases hr2 : task.status = TaskStatus.running
        · rw [if_pos hr2]
          have hinv1 : TaskInv env
              { st with running_task_ids := idRemove st.running_task_ids task_id } := by
            obtain ⟨hrn, hpn, hdisj, hcapb, hkn, hrk, hpk, hcons, hle⟩ := h
            refine ⟨idRemove_nodup _ _ hrn, hpn, ?_,
              le_trans (idRemove_length_le _ _) hcapb, hkn, ?_, hpk, hcons, hle⟩
            · intro id hid
              exact hdisj id ((mem_idRemove _ _ _).mp hid).1
            · intro id hid
              exact hrk id ((mem_idRemove _ _ _).mp hid).1
          exact settle_then_start_spec env st _ task_id task _ hinv1 rfl rfl rfl
            hlook hnonterm htid
        · rw [if_neg hr2]
          exact settle_then_start_spec env st st task_id task _ h rfl rfl rfl
            hlook hnonterm htid

/-- A `TaskFinished` for a missing or already-terminal task is ignored:
state unchanged, no events (claim C4's ignore clause, at the level of
`handle_finished_task`). -/
theorem handle_finished_ignored (env : SessionEnv) (st : SessionState2)
    (task_id : Nat) (succeeded : Bool) (message : String)
    (h : taskGet st.tasks task_id = none ∨
      ∃ t, taskGet st.tasks task_id = some t ∧ t.status.isTerminal = true) :
    handle_finished_task env st task_id succeeded message = (st, []) := by
  unfold handle_finished_task
  rcases h with hnone | ⟨t, hget, hterm⟩
  · rw [hnone]
  · rw [hget]
    dsimp only
    cases hs : t.status with
    | unspecified => rw [hs] at hterm; simp [TaskStatus.isTerminal] at hterm
    | pending => rw [hs] at hterm; simp [TaskStatus.isTerminal] at hterm
    | running => rw [hs] at hterm; simp [TaskStatus.isTerminal] at hterm
    | succeeded =>
      rw [if_neg (by decide), if_pos (by exact ⟨by decide, by decide⟩)]
    | failed =>
      rw [if_neg (by decide), if_pos (by exact ⟨by decide, by decide⟩)]
    | canceled =>
      rw [if_pos rfl]

/-- `handle_finished_task` preserves the invariant and terminal bindings,
keeps the turn flag, and appends to the queue exactly as many triggers as
the `TriggerAccepted` events it emits, tallying nothing. -/
theorem handle_finished_task_spec (env : SessionEnv) (st : SessionState2)
    (task_id : Nat) (succeeded : Bool) (message : String)
    (h : TaskInv env st) :
    TaskInv env (handle_finished_task env st task_id succeeded message).1 ∧
    TasksPreserved st (handle_finished_task env st task_id succeeded message).1
      (handle_finished_task env st task_id succeeded message).2 ∧
    (handle_finished_task env st task_id succeeded message).1.turn_in_progress
      = st.turn_in_progress ∧
    ∃ added : List Trigger,
      (handle_finished_task env st task_id succeeded message).1.trigger_queue
        = st.trigger_queue ++ added ∧
      countAccepted (handle_finished_task env st task_id succeeded message).2
        = added.length ∧
      tallySum (handle_finished_task env st task_id succeeded message).2 = 0 := by
  unfold handle_finished_task
  cases hlook : taskGet st.tasks task_id with
  | none =>
    exact ⟨h, tasksPreserved_refl st, rfl,
      ⟨[], by rw [List.append_nil], rfl, rfl⟩⟩
  | some task =>
    dsimp only
    by_cases hc : task.status = TaskStatus.canceled
    · rw [if_pos hc]
      exact ⟨h, tasksPreserved_refl st, rfl,
        ⟨[], by rw [List.append_nil], rfl, rfl⟩⟩
    · rw [if_neg hc]
      by_cases hg : task.status ≠ TaskStatus.running ∧ task.status ≠ TaskStatus.pending
      · rw [if_pos hg]
        exact ⟨h, tasksPreserved_refl st, rfl,
          ⟨[], by rw [List.append_nil], rfl, rfl⟩⟩
      · rw [if_neg hg]
        dsimp only
        have hnonterm : task.status.isTerminal = false := by
          cases hs : task.status <;> rw [hs] at hc hg <;> simp_all [TaskStatus.isTerminal]
        have htid : task.task_id = task_id :=
          h.2.2.2.2.2.2.2.1 _ (taskGet_mem hlook)
        obtain ⟨hrn, hpn, hdisj, hcapb, hkn, hrk, hpk, hcons, hle⟩ := h
        have hinv1 : TaskInv env
            { st with running_task_ids := idRemove st.running_task_ids task_id } := by
          refine ⟨idRemove_nodup _ _ hrn, hpn, ?_,
            le_trans (idRemove_length_le _ _) hcapb, hkn, ?_, hpk, hcons, hle⟩
          · intro id hid
            exact hdisj id ((mem_idRemove _ _ _).mp hid).1
          · intro id hid
            exact hrk id ((mem_idRemove _ _ _).mp hid).1
        obtain ⟨hrn1, hpn1, hdisj1, hcapb1, hkn1, hrk1, hpk1, hcons1, hle1⟩ := hinv1
        have hkeys : ∀ v : Task, (taskPut st.tasks task_id v).map Prod.fst
            = st.tasks.map Prod.fst :=
          fun v => taskPut_keys_found _ _ _ (by
            rw [find_isSome_iff_mem_keys, ← taskGet_isSome_iff, hlook]; rfl)
        have hinv2 : ∀ (v : Task) (q : List Trigger) (sq : Nat),
            v.task_id = task_id → TaskInv env
            { st with
              running_task_ids := idRemove st.running_task_ids task_id
              tasks := taskPut st.tasks task_id v
              trigger_seq := sq
              trigger_queue := q } := by
          intro v q sq hv
          refine ⟨hrn1, hpn1, hdisj1, hcapb1, ?_, ?_, ?_, ?_, ?_⟩
          · dsimp only
            rw [hkeys]
            exact hkn
          · intro id hid
            dsimp only at hid ⊢
            rw [hkeys]
            exact hrk1 id hid
          · intro id hid
            dsimp only at hid ⊢
            rw [hkeys]
            exact hpk id hid
          · exact taskPut_consistent _ _ _ hv hcons
          · intro id hid
            dsimp only at hid ⊢
            rw [hkeys] at hid
            exact hle id hid
        unfold enqueue_trigger
        dsimp only
        obtain ⟨i1, i2, i3, i4, i5⟩ := maybe_start_spec env
          st.pending_task_ids.length
          { st with
            running_task_ids := idRemove st.running_task_ids task_id
            tasks := taskPut st.tasks task_id
              { task with
                status := if succeeded then TaskStatus.succeeded else TaskStatus.failed
                result_message := message
                updated_at_unix_ms := env.now }
            trigger_seq := st.trigger_seq + 1
            trigger_queue := st.trigger_queue ++
              [{ trigger_id := st.trigger_seq + 1
                 created_at_unix_ms := env.now
                 kind := TriggerKind.taskDone task.task_id
                   (if succeeded then TaskStatus.succeeded else TaskStatus.failed)
                   message }] }
          le_rfl (hinv2 _ _ _ htid)
        have hm2c : ∀ ev ∈ (maybe_start_pending_tasks env
            { st with
              running_task_ids := idRemove st.running_task_ids task_id
              tasks := taskPut st.tasks task_id
                { task with
                  status := if succeeded then TaskStatus.succeeded else TaskStatus.failed
                  result_message := message
                  updated_at_unix_ms := env.now }
              trigger_seq := st.trigger_seq + 1
              trigger_queue := st.trigger_queue ++
                [{ trigger_id := st.trigger_seq + 1
                   created_at_unix_ms := env.now
                   kind := TriggerKind.taskDone task.task_id
                     (if succeeded then TaskStatus.succeeded else TaskStatus.failed)
                     message }] }).2, evNoCount ev = true :=
          fun ev hev => evNoCount_of_tsc ev (i5 ev hev)
        refine ⟨i1, ?_, i4, ?_⟩
        · intro id t hget hterm
          have hid_ne : id ≠ task_id := by
            intro hid_eq
            rw [hid_eq, hlook] at hget
            injection hget with hget2
            rw [← hget2, hnonterm] at hterm
            exact Bool.false_ne_true hterm
          have hget2 : taskGet (taskPut st.tasks task_id
              { task with
                status := if succeeded then TaskStatus.succeeded else TaskStatus.failed
                result_message := message
                updated_at_unix_ms := env.now }) id = some t := by
            rw [taskGet_put_other _ _ _ _ hid_ne]
            exact hget
          obtain ⟨hb, he⟩ := i2 id t hget2 hterm
          refine ⟨hb, ?_⟩
          intro ev hev
          rcases List.mem_append.mp hev with h12 | h3
          · rcases List.mem_append.mp h12 with h1 | h2
            · rw [List.mem_singleton] at h1
              subst h1
              unfold evTaskStateChangedFor
              simp only [decide_eq_false_iff_not]
              intro heq
              apply hid_ne
              rw [← heq]
              exact htid
            · rw [List.mem_singleton] at h2
              subst h2
              rfl
          · exact he ev h3
        · refine ⟨[{ trigger_id := st.trigger_seq + 1
                     created_at_unix_ms := env.now
                     kind := TriggerKind.taskDone task.task_id
                       (if succeeded then TaskStatus.succeeded else TaskStatus.failed)
                       message }], ?_, ?_, ?_⟩
          · rw [i3]
          · rw [countAccepted_append, countAccepted_append,
              countAccepted_eq_zero _ hm2c]
            rfl
          · rw [tallySum_append, tallySum_append,
              tallySum_eq_zero _ hm2c]
            rfl

/-- The tool-dispatch fold of `run_agent_turn` preserves the invariant and
terminal bindings; its new events are all `TaskStateChanged` for fresh
ids, and the queue and turn flag are untouched. -/
theorem queue_task_fold_spec (env : SessionEnv) :
    ∀ (tools : List (String × String × Option String)) (st : SessionState2)
      (evs0 : List SessionEvent) (outs0 : List String), TaskInv env st →
    TaskInv env (tools.foldl (queue_task_step env) (st, evs0, outs0)).1 ∧
    (∀ id t, taskGet st.tasks id = some t → t.status.isTerminal = true →
      taskGet (tools.foldl (queue_task_step env) (st, evs0, outs0)).1.tasks id
        = some t ∧
      ∀ ev ∈ (tools.foldl (queue_task_step env) (st, evs0, outs0)).2.1,
        ev ∈ evs0 ∨ evTaskStateChangedFor id ev = false) ∧
    (tools.foldl (queue_task_step env) (st, evs0, outs0)).1.trigger_queue
      = st.trigger_queue ∧
    (tools.foldl (queue_task_step env) (st, evs0, outs0)).1.turn_in_progress
      = st.turn_in_progress ∧
    (∀ ev ∈ (tools.foldl (queue_task_step env) (st, evs0, outs0)).2.1,
      ev ∈ evs0 ∨ evNoCount ev = true) := by
  intro tools
  induction tools with
  | nil =>
    intro st evs0 outs0 h
    exact ⟨h, fun id t hget _ => ⟨hget, fun ev hev => Or.inl hev⟩, rfl, rfl,
      fun ev hev => Or.inl hev⟩
  | cons tool rest ih =>
    intro st evs0 outs0 h
    rw [List.foldl_cons]
    simp only [queue_task_step]
    obtain ⟨q1, q2, q3, q4, q5⟩ := queue_task_spec env st tool.1 tool.2.1 h
    obtain ⟨i1, i2, i3, i4, i5⟩ := ih (queue_task env st tool.1 tool.2.1).1
      (evs0 ++ (queue_task env st tool.1 tool.2.1).2.1) _ q1
    refine ⟨i1, ?_, i3.trans q3, i4.trans q4, ?_⟩
    · intro id t hget hterm
      obtain ⟨hb1, he1⟩ := q2 id t hget hterm
      obtain ⟨hb2, he2⟩ := i2 id t hb1 hterm
      refine ⟨hb2, ?_⟩
      intro ev hev
      rcases he2 ev hev with hin | hfalse
      · rcases List.mem_append.mp hin with hin | hin
        · exact Or.inl hin
        · exact Or.inr (he1 ev hin)
      · exact Or.inr hfalse
    · intro ev hev
      rcases i5 ev hev with hin | hnc
      · rcases List.mem_append.mp hin with hin | hin
        · exact Or.inl hin
        · exact Or.inr (evNoCount_of_tsc ev (q5 ev hin))
      · exact Or.inr hnc

/-- `apply_profile_refresh` only changes the agent spec version. -/
theorem apply_profile_refresh_fields (env : SessionEnv) (st : SessionState2)
    (scope : RefreshScope) (user_id : String) :
    (apply_profile_refresh env st scope user_id).1.tasks = st.tasks ∧
    (apply_profile_refresh env st scope user_id).1.pending_task_ids
      = st.pending_task_ids ∧
    (apply_profile_refresh env st scope user_id).1.running_task_ids
      = st.running_task_ids ∧
    (apply_profile_refresh env st scope user_id).1.task_seq = st.task_seq ∧
    (apply_profile_refresh env st scope user_id).1.trigger_queue
      = st.trigger_queue ∧
    (apply_profile_refresh env st scope user_id).1.turn_in_progress
      = st.turn_in_progress := by
  unfold apply_profile_refresh
  dsimp only
  repeat' split
  all_goals exact ⟨rfl, rfl, rfl, rfl, rfl, rfl⟩

/-- The refresh-partition loop of `process_turns` leaves every task field,
the queue and the turn flag alone; its new events are `ProfileRefreshed`
(counted by nothing). -/
theorem partition_triggers_spec (env : SessionEnv) :
    ∀ (ts : List Trigger) (st : SessionState2) (evs0 : List SessionEvent)
      (outs0 : List String) (ags0 : List Trigger),
    (partition_triggers env ts st evs0 outs0 ags0).1.tasks = st.tasks ∧
    (partition_triggers env ts st evs0 outs0 ags0).1.pending_task_ids
      = st.pending_task_ids ∧
    (partition_triggers env ts st evs0 outs0 ags0).1.running_task_ids
      = st.running_task_ids ∧
    (partition_triggers env ts st evs0 outs0 ags0).1.task_seq = st.task_seq ∧
    (partition_triggers env ts st evs0 outs0 ags0).1.trigger_queue
      = st.trigger_queue ∧
    (partition_triggers env ts st evs0 outs0 ags0).1.turn_in_progress
      = st.turn_in_progress ∧
    (∀ ev ∈ (partition_triggers env ts st evs0 outs0 ags0).2.1,
      ev ∈ evs0 ∨ (evNoCount ev = true ∧
        ∀ id, evTaskStateChangedFor id ev = false)) := by
  intro ts
  induction ts with
  | nil =>
    intro st evs0 outs0 ags0
    exact ⟨rfl, rfl, rfl, rfl, rfl, rfl, fun ev hev => Or.inl hev⟩
  | cons t rest ih =>
    intro st evs0 outs0 ags0
    simp only [partition_triggers]
    cases hk : t.kind with
    | refreshProfile scope uid =>
      dsimp only
      obtain ⟨f1, f2, f3, f4, f5, f6⟩ := apply_profile_refresh_fields env st scope uid
      obtain ⟨i1, i2, i3, i4, i5, i6, i7⟩ := ih (apply_profile_refresh env st scope uid).1
        (evs0 ++ [.profileRefreshed scope (apply_profile_refresh env st scope uid).2
          (apply_profile_refresh env st scope uid).1.agent_spec_version]) _ _
      refine ⟨i1.trans f1, i2.trans f2, i3.trans f3, i4.trans f4,
        i5.trans f5, i6.trans f6, ?_⟩
      intro ev hev
      rcases i7 ev hev with hin | hok
      · rcases List.mem_append.mp hin with hin | hin
        · exact Or.inl hin
        · rw [List.mem_singleton] at hin
          subst hin
          exact Or.inr ⟨rfl, fun id => rfl⟩
      · exact Or.inr hok
    | userMessage uid text => exact ih st evs0 outs0 (ags0 ++ [t])
    | taskDone tid stt msg => exact ih st evs0 outs0 (ags0 ++ [t])
    | heartbeat => exact ih st evs0 outs0 (ags0 ++ [t])
    | cron key => exact ih st evs0 outs0 (ags0 ++ [t])
    | missing => exact ih st evs0 outs0 (ags0 ++ [t])

theorem countAccepted_cons_not_accepted (ev : SessionEvent)
    (evs : List SessionEvent)
    (h : (match ev with
      | SessionEvent.triggerAccepted _ _ => true
      | _ => false) = false) :
    countAccepted (ev :: evs) = countAccepted evs := by
  unfold countAccepted
  rw [List.filter_cons_of_neg]
  simp [h]

theorem tallySum_cons (ev : SessionEvent) (evs : List SessionEvent) :
    tallySum (ev :: evs) = (match ev with
      | SessionEvent.turnStarted _ n => n
      | _ => 0) + tallySum evs := by
  unfold tallySum
  rw [List.map_cons, List.sum_cons]

theorem flush_history_fields (env : SessionEnv) (s : SessionState2)
    (tt : List Trigger) (ao : List String) :
    (flush_history env s tt ao).tasks = s.tasks ∧
    (flush_history env s tt ao).pending_task_ids = s.pending_task_ids ∧
    (flush_history env s tt ao).running_task_ids = s.running_task_ids ∧
    (flush_history env s tt ao).task_seq = s.task_seq ∧
    (flush_history env s tt ao).trigger_queue = s.trigger_queue ∧
    (flush_history env s tt ao).turn_in_progress = s.turn_in_progress := by
  unfold flush_history
  exact ⟨rfl, rfl, rfl, rfl, rfl, rfl⟩

/-- `run_agent_turn` preserves the invariant and terminal bindings, leaves
the queue and the turn flag alone, and none of its events is counted or
tallied. -/
theorem run_agent_turn_spec (env : SessionEnv) (st : SessionState2)
    (turn_id : Nat) (outs0 : List String) (h : TaskInv env st) :
    TaskInv env (run_agent_turn env st turn_id outs0).1 ∧
    TasksPreserved st (run_agent_turn env st turn_id outs0).1
      (run_agent_turn env st turn_id outs0).2.1 ∧
    (run_agent_turn env st turn_id outs0).1.trigger_queue = st.trigger_queue ∧
    (run_agent_turn env st turn_id outs0).1.turn_in_progress
      = st.turn_in_progress ∧
    (∀ ev ∈ (run_agent_turn env st turn_id outs0).2.1, evNoCount ev = true) := by
  unfold run_agent_turn
  dsimp only
  obtain ⟨f1, f2, f3, f4, f5⟩ := queue_task_fold_spec env
    (env.agentOutcome turn_id).tools st
    ((env.agentOutcome turn_id).streamNotes.map
      (fun n => SessionEvent.agentStream n.1 n.2)) outs0 h
  have hnotes : ∀ ev ∈ (env.agentOutcome turn_id).streamNotes.map
      (fun n => SessionEvent.agentStream n.1 n.2),
      evNoCount ev = true ∧ ∀ id, evTaskStateChangedFor id ev = false := by
    intro ev hev
    rcases List.mem_map.mp hev with ⟨n, _, rfl⟩
    exact ⟨rfl, fun id => rfl⟩
  by_cases hfail : (env.agentOutcome turn_id).failed = true
  · rw [if_pos hfail]
    refine ⟨f1, ?_, f3, f4, ?_⟩
    · intro id t hget hterm
      obtain ⟨hb, he⟩ := f2 id t hget hterm
      refine ⟨hb, ?_⟩
      intro ev hev
      rcases List.mem_append.mp hev with hin | hin
      · rcases he ev hin with hin2 | hf
        · exact (hnotes ev hin2).2 id
        · exact hf
      · rw [List.mem_singleton] at hin
        subst hin
        rfl
    · intro ev hev
      rcases List.mem_append.mp hev with hin | hin
      · rcases f5 ev hin with hin2 | hc
        · exact (hnotes ev hin2).1
        · exact hc
      · rw [List.mem_singleton] at hin
        subst hin
        rfl
  · rw [if_neg hfail]
    refine ⟨f1, ?_, f3, f4, ?_⟩
    · intro id t hget hterm
      obtain ⟨hb, he⟩ := f2 id t hget hterm
      refine ⟨hb, ?_⟩
      intro ev hev
      rcases he ev hev with hin2 | hf
      · exact (hnotes ev hin2).2 id
      · exact hf
    · intro ev hev
      rcases f5 ev hev with hin2 | hc
      · exact (hnotes ev hin2).1
      · exact hc

/-- One turn of the loop: the invariant and terminal bindings are
preserved, the queue is fully drained, the turn flag is unchanged, no
`TriggerAccepted` is emitted, and the single `TurnStarted` tallies
exactly the entry queue length. -/
theorem run_one_turn_spec (env : SessionEnv) (st : SessionState2)
    (h : TaskInv env st) :
    TaskInv env (run_one_turn env st).1 ∧
    TasksPreserved st (run_one_turn env st).1 (run_one_turn env st).2 ∧
    (run_one_turn env st).1.trigger_queue = [] ∧
    (run_one_turn env st).1.turn_in_progress = st.turn_in_progress ∧
    countAccepted (run_one_turn env st).2 = 0 ∧
    tallySum (run_one_turn env st).2 = st.trigger_queue.length := by
  unfold run_one_turn
  dsimp only
  set st1 : SessionState2 :=
    { st with turn_seq := st.turn_seq + 1, trigger_queue := [] } with hst1
  have hinv1 : TaskInv env st1 := taskInv_of_fields_eq h rfl rfl rfl rfl
  set p := partition_triggers env st.trigger_queue st1 [] [] [] with hp
  obtain ⟨p1, p2, p3, p4, p5, p6, p7⟩ :=
    partition_triggers_spec env st.trigger_queue st1 [] [] []
  have hinvp : TaskInv env p.1 := taskInv_of_fields_eq hinv1 p1 p2 p3 p4
  by_cases hag : p.2.2.2 ≠ []
  · rw [if_pos hag]
    set a := run_agent_turn env p.1 (st.turn_seq + 1) p.2.2.1 with ha
    obtain ⟨a1, a2, a3, a4, a5⟩ :=
      run_agent_turn_spec env p.1 (st.turn_seq + 1) p.2.2.1 hinvp
    set st3 := flush_history env a.1 st.trigger_queue a.2.2 with hst3
    obtain ⟨ff1, ff2, ff3, ff4, ff5, ff6⟩ :=
      flush_history_fields env a.1 st.trigger_queue a.2.2
    have hnc : ∀ ev ∈ (p.2.1 ++ a.2.1) ++
        (a.2.2.map SessionEvent.assistantOutput) ++
        [SessionEvent.turnEnded (st.turn_seq + 1)
          ("processed " ++ toString st.trigger_queue.length ++ " trigger(s)")
          st3.history.length], evNoCount ev = true := by
      intro ev hev
      rcases List.mem_append.mp hev with h12 | hend
      · rcases List.mem_append.mp h12 with hpa | hout
        · rcases List.mem_append.mp hpa with hp7 | ha21
          · rcases p7 ev hp7 with hin | hok
            · simp at hin
            · exact hok.1
          · exact a5 ev ha21
        · rcases List.mem_map.mp hout with ⟨o, _, rfl⟩
          rfl
      · rw [List.mem_singleton] at hend
        subst hend
        rfl
    refine ⟨taskInv_of_fields_eq a1 ff1 ff2 ff3 ff4, ?_,
      by rw [ff5, a3, p5], by rw [ff6, a4, p6], ?_, ?_⟩
    · intro id t hget hterm
      have hgetp : taskGet p.1.tasks id = some t := by
        rw [p1]
        exact hget
      obtain ⟨hb, he⟩ := a2 id t hgetp hterm
      refine ⟨by rw [ff1]; exact hb, ?_⟩
      intro ev hev
      rcases List.mem_cons.mp hev with rfl | hev
      · rfl
      · rcases List.mem_append.mp hev with h12 | hend
        · rcases List.mem_append.mp h12 with hpa | hout
          · rcases List.mem_append.mp hpa with hp7 | ha21
            · rcases p7 ev hp7 with hin | hok
              · simp at hin
              · exact hok.2 id
            · exact he ev ha21
          · rcases List.mem_map.mp hout with ⟨o, _, rfl⟩
            rfl
        · rw [List.mem_singleton] at hend
          subst hend
          rfl
    · rw [countAccepted_cons_not_accepted _ _ rfl, countAccepted_eq_zero _ hnc]
    · rw [tallySum_cons, tallySum_eq_zero _ hnc]
      rfl
  · rw [if_neg hag]
    dsimp only
    set st3 := flush_history env p.1 st.trigger_queue p.2.2.1 with hst3
    obtain ⟨ff1, ff2, ff3, ff4, ff5, ff6⟩ :=
      flush_history_fields env p.1 st.trigger_queue p.2.2.1
    have hnc : ∀ ev ∈ (p.2.1 ++ []) ++
        (p.2.2.1.map SessionEvent.assistantOutput) ++
        [SessionEvent.turnEnded (st.turn_seq + 1)
          ("processed " ++ toString st.trigger_queue.length ++ " trigger(s)")
          st3.history.length], evNoCount ev = true := by
      intro ev hev
      rcases List.mem_append.mp hev with h12 | hend
      · rcases List.mem_append.mp h12 with hpa | hout
        · rcases List.mem_append.mp hpa with hp7 | ha21
          · rcases p7 ev hp7 with hin | hok
            · simp at hin
            · exact hok.1
          · simp at ha21
        · rcases List.mem_map.mp hout with ⟨o, _, rfl⟩
          rfl
      · rw [List.mem_singleton] at hend
        subst hend
        rfl
    refine ⟨taskInv_of_fields_eq hinvp ff1 ff2 ff3 ff4, ?_,
      by rw [ff5, p5], by rw [ff6, p6], ?_, ?_⟩
    · intro id t hget hterm
      have hgetp : taskGet p.1.tasks id = some t := by
        rw [p1]
        exact hget
      refine ⟨by rw [ff1]; exact hgetp, ?_⟩
      intro ev hev
      rcases List.mem_cons.mp hev with rfl | hev
      · rfl
      · rcases List.mem_append.mp hev with h12 | hend
        · rcases List.mem_append.mp h12 with hpa | hout
          · rcases List.mem_append.mp hpa with hp7 | ha21
            · rcases p7 ev hp7 with hin | hok
              · simp at hin
              · exact hok.2 id
            · simp at ha21
          · rcases List.mem_map.mp hout with ⟨o, _, rfl⟩
            rfl
        · rw [List.mem_singleton] at hend
          subst hend
          rfl
    · rw [countAccepted_cons_not_accepted _ _ rfl, countAccepted_eq_zero _ hnc]
    · rw [tallySum_cons, tallySum_eq_zero _ hnc]
      rfl

theorem process_turns_go_empty (env : SessionEnv) (fuel : Nat)
    (st : SessionState2) (hq : st.trigger_queue = []) :
    process_turns_go env fuel st = (st, []) := by
  cases fuel with
  | zero => rfl
  | succ n =>
    simp only [process_turns_go]
    rw [hq]

/-- The fueled turn loop with fuel equal to the entry queue length drains
the queue, preserves the invariant and terminal bindings, and tallies
exactly the queue length without accepting anything. -/
theorem process_turns_go_spec (env : SessionEnv) : ∀ (fuel : Nat) (st : SessionState2),
    TaskInv env st →
    TaskInv env (process_turns_go env fuel st).1 ∧
    TasksPreserved st (process_turns_go env fuel st).1
      (process_turns_go env fuel st).2 ∧
    (process_turns_go env fuel st).1.turn_in_progress = st.turn_in_progress ∧
    (fuel = st.trigger_queue.length →
      (process_turns_go env fuel st).1.trigger_queue = [] ∧
      countAccepted (process_turns_go env fuel st).2 = 0 ∧
      tallySum (process_turns_go env fuel st).2 = st.trigger_queue.length) := by
  intro fuel
  induction fuel with
  | zero =>
    intro st h
    refine ⟨h, tasksPreserved_refl st, rfl, ?_⟩
    intro hf
    have hq : st.trigger_queue = [] := List.eq_nil_of_length_eq_zero hf.symm
    exact ⟨hq, rfl, by rw [hq]; rfl⟩
  | succ n ih =>
    intro st h
    cases hq : st.trigger_queue with
    | nil =>
      have hgo : process_turns_go env (n + 1) st = (st, []) :=
        process_turns_go_empty env (n + 1) st hq
      rw [hgo]
      refine ⟨h, tasksPreserved_refl st, rfl, ?_⟩
      intro hf
      exact ⟨hq, rfl, rfl⟩
    | cons t rest =>
      have hgo : process_turns_go env (n + 1) st =
          ((process_turns_go env n (run_one_turn env st).1).1,
           (run_one_turn env st).2 ++
             (process_turns_go env n (run_one_turn env st).1).2) := by
        simp only [process_turns_go]
        rw [hq]
      obtain ⟨r1, r2, r3, r4, r5, r6⟩ := run_one_turn_spec env st h
      have hgoE : process_turns_go env n (run_one_turn env st).1
          = ((run_one_turn env st).1, []) :=
        process_turns_go_empty env n _ r3
      rw [hgo, hgoE]
      dsimp only
      refine ⟨r1, ?_, r4, ?_⟩
      · intro id t2 hget hterm
        obtain ⟨hb, he⟩ := r2 id t2 hget hterm
        refine ⟨hb, ?_⟩
        intro ev hev
        rcases List.mem_append.mp hev with hin | hin
        · exact he ev hin
        · simp at hin
      · intro hf
        refine ⟨r3, ?_, ?_⟩
        · rw [countAccepted_append, r5]
          rfl
        · rw [tallySum_append, r6, hq]
          rfl

/-- `process_turns`: from a quiescent state it drains the queue, accepts
nothing, tallies the entry queue length and ends with the flag down; with
a turn in progress it is a no-op. -/
theorem process_turns_spec (env : SessionEnv) (st : SessionState2)
    (h : TaskInv env st) :
    TaskInv env (process_turns env st).1 ∧
    TasksPreserved st (process_turns env st).1 (process_turns env st).2 ∧
    (st.turn_in_progress = true → process_turns env st = (st, [])) ∧
    (st.turn_in_progress = false →
      (process_turns env st).1.trigger_queue = [] ∧
      (process_turns env st).1.turn_in_progress = false ∧
      countAccepted (process_turns env st).2 = 0 ∧
      tallySum (process_turns env st).2 = st.trigger_queue.length) := by
  unfold process_turns
  by_cases htip : st.turn_in_progress = true
  · rw [if_pos htip]
    refine ⟨h, tasksPreserved_refl st, fun _ => rfl, ?_⟩
    intro hh
    rw [hh] at htip
    exact absurd htip (by decide)
  · rw [if_neg htip]
    dsimp only
    set st1 : SessionState2 := { st with turn_in_progress := true } with hst1
    have hinv1 : TaskInv env st1 := taskInv_of_fields_eq h rfl rfl rfl rfl
    obtain ⟨g1, g2, g3, g4⟩ :=
      process_turns_go_spec env st1.trigger_queue.length st1 hinv1
    obtain ⟨gq, gc, gt⟩ := g4 rfl
    refine ⟨taskInv_of_fields_eq g1 rfl rfl rfl rfl, ?_, ?_, ?_⟩
    · intro id t hget hterm
      obtain ⟨hb, he⟩ := g2 id t hget hterm
      exact ⟨hb, he⟩
    · intro hh
      exact absurd hh htip
    · intro _
      exact ⟨gq, rfl, gc, gt⟩

/-- From an already-drained quiescent state, `process_turns` is the
identity with no events. -/
theorem process_turns_boundary_id (env : SessionEnv) (st : SessionState2)
    (hq : st.trigger_queue = []) (ht : st.turn_in_progress = false) :
    process_turns env st = (st, []) := by
  obtain ⟨sid, pu, asv, tq, hist, tk, pend, run, tsq, tip, tsk, trs⟩ := st
  simp only at hq ht
  subst hq
  subst ht
  rfl

/-- One mailbox command preserves the invariant and terminal bindings;
from a boundary state it restores the boundary and balances accepted
triggers against tallies. -/
theorem session_step_spec (env : SessionEnv) (st : SessionState2)
    (c : SessionCommand2) (h : TaskInv env st) :
    TaskInv env (session_step env st c).1 ∧
    TasksPreserved st (session_step env st c).1 (session_step env st c).2 ∧
    (st.trigger_queue = [] → st.turn_in_progress = false →
      (session_step env st c).1.trigger_queue = [] ∧
      (session_step env st c).1.turn_in_progress = false ∧
      countAccepted (session_step env st c).2
        = tallySum (session_step env st c).2) := by
  cases c with
  | enqueueTrigger t =>
    unfold session_step enqueue_trigger
    dsimp only
    have hinvE : TaskInv env { st with trigger_queue := st.trigger_queue ++ [t] } :=
      taskInv_of_fields_eq h rfl rfl rfl rfl
    obtain ⟨pp1, pp2, pp3, pp4⟩ := process_turns_spec env
      { st with trigger_queue := st.trigger_queue ++ [t] } hinvE
    refine ⟨pp1, ?_, ?_⟩
    · intro id t2 hget hterm
      obtain ⟨hb, he⟩ := pp2 id t2 hget hterm
      refine ⟨hb, ?_⟩
      intro ev hev
      rcases List.mem_append.mp hev with hin | hin
      · rw [List.mem_singleton] at hin
        subst hin
        rfl
      · exact he ev hin
    · intro hq htip
      obtain ⟨q1, q2, q3, q4⟩ := pp4 htip
      refine ⟨q1, q2, ?_⟩
      rw [countAccepted_append, tallySum_append, q3, q4]
      rw [show ({ st with trigger_queue := st.trigger_queue ++ [t] }
        : SessionState2).trigger_queue = st.trigger_queue ++ [t] from rfl, hq]
      rfl
  | getSummary =>
    exact ⟨h, tasksPreserved_refl st, fun hq htip => ⟨hq, htip, rfl⟩⟩
  | listTasks =>
    exact ⟨h, tasksPreserved_refl st, fun hq htip => ⟨hq, htip, rfl⟩⟩
  | cancelTask task_id =>
    unfold session_step
    dsimp only
    obtain ⟨c1, c2, c3, c4, c5⟩ := cancel_task_spec env st task_id h
    refine ⟨c1, c2, ?_⟩
    intro hq htip
    refine ⟨c3.trans hq, c4.trans htip, ?_⟩
    rw [countAccepted_eq_zero _ (fun ev hev => evNoCount_of_tsc ev (c5 ev hev)),
      tallySum_eq_zero _ (fun ev hev => evNoCount_of_tsc ev (c5 ev hev))]
  | taskFinished task_id ok msg =>
    unfold session_step
    dsimp only
    obtain ⟨h1, h2, h3, added, hq2, hc2, ht2⟩ :=
      handle_finished_task_spec env st task_id ok msg h
    obtain ⟨pp1, pp2, pp3, pp4⟩ := process_turns_spec env
      (handle_finished_task env st task_id ok msg).1 h1
    refine ⟨pp1, tasksPreserved_trans h2 pp2, ?_⟩
    intro hq htip
    obtain ⟨q1, q2, q3, q4⟩ := pp4 (h3.trans htip)
    refine ⟨q1, q2, ?_⟩
    rw [countAccepted_append, tallySum_append, q3, q4, hc2, ht2, hq2, hq]
    simp

/-- A command sequence from a boundary state: invariant and terminal
bindings preserved, boundary restored, accepted count equals the tally
sum. -/
theorem session_run_spec (env : SessionEnv) : ∀ (cmds : List SessionCommand2)
    (st : SessionState2), TaskInv env st →
    TaskInv env (session_run env st cmds).1 ∧
    TasksPreserved st (session_run env st cmds).1 (session_run env st cmds).2 ∧
    (st.trigger_queue = [] → st.turn_in_progress = false →
      (session_run env st cmds).1.trigger_queue = [] ∧
      (session_run env st cmds).1.turn_in_progress = false ∧
      countAccepted (session_run env st cmds).2
        = tallySum (session_run env st cmds).2) := by
  intro cmds
  induction cmds with
  | nil =>
    intro st h
    exact ⟨h, tasksPreserved_refl st, fun hq htip => ⟨hq, htip, rfl⟩⟩
  | cons c rest ih =>
    intro st h
    simp only [session_run]
    obtain ⟨s1, s2, s3⟩ := session_step_spec env st c h
    obtain ⟨i1, i2, i3⟩ := ih (session_step env st c).1 s1
    refine ⟨i1, tasksPreserved_trans s2 i2, ?_⟩
    intro hq htip
    obtain ⟨b1, b2, b3⟩ := s3 hq htip
    obtain ⟨d1, d2, d3⟩ := i3 b1 b2
    refine ⟨d1, d2, ?_⟩
    rw [countAccepted_append, tallySum_append, b3, d3]

/-! ### The claims C2, C3, C4 -/

/-- A silent environment for concrete witnesses: capacity 1, clock 0, an
orchestrator dispatching nothing, and empty profile stores. -/
def witnessEnv : SessionEnv :=
  { task_capacity := 1
    now := 0
    agentOutcome := fun _ =>
      { streamNotes := []
        tools := []
        failed := false
        failure_code := ""
        failure_message := ""
        diagnostics := []
        tool_call_count := 0 }
    fetchAgentSpec := fun _ => none
    fetchUserOk := fun _ => false }

/-- C2: every trigger accepted into the queue is included in exactly one
turn's `trigger_count` tally.  Starting from an event boundary (drained
queue, no turn in progress), over any sequence of mailbox commands the
number of `TriggerAccepted` events equals the sum of the `trigger_count`
tallies of the `TurnStarted` events — the turn loop, guarded by
`turn_in_progress`, drains the entire queue into the current turn's batch
(triggers enqueued mid-turn are coalesced into a single later turn), and
the run ends with the queue drained again, so nothing is dropped or
counted twice. -/
theorem c2_queue_drain (env : SessionEnv) (st : SessionState2)
    (cmds : List SessionCommand2) (h : BoundaryInv env st) :
    countAccepted (session_run env st cmds).2
      = tallySum (session_run env st cmds).2 ∧
    (session_run env st cmds).1.trigger_queue = [] ∧
    (session_run env st cmds).1.turn_in_progress = false := by
  obtain ⟨hinv, hq, htip⟩ := h
  obtain ⟨_, _, h3⟩ := session_run_spec env cmds st hinv
  obtain ⟨b1, b2, b3⟩ := h3 hq htip
  exact ⟨b3, b1, b2⟩

/-- Witness for C2: a fresh session accepting a heartbeat trigger and a
stray task-completion message. -/
theorem c2_queue_drain_witness :
    BoundaryInv witnessEnv (initial_session_state "s" []) ∧
    (countAccepted (session_run witnessEnv (initial_session_state "s" [])
        [SessionCommand2.enqueueTrigger
          { trigger_id := 1, created_at_unix_ms := 0, kind := TriggerKind.heartbeat },
         SessionCommand2.taskFinished 1 true "done"]).2
      = tallySum (session_run witnessEnv (initial_session_state "s" [])
        [SessionCommand2.enqueueTrigger
          { trigger_id := 1, created_at_unix_ms := 0, kind := TriggerKind.heartbeat },
         SessionCommand2.taskFinished 1 true "done"]).2 ∧
    (session_run witnessEnv (initial_session_state "s" [])
        [SessionCommand2.enqueueTrigger
          { trigger_id := 1, created_at_unix_ms := 0, kind := TriggerKind.heartbeat },
         SessionCommand2.taskFinished 1 true "done"]).1.trigger_queue = [] ∧
    (session_run witnessEnv (initial_session_state "s" [])
        [SessionCommand2.enqueueTrigger
          { trigger_id := 1, created_at_unix_ms := 0, kind := TriggerKind.heartbeat },
         SessionCommand2.taskFinished 1 true "done"]).1.turn_in_progress = false) :=
  ⟨by unfold BoundaryInv TaskInv; decide,
   c2_queue_drain witnessEnv (initial_session_state "s" [])
     [SessionCommand2.enqueueTrigger
       { trigger_id := 1, created_at_unix_ms := 0, kind := TriggerKind.heartbeat },
      SessionCommand2.taskFinished 1 true "done"]
     (by unfold BoundaryInv TaskInv; decide)⟩

/-- C3: starting from the task-bookkeeping invariant, at every event
boundary reached by any command sequence `|running_task_ids| ≤
task_capacity` and no task-id is in both `pending_task_ids` and
`running_task_ids`; moreover `queue_task`, `cancel_task`,
`handle_finished_task` and the pending-task promotion loop each
individually preserve both properties. -/
theorem c3_task_capacity_invariant (env : SessionEnv) (st : SessionState2)
    (h : TaskInv env st) :
    (∀ cmds : List SessionCommand2,
      (session_run env st cmds).1.running_task_ids.length ≤ env.task_capacity ∧
      ∀ id ∈ (session_run env st cmds).1.running_task_ids,
        id ∉ (session_run env st cmds).1.pending_task_ids) ∧
    (∀ tool args : String,
      (queue_task env st tool args).1.running_task_ids.length
        ≤ env.task_capacity ∧
      ∀ id ∈ (queue_task env st tool args).1.running_task_ids,
        id ∉ (queue_task env st tool args).1.pending_task_ids) ∧
    (∀ task_id : Nat,
      (cancel_task env st task_id).1.running_task_ids.length
        ≤ env.task_capacity ∧
      ∀ id ∈ (cancel_task env st task_id).1.running_task_ids,
        id ∉ (cancel_task env st task_id).1.pending_task_ids) ∧
    (∀ (task_id : Nat) (ok : Bool) (msg : String),
      (handle_finished_task env st task_id ok msg).1.running_task_ids.length
        ≤ env.task_capacity ∧
      ∀ id ∈ (handle_finished_task env st task_id ok msg).1.running_task_ids,
        id ∉ (handle_finished_task env st task_id ok msg).1.pending_task_ids) ∧
    ((maybe_start_pending_tasks env st).1.running_task_ids.length
        ≤ env.task_capacity ∧
      ∀ id ∈ (maybe_start_pending_tasks env st).1.running_task_ids,
        id ∉ (maybe_start_pending_tasks env st).1.pending_task_ids) := by
  refine ⟨?_, ?_, ?_, ?_, ?_⟩
  · intro cmds
    obtain ⟨i1, _, _⟩ := session_run_spec env cmds st h
    exact ⟨i1.2.2.2.1, i1.2.2.1⟩
  · intro tool args
    obtain ⟨q1, _⟩ := queue_task_spec env st tool args h
    exact ⟨q1.2.2.2.1, q1.2.2.1⟩
  · intro task_id
    obtain ⟨c1, _⟩ := cancel_task_spec env st task_id h
    exact ⟨c1.2.2.2.1, c1.2.2.1⟩
  · intro task_id ok msg
    obtain ⟨h1, _⟩ := handle_finished_task_spec env st task_id ok msg h
    exact ⟨h1.2.2.2.1, h1.2.2.1⟩
  · obtain ⟨m1, _⟩ :=
      maybe_start_spec env st.pending_task_ids.length st le_rfl h
    exact ⟨m1.2.2.2.1, m1.2.2.1⟩

/-- Witness for C3 at a fresh session under the silent environment. -/
theorem c3_task_capacity_invariant_witness :
    TaskInv witnessEnv (initial_session_state "s" []) ∧
    (∀ cmds : List SessionCommand2,
      (session_run witnessEnv (initial_session_state "s" []) cmds).1.running_task_ids.length
        ≤ witnessEnv.task_capacity ∧
      ∀ id ∈ (session_run witnessEnv (initial_session_state "s" []) cmds).1.running_task_ids,
        id ∉ (session_run witnessEnv (initial_session_state "s" []) cmds).1.pending_task_ids) :=
  ⟨by unfold TaskInv; decide,
   (c3_task_capacity_invariant witnessEnv (initial_session_state "s" [])
     (by unfold TaskInv; decide)).1⟩

/-- A task already settled (`succeeded`), for the C4 witness. -/
def witnessTask : Task :=
  { task_id := 1
    tool_name := "fs_list"
    args_json := "{}"
    status := TaskStatus.succeeded
    result_message := "ok"
    created_at_unix_ms := 0
    updated_at_unix_ms := 0 }

/-- A boundary state holding only the settled task, for the C4 witness. -/
def witnessStateC4 : SessionState2 :=
  { initial_session_state "s" [] with
    tasks := [(1, witnessTask)]
    task_seq := 1 }

/-- C4: task terminal states are sticky.  From an event boundary, once a
task's stored status is terminal (`succeeded`, `failed` or `canceled`),
any later command sequence leaves its binding unchanged and no later
`TaskStateChanged` event for that task-id carries a non-terminal status;
and a `TaskFinished` for a missing or already-terminal task (including
`canceled`, as when the detached completer fires after a `CancelTask`) is
ignored: the state is unchanged and no event is emitted. -/
theorem c4_terminal_sticky (env : SessionEnv) (st : SessionState2)
    (id : Nat) (t : Task) (cmds : List SessionCommand2)
    (hb : BoundaryInv env st)
    (hget : taskGet st.tasks id = some t)
    (hterm : t.status.isTerminal = true) :
    taskGet (session_run env st cmds).1.tasks id = some t ∧
    (∀ t2 : Task,
      SessionEvent.taskStateChanged t2 ∈ (session_run env st cmds).2 →
      t2.task_id = id → t2.status.isTerminal = true) ∧
    (∀ (id2 : Nat) (ok : Bool) (msg : String),
      (taskGet st.tasks id2 = none ∨
        ∃ t2, taskGet st.tasks id2 = some t2 ∧ t2.status.isTerminal = true) →
      session_step env st (SessionCommand2.taskFinished id2 ok msg) = (st, [])) := by
  obtain ⟨hinv, hq, htip⟩ := hb
  obtain ⟨_, hpres, _⟩ := session_run_spec env cmds st hinv
  obtain ⟨hbind, hev⟩ := hpres id t hget hterm
  refine ⟨hbind, ?_, ?_⟩
  · intro t2 hmem heq
    have hf := hev (SessionEvent.taskStateChanged t2) hmem
    unfold evTaskStateChangedFor at hf
    simp only [decide_eq_false_iff_not] at hf
    exact absurd heq hf
  · intro id2 ok msg hcond
    unfold session_step
    dsimp only
    rw [handle_finished_ignored env st id2 ok msg hcond]
    dsimp only
    rw [process_turns_boundary_id env st hq htip]
    rfl

/-- Witness for C4: the settled task survives a cancel, a stray
completion and a heartbeat turn. -/
theorem c4_terminal_sticky_witness :
    (BoundaryInv witnessEnv witnessStateC4 ∧
      taskGet witnessStateC4.tasks 1 = some witnessTask ∧
      witnessTask.status.isTerminal = true) ∧
    (taskGet (session_run witnessEnv witnessStateC4
        [SessionCommand2.cancelTask 1,
         SessionCommand2.taskFinished 1 false "late",
         SessionCommand2.enqueueTrigger
           { trigger_id := 7, created_at_unix_ms := 0,
             kind := TriggerKind.heartbeat }]).1.tasks 1 = some witnessTask ∧
      (∀ t2 : Task,
        SessionEvent.taskStateChanged t2 ∈ (session_run witnessEnv witnessStateC4
          [SessionCommand2.cancelTask 1,
           SessionCommand2.taskFinished 1 false "late",
           SessionCommand2.enqueueTrigger
             { trigger_id := 7, created_at_unix_ms := 0,
               kind := TriggerKind.heartbeat }]).2 →
        t2.task_id = 1 → t2.status.isTerminal = true) ∧
      (∀ (id2 : Nat) (ok : Bool) (msg : String),
        (taskGet witnessStateC4.tasks id2 = none ∨
          ∃ t2, taskGet witnessStateC4.tasks id2 = some t2 ∧
            t2.status.isTerminal = true) →
        session_step witnessEnv witnessStateC4
          (SessionCommand2.taskFinished id2 ok msg) = (witnessStateC4, []))) :=
  ⟨⟨by unfold BoundaryInv TaskInv; decide, by decide, by decide⟩,
   c4_terminal_sticky witnessEnv witnessStateC4 1 witnessTask
     [SessionCommand2.cancelTask 1,
      SessionCommand2.taskFinished 1 false "late",
      SessionCommand2.enqueueTrigger
        { trigger_id := 7, created_at_unix_ms := 0,
          kind := TriggerKind.heartbeat }]
     (by unfold BoundaryInv TaskInv; decide) (by decide) (by decide)⟩

end Fathom